import Mathlib

/-!
Shallow embedding of the FAT16 file-system simulator (src/src/shell.c and
src/src/fat_fs.h) in Lean 4.

The partition is modelled as a map from cluster index to its 1024 raw bytes,
and the in-memory FAT mirror `g_fat_table` as a map from cluster index to its
16-bit entry value.  Directory clusters are raw bytes, decoded on access with
the same fixed 32-byte record layout the C code obtains by union punning
(`union data_cluster`), little-endian integer fields.  Paths are the byte
sequences of the C path strings (no interior NUL).  Each operation mirrors the
control flow of its C function; operations that mutate the globals return the
resulting state together with the status code, since the C functions leave
their partial mutations in the globals on the failure paths as well.
-/

namespace FatFS

def CLUSTER_SIZE : Nat := 1024
def CLUSTER_COUNT : Nat := 4096
def BOOT_BLOCK_CLUSTER : Nat := 0
def FAT_CLUSTER_START : Nat := 1
def FAT_CLUSTER_COUNT : Nat := 8
def ROOT_DIR_CLUSTER : Nat := 9
def DATA_CLUSTER_START : Nat := 10
def FAT_ENTRY_FREE : Nat := 0x0000
def FAT_ENTRY_BOOT : Nat := 0xFFFD
def FAT_ENTRY_RESERVED : Nat := 0xFFFE
def FAT_ENTRY_EOF : Nat := 0xFFFF
def DIR_ENTRIES_PER_CLUSTER : Nat := 32
def ATTR_ARCHIVE : Nat := 0
def ATTR_DIRECTORY : Nat := 1

/-- The byte at offset `o` of a byte list (0 when out of range, as all
in-range accesses in the development are backed by length facts). -/
def byteAt (l : List Nat) (o : Nat) : Nat := l[o]?.getD 0

/-- Overwrite the bytes of `l` starting at offset `o` with `seg`
(the in-place `memcpy` / struct-field store of the C code). -/
def splice (l : List Nat) (o : Nat) (seg : List Nat) : List Nat :=
  l.take o ++ seg ++ l.drop (o + seg.length)

/-- Little-endian encoding of a `uint16_t` value. -/
def encode16 (v : Nat) : List Nat := [v % 256, v / 256 % 256]

/-- Little-endian encoding of a `uint32_t` value. -/
def encode32 (v : Nat) : List Nat :=
  [v % 256, v / 256 % 256, v / 65536 % 256, v / 16777216 % 256]

/-- The 18 bytes that `strncpy(filename, name, 17); filename[17] = 0;`
leaves in the `filename` field: the first 17 bytes of the name, zero padding
up to byte 16, and a forced NUL at byte 17. -/
def nameField (name : List Nat) : List Nat :=
  name.take 17 ++ List.replicate (17 - name.length) 0 ++ [0]

/-- The 18 raw bytes of the `filename` field of slot `i` of a directory
cluster. -/
def nameBytes (c : List Nat) (i : Nat) : List Nat :=
  (List.range 18).map (fun k => byteAt c (32 * i + k))

/-- The filename of slot `i` as the C string `strcmp` sees: the field bytes
up to the first NUL. -/
def entryFilenameC (c : List Nat) (i : Nat) : List Nat :=
  (nameBytes c i).takeWhile (fun b => b ≠ 0)

/-- The `attributes` byte of slot `i` (offset 18 of the 32-byte record). -/
def entryAttr (c : List Nat) (i : Nat) : Nat := byteAt c (32 * i + 18)

/-- The little-endian `first_block` field of slot `i` (offset 26). -/
def entryFirstBlock (c : List Nat) (i : Nat) : Nat :=
  byteAt c (32 * i + 26) + 256 * byteAt c (32 * i + 27)

/-- The little-endian `size` field of slot `i` (offset 28). -/
def entrySize (c : List Nat) (i : Nat) : Nat :=
  byteAt c (32 * i + 28) + 256 * byteAt c (32 * i + 29) +
    65536 * byteAt c (32 * i + 30) + 16777216 * byteAt c (32 * i + 31)

/-- Store a full directory entry into slot `i`, as mkdir/create do: filename,
attributes, first_block and size are written, the 7 reserved bytes keep the
previous content of the slot. -/
def writeDirEntry (c : List Nat) (i : Nat) (nf : List Nat) (attr fb sz : Nat) :
    List Nat :=
  splice (splice (splice (splice c (32 * i) nf) (32 * i + 18) [attr])
    (32 * i + 26) (encode16 fb)) (32 * i + 28) (encode32 sz)

/-- Store only `first_block` and `size` of slot `i` (the directory update of
`fs_write`). -/
def setEntryFirstSize (c : List Nat) (i fb sz : Nat) : List Nat :=
  splice (splice c (32 * i + 26) (encode16 fb)) (32 * i + 28) (encode32 sz)

/-- Store only `size` of slot `i` (the directory update of `fs_append`). -/
def setEntrySize (c : List Nat) (i sz : Nat) : List Nat :=
  splice c (32 * i + 28) (encode32 sz)

/-- The simulator state: the in-memory FAT mirror `g_fat_table` and the
partition file `fat.part` as a map from cluster index to its 1024 bytes. -/
structure FS where
  fat : Nat → Nat
  disk : Nat → List Nat

/-- Status codes distinguishing the stderr diagnostics of the C code; every
C operation itself returns only 0 or -1. -/
inductive Err where
  | NotFound
  | NotAFile
  | NotADir
  | DirFull
  | NoSpace
  | InvalidPath
  | DirNotEmpty
  | IOFail
deriving DecidableEq

/-- `read_cluster`: fails exactly when the index is out of range (the backing
file is otherwise always large enough after format). -/
def read_cluster (s : FS) (i : Nat) : Option (List Nat) :=
  if i < CLUSTER_COUNT then some (s.disk i) else none

/-- `write_cluster`: stores 1024 bytes at cluster `i`, failing on an
out-of-range index. -/
def write_cluster (s : FS) (i : Nat) (buf : List Nat) : Option FS :=
  if i < CLUSTER_COUNT then some { s with disk := Function.update s.disk i buf }
  else none

/-- Bytes of the `k`-th cluster (k = 0..7) of the FAT region as written from
the mirror: entry `j` occupies bytes `2*j` and `2*j+1`, little-endian. -/
def fatClusterBytes (fat : Nat → Nat) (k : Nat) : List Nat :=
  (List.range 1024).map (fun o =>
    let v := fat (512 * k + o / 2)
    if o % 2 = 0 then v % 256 else v / 256 % 256)

/-- The `for` loop persisting the whole FAT mirror to clusters 1..8, run at
the end of every successful mutation. -/
def persistFat (s : FS) : FS :=
  { s with disk := fun i =>
      if 1 ≤ i ∧ i ≤ 8 then fatClusterBytes s.fat (i - 1) else s.disk i }

/-- The FAT contents `fs_format` installs in the mirror. -/
def formatFat : Nat → Nat := fun i =>
  if i = 0 then FAT_ENTRY_BOOT
  else if 1 ≤ i ∧ i ≤ 8 then FAT_ENTRY_RESERVED
  else if i = 9 then FAT_ENTRY_EOF
  else FAT_ENTRY_FREE

/-- `fs_format`: truncates the partition file (all clusters zero), writes the
boot block of 0xBB bytes, the FAT region from the fresh mirror, a zeroed root
directory, and leaves the data area zero.  The prior state is irrelevant. -/
def fs_format : FS :=
  { fat := formatFat,
    disk := fun i =>
      if i = 0 then List.replicate 1024 0xBB
      else if 1 ≤ i ∧ i ≤ 8 then fatClusterBytes formatFat (i - 1)
      else List.replicate 1024 0 }

/-- The `strtok(path, "/")` tokenisation: maximal nonempty runs of non-'/'
bytes ('/' is byte 47). -/
def splitPathAux : List Nat → List Nat → List (List Nat)
  | [], acc => if acc = [] then [] else [acc.reverse]
  | b :: rest, acc =>
    if b = 47 then
      (if acc = [] then splitPathAux rest [] else acc.reverse :: splitPathAux rest [])
    else splitPathAux rest (b :: acc)

def splitPath (path : List Nat) : List (List Nat) := splitPathAux path []

/-- The fields of `path_search_result_t`, with the copied directory entry
flattened into its fields (the 7 reserved bytes of the entry copy are never
read by any operation and are omitted). -/
structure path_search_result_t where
  name : List Nat
  found : Bool
  parent_cluster : Nat
  entry_cluster : Nat
  entry_index : Nat
  entry_filename : List Nat
  entry_attributes : Nat
  entry_first_block : Nat
  entry_size : Nat
deriving DecidableEq, Inhabited, Repr

/-- The zero-initialised result with `parent_cluster` preset to the root, as
at the top of `find_entry_by_path`. -/
def emptyResult : path_search_result_t :=
  { name := [], found := false, parent_cluster := ROOT_DIR_CLUSTER,
    entry_cluster := 0, entry_index := 0, entry_filename := [],
    entry_attributes := 0, entry_first_block := 0, entry_size := 0 }

/-- The inner scan of one directory cluster: the first of the 32 slots that
is occupied (leading filename byte nonzero) and whose stored name equals the
token byte-exactly. -/
def findInCluster (c : List Nat) (token : List Nat) : Option Nat :=
  (List.range 32).find? (fun i =>
    decide (byteAt c (32 * i) ≠ 0) && decide (entryFilenameC c i = token))

/-- The component loop of `find_entry_by_path`; `none` is the critical error
(a failing `read_cluster`). -/
def walkPath (s : FS) : List (List Nat) → Nat → path_search_result_t →
    Option path_search_result_t
  | [], _, r => some { r with found := true }
  | token :: rest, cur, r =>
    let r1 := { r with name := token.take 17 }
    match read_cluster s cur with
    | none => none
    | some c =>
      match findInCluster c token with
      | none => some { r1 with found := false }
      | some i =>
        let fb := entryFirstBlock c i
        walkPath s rest fb
          { r1 with
            parent_cluster := cur,
            entry_cluster := fb,
            entry_index := i,
            entry_filename := entryFilenameC c i,
            entry_attributes := entryAttr c i,
            entry_first_block := fb,
            entry_size := entrySize c i }

/-- The directory clusters read by the component loop, in order (on a fully
successful walk this is one cluster per component, the last one being the
parent of the final entry). -/
def walkDirsRead (s : FS) : List (List Nat) → Nat → List Nat
  | [], _ => []
  | token :: rest, cur =>
    cur ::
      (match read_cluster s cur with
       | none => []
       | some c =>
         match findInCluster c token with
         | none => []
         | some i => walkDirsRead s rest (entryFirstBlock c i))

/-- `find_entry_by_path` (the path is first copied into a 512-byte buffer by
`strncpy`, hence the truncation to 511 bytes). -/
def find_entry_by_path (s : FS) (path : List Nat) :
    Option path_search_result_t :=
  let p := path.take 511
  if p = [47] then
    some { emptyResult with
           found := true,
           entry_cluster := ROOT_DIR_CLUSTER,
           entry_attributes := ATTR_DIRECTORY,
           entry_filename := [47] }
  else
    match splitPath p with
    | [] => some emptyResult
    | tokens => walkPath s tokens ROOT_DIR_CLUSTER emptyResult

/-- `find_free_cluster`: the first FAT-free cluster index in the data area
10..4095, or the sentinel 0 when the partition is full. -/
def find_free_cluster (fat : Nat → Nat) : Nat :=
  match (List.range' 10 4086).find? (fun i => fat i = FAT_ENTRY_FREE) with
  | some i => i
  | none => 0

/-- `find_free_dir_entry`: outer `none` is a failing cluster read; inner
`none` means all 32 slots are occupied. -/
def find_free_dir_entry (s : FS) (dir_cluster_index : Nat) :
    Option (Option Nat) :=
  match read_cluster s dir_cluster_index with
  | none => none
  | some c => some ((List.range 32).find? (fun i => byteAt c (32 * i) = 0))

/-- The loop of `free_cluster_chain`, fuel-indexed.  The C loop keeps going
while the running cluster value is nonzero and `< 0xFFFF` (so the sentinel
values 0xFFFD and 0xFFFE do not stop it); every iteration zeroes one table
entry that was read nonzero, or terminates within one further step, so 65536
fuel is never exhausted. -/
def freeChainAux : Nat → (Nat → Nat) → Nat → (Nat → Nat)
  | 0, fat, _ => fat
  | fuel + 1, fat, current =>
    if current ≠ 0 ∧ current < FAT_ENTRY_EOF then
      freeChainAux fuel (Function.update fat current FAT_ENTRY_FREE) (fat current)
    else fat

/-- `free_cluster_chain` acting on the FAT mirror. -/
def free_cluster_chain (fat : Nat → Nat) (starting_cluster : Nat) : Nat → Nat :=
  freeChainAux 65536 fat starting_cluster

/-- The FAT indices written Free by `free_cluster_chain`, in visit order
(same recursion and stopping rule as `freeChainAux`). -/
def chainVisitedAux : Nat → (Nat → Nat) → Nat → List Nat
  | 0, _, _ => []
  | fuel + 1, fat, current =>
    if current ≠ 0 ∧ current < FAT_ENTRY_EOF then
      current :: chainVisitedAux fuel (Function.update fat current FAT_ENTRY_FREE) (fat current)
    else []

def chainVisited (fat : Nat → Nat) (starting_cluster : Nat) : List Nat :=
  chainVisitedAux 65536 fat starting_cluster

/-- Modelled from the spec: the walk of `free_chain(head)` as §4.5 words it,
stopping "when the current entry is ≥ 0xFFFD (any sentinel) or 0", for
comparison with the code's `free_cluster_chain`. -/
def freeChainSpecAux : Nat → (Nat → Nat) → Nat → (Nat → Nat)
  | 0, fat, _ => fat
  | fuel + 1, fat, current =>
    if current ≠ 0 ∧ current < FAT_ENTRY_BOOT then
      freeChainSpecAux fuel (Function.update fat current FAT_ENTRY_FREE) (fat current)
    else fat

def freeChainSpec (fat : Nat → Nat) (starting_cluster : Nat) : Nat → Nat :=
  freeChainSpecAux 65536 fat starting_cluster

/-- Index of the last '/' byte of the path (`strrchr(path_copy, '/')`). -/
def lastIndexOfSlash : List Nat → Option Nat
  | [] => none
  | b :: rest =>
    match lastIndexOfSlash rest with
    | some k => some (k + 1)
    | none => if b = 47 then some 0 else none

/-- `fs_mkdir`.  The split at the last '/' gives (parent path, new name); a
slash at position 0 makes the parent the root.  The `find_free_dir_entry`
read failure and the directory-full sentinel both take the C code's single
`free_entry_index < 0` failure path. -/
def fs_mkdir (s : FS) (path : List Nat) : (Except Err Unit) × FS :=
  let path_copy := path.take 511
  match lastIndexOfSlash path_copy with
  | none => (Except.error Err.InvalidPath, s)
  | some k =>
    let parent_path := if k = 0 then [47] else path_copy.take k
    let new_dir_name := path_copy.drop (k + 1)
    match find_entry_by_path s parent_path with
    | none => (Except.error Err.NotFound, s)
    | some parent_info =>
      if parent_info.found = false then (Except.error Err.NotFound, s)
      else if parent_info.entry_attributes ≠ ATTR_DIRECTORY then
        (Except.error Err.NotADir, s)
      else
        match find_free_dir_entry s parent_info.entry_cluster with
        | none => (Except.error Err.DirFull, s)
        | some none => (Except.error Err.DirFull, s)
        | some (some free_entry_index) =>
          let parent_cluster_data := s.disk parent_info.entry_cluster
          let new_cluster_idx := find_free_cluster s.fat
          if new_cluster_idx = 0 then (Except.error Err.NoSpace, s)
          else
            let pc2 := writeDirEntry parent_cluster_data free_entry_index
              (nameField new_dir_name) ATTR_DIRECTORY new_cluster_idx 0
            let s1 : FS :=
              { s with fat := Function.update s.fat new_cluster_idx FAT_ENTRY_EOF }
            match write_cluster s1 parent_info.entry_cluster pc2 with
            | none => (Except.error Err.IOFail, s1)
            | some s2 =>
              match write_cluster s2 new_cluster_idx (List.replicate 1024 0) with
              | none => (Except.error Err.IOFail, s2)
              | some s3 => (Except.ok (), persistFat s3)

/-- `fs_create`: identical to `fs_mkdir` except the attribute is regular file
and no zeroed data cluster is written for the new (empty) file. -/
def fs_create (s : FS) (path : List Nat) : (Except Err Unit) × FS :=
  let path_copy := path.take 511
  match lastIndexOfSlash path_copy with
  | none => (Except.error Err.InvalidPath, s)
  | some k =>
    let parent_path := if k = 0 then [47] else path_copy.take k
    let new_file_name := path_copy.drop (k + 1)
    match find_entry_by_path s parent_path with
    | none => (Except.error Err.NotFound, s)
    | some parent_info =>
      if parent_info.found = false ∨ parent_info.entry_attributes ≠ ATTR_DIRECTORY then
        (Except.error Err.NotFound, s)
      else
        match find_free_dir_entry s parent_info.entry_cluster with
        | none => (Except.error Err.DirFull, s)
        | some none => (Except.error Err.DirFull, s)
        | some (some free_entry_index) =>
          let parent_cluster_data := s.disk parent_info.entry_cluster
          let new_cluster_idx := find_free_cluster s.fat
          if new_cluster_idx = 0 then (Except.error Err.NoSpace, s)
          else
            let pc2 := writeDirEntry parent_cluster_data free_entry_index
              (nameField new_file_name) ATTR_ARCHIVE new_cluster_idx 0
            let s1 : FS :=
              { s with fat := Function.update s.fat new_cluster_idx FAT_ENTRY_EOF }
            match write_cluster s1 parent_info.entry_cluster pc2 with
            | none => (Except.error Err.IOFail, s1)
            | some s2 => (Except.ok (), persistFat s2)

/-- The directory-not-empty scan of `fs_unlink`: `none` is a failing cluster
read, otherwise whether some of the 32 slots is occupied. -/
def dirNotEmpty (s : FS) (c : Nat) : Option Bool :=
  match read_cluster s c with
  | none => none
  | some dir_content =>
    some ((List.range 32).any (fun i => decide (byteAt dir_content (32 * i) ≠ 0)))

/-- `fs_unlink`: resolve, reject a non-empty directory, free the chain in the
mirror, zero the 32-byte slot in the parent cluster, persist. -/
def fs_unlink (s : FS) (path : List Nat) : (Except Err Unit) × FS :=
  match find_entry_by_path s path with
  | none => (Except.error Err.NotFound, s)
  | some result =>
    if result.found = false then (Except.error Err.NotFound, s)
    else
      let commit : (Except Err Unit) × FS :=
        let fat1 := free_cluster_chain s.fat result.entry_first_block
        let s1 : FS := { s with fat := fat1 }
        match read_cluster s1 result.parent_cluster with
        | none => (Except.error Err.IOFail, s1)
        | some parent_dir_content =>
          let pc2 := splice parent_dir_content (32 * result.entry_index)
            (List.replicate 32 0)
          match write_cluster s1 result.parent_cluster pc2 with
          | none => (Except.error Err.IOFail, s1)
          | some s2 => (Except.ok (), persistFat s2)
      if result.entry_attributes = ATTR_DIRECTORY then
        match dirNotEmpty s result.entry_cluster with
        | none => (Except.error Err.IOFail, s)
        | some true => (Except.error Err.DirNotEmpty, s)
        | some false => commit
      else commit

/-- The emit loop of `fs_read`: while bytes remain and the current cluster
index is below the end-of-chain sentinel, emit `min(remaining, 1024)` bytes
of the cluster and follow the FAT mirror.  The C code streams to stdout, so
on a failing read the already-emitted prefix is lost here; only successful
reads are compared by the theorems.  Every iteration consumes at least one
remaining byte, so the `btr + 1` fuel supplied by `readLoop` is never
exhausted. -/
def readLoopAux (s : FS) : Nat → Nat → Nat → Except Err (List Nat)
  | 0, _, _ => Except.error Err.IOFail
  | fuel + 1, current, btr =>
    if 0 < btr ∧ current < FAT_ENTRY_EOF then
      match read_cluster s current with
      | none => Except.error Err.IOFail
      | some buffer =>
        let len := min btr CLUSTER_SIZE
        match readLoopAux s fuel (s.fat current) (btr - len) with
        | Except.error e => Except.error e
        | Except.ok rest => Except.ok (buffer.take len ++ rest)
    else Except.ok []

def readLoop (s : FS) (current : Nat) (btr : Nat) : Except Err (List Nat) :=
  readLoopAux s (btr + 1) current btr

/-- `fs_read`: the emitted stdout bytes are the file content followed by the
presentation newline (byte 10); the state is never mutated. -/
def fs_read (s : FS) (path : List Nat) : (Except Err (List Nat)) × FS :=
  match find_entry_by_path s path with
  | none => (Except.error Err.NotFound, s)
  | some result =>
    if result.found = false then (Except.error Err.NotFound, s)
    else if result.entry_attributes ≠ ATTR_ARCHIVE then
      (Except.error Err.NotAFile, s)
    else
      match readLoop s result.entry_first_block result.entry_size with
      | Except.error e => (Except.error e, s)
      | Except.ok out => (Except.ok (out ++ [10]), s)

/-- The successive `min(remaining, 1024)`-byte slices of the content, as the
pointer loop of `fs_write` walks them. -/
def chunksAux : Nat → List Nat → List (List Nat)
  | 0, _ => []
  | fuel + 1, l => if l = [] then [] else l.take 1024 :: chunksAux fuel (l.drop 1024)

def chunks1024 (l : List Nat) : List (List Nat) := chunksAux (l.length + 1) l

/-- The allocation loop of `fs_write`: allocate a cluster per slice, link it
behind the running tail (or remember it as the chain head), mark it
end-of-chain, and write the zero-padded slice.  On allocator failure the
partially built chain is freed in the mirror (the rollback) and the loop
fails with no-space. -/
def writeAllocLoop : FS → List (List Nat) → Nat → Nat → (Except Err Nat) × FS
  | s, [], first_cluster, _current => (Except.ok first_cluster, s)
  | s, chunk :: rest, first_cluster, current_cluster =>
    let next_cluster := find_free_cluster s.fat
    if next_cluster = 0 then
      (Except.error Err.NoSpace,
        { s with fat := free_cluster_chain s.fat first_cluster })
    else
      let fat1 := if first_cluster = 0 then s.fat
        else Function.update s.fat current_cluster next_cluster
      let first1 := if first_cluster = 0 then next_cluster else first_cluster
      let fat2 := Function.update fat1 next_cluster FAT_ENTRY_EOF
      let buffer := chunk ++ List.replicate (1024 - chunk.length) 0
      match write_cluster { s with fat := fat2 } next_cluster buffer with
      | none => (Except.error Err.IOFail, { s with fat := fat2 })
      | some s1 => writeAllocLoop s1 rest first1 next_cluster

/-- `fs_write`: frees the old chain, allocates and fills the new one (a
single cluster is still allocated for empty content, with no free-cluster
check — the C code ignores the 0 sentinel there), then rewrites the parent
slot's first_block and size and persists the FAT. -/
def fs_write (s : FS) (path content : List Nat) : (Except Err Unit) × FS :=
  match find_entry_by_path s path with
  | none => (Except.error Err.NotFound, s)
  | some result =>
    if result.found = false ∨ result.entry_attributes ≠ ATTR_ARCHIVE then
      (Except.error Err.NotFound, s)
    else
      let fat1 := free_cluster_chain s.fat result.entry_first_block
      let s1 : FS := { s with fat := fat1 }
      let content_len := content.length
      match (if 0 < content_len then writeAllocLoop s1 (chunks1024 content) 0 0
             else
               let fc := find_free_cluster s1.fat
               (Except.ok fc,
                 { s1 with fat := Function.update s1.fat fc FAT_ENTRY_EOF })) with
      | (Except.error e, s2) => (Except.error e, s2)
      | (Except.ok first_cluster, s2) =>
        match read_cluster s2 result.parent_cluster with
        | none => (Except.error Err.IOFail, s2)
        | some parent_dir_content =>
          let pc2 := setEntryFirstSize parent_dir_content result.entry_index
            first_cluster content_len
          match write_cluster s2 result.parent_cluster pc2 with
          | none => (Except.error Err.IOFail, s2)
          | some s3 => (Except.ok (), persistFat s3)

/-- The chain-tail walk of `fs_append` (`while (g_fat_table[c] != EOF)`),
fuel-indexed since a corrupted cyclic FAT would loop forever in C. -/
def walkTailAux : Nat → (Nat → Nat) → Nat → Nat
  | 0, _, current => current
  | fuel + 1, fat, current =>
    if fat current ≠ FAT_ENTRY_EOF then walkTailAux fuel fat (fat current)
    else current

/-- The main append loop: fill the working buffer from `offset`, write it to
the current cluster, and while content remains allocate, link and zero a new
cluster.  The C loop maintains `offset < 1024` (it is a size modulo 1024 on
entry and 0 afterwards), so every iteration consumes at least one content
byte and the `rem.length + 1` fuel supplied by `appendLoop` is never
exhausted. -/
def appendLoopAux : Nat → FS → Nat → List Nat → Nat → List Nat →
    (Except Err Unit) × FS
  | 0, s, _, _, _, _ => (Except.error Err.IOFail, s)
  | fuel + 1, s, current_cluster, buffer, offset, rem =>
    if rem = [] then (Except.ok (), s)
    else
      let bytes_to_copy := min rem.length (1024 - offset)
      let buf2 := splice buffer offset (rem.take bytes_to_copy)
      match write_cluster s current_cluster buf2 with
      | none => (Except.error Err.IOFail, s)
      | some s1 =>
        let rem2 := rem.drop bytes_to_copy
        if rem2 = [] then (Except.ok (), s1)
        else
          let new_cluster := find_free_cluster s1.fat
          if new_cluster = 0 then (Except.error Err.NoSpace, s1)
          else
            let fat2 :=
              Function.update (Function.update s1.fat current_cluster new_cluster)
                new_cluster FAT_ENTRY_EOF
            let s2 : FS := { s1 with fat := fat2 }
            appendLoopAux fuel s2 new_cluster (List.replicate 1024 0) 0 rem2

def appendLoop (s : FS) (current_cluster : Nat) (buffer : List Nat)
    (offset : Nat) (rem : List Nat) : (Except Err Unit) × FS :=
  appendLoopAux (rem.length + 1) s current_cluster buffer offset rem

/-- `fs_append`: resolve, walk to the chain tail, extend with a fresh cluster
when the tail is exactly full, run the append loop, then rewrite only the
size field of the parent slot and persist the FAT.  Empty content succeeds
without any change. -/
def fs_append (s : FS) (path content : List Nat) : (Except Err Unit) × FS :=
  match find_entry_by_path s path with
  | none => (Except.error Err.NotFound, s)
  | some result =>
    if result.found = false ∨ result.entry_attributes ≠ ATTR_ARCHIVE then
      (Except.error Err.NotFound, s)
    else if content.length = 0 then (Except.ok (), s)
    else
      let original_size := result.entry_size
      let current0 :=
        if 0 < original_size then walkTailAux 65536 s.fat result.entry_first_block
        else result.entry_first_block
      let offset_in_cluster := original_size % CLUSTER_SIZE
      let pre : Except Err (FS × Nat × List Nat) :=
        if offset_in_cluster = 0 ∧ 0 < original_size then
          let new_cluster := find_free_cluster s.fat
          if new_cluster = 0 then Except.error Err.NoSpace
          else
            let fatX :=
              Function.update (Function.update s.fat current0 new_cluster)
                new_cluster FAT_ENTRY_EOF
            Except.ok ({ s with fat := fatX },
              new_cluster, (List.replicate 1024 0 : List Nat))
        else
          match read_cluster s current0 with
          | none => Except.error Err.IOFail
          | some buffer => Except.ok (s, current0, buffer)
      match pre with
      | Except.error e => (Except.error e, s)
      | Except.ok (s1, cur1, buffer) =>
        match appendLoop s1 cur1 buffer offset_in_cluster content with
        | (Except.error e, s2) => (Except.error e, s2)
        | (Except.ok _, s2) =>
          match read_cluster s2 result.parent_cluster with
          | none => (Except.error Err.IOFail, s2)
          | some parent_dir_content =>
            let pc2 := setEntrySize parent_dir_content result.entry_index
              (original_size + content.length)
            match write_cluster s2 result.parent_cluster pc2 with
            | none => (Except.error Err.IOFail, s2)
            | some s3 => (Except.ok (), persistFat s3)

instance {ε α : Type} [DecidableEq ε] [DecidableEq α] : DecidableEq (Except ε α) :=
  fun a b =>
  match a, b with
  | Except.error e, Except.error f =>
    if h : e = f then isTrue (by rw [h]) else isFalse (fun hh => h (by injection hh))
  | Except.error _, Except.ok _ => isFalse (fun hh => Except.noConfusion hh)
  | Except.ok _, Except.error _ => isFalse (fun hh => Except.noConfusion hh)
  | Except.ok x, Except.ok y =>
    if h : x = y then isTrue (by rw [h]) else isFalse (fun hh => h (by injection hh))

/-! ### Concrete test states -/

/-- A root directory cluster holding a single regular-file entry "f" with
first cluster 10 and size 1 in slot 0 (all other slots free). -/
def rootWithF : List Nat :=
  writeDirEntry (List.replicate 1024 0) 0 (nameField [102]) ATTR_ARCHIVE 10 1

/-- A loaded one-file state: the formatted partition plus the regular file
"/f" (the single byte 102) stored at cluster 10. -/
def sF : FS :=
  { fat := fun i => if i = 10 then FAT_ENTRY_EOF else formatFat i,
    disk := fun i =>
      if i = 9 then rootWithF
      else if i = 10 then 102 :: List.replicate 1023 0
      else fs_format.disk i }

/-- The resolver's result for the path "/f" in `sF`. -/
def rF : path_search_result_t :=
  { name := [102], found := true, parent_cluster := 9, entry_cluster := 10,
    entry_index := 0, entry_filename := [102],
    entry_attributes := ATTR_ARCHIVE, entry_first_block := 10,
    entry_size := 1 }

/-- A FAT table whose chain from cluster 10 runs through the value 0xFFFD:
entry 10 holds 0xFFFD, entry 0xFFFD = 65533 holds 20, entry 20 holds the
end-of-chain sentinel. -/
def fatC5 : Nat → Nat := fun i =>
  if i = 10 then FAT_ENTRY_BOOT
  else if i = 65533 then 20
  else if i = 20 then FAT_ENTRY_EOF
  else 0

/-- A root directory cluster holding a single subdirectory entry "a" with
first cluster 10 in slot 0. -/
def rootWithDirA : List Nat :=
  writeDirEntry (List.replicate 1024 0) 0 (nameField [97]) ATTR_DIRECTORY 10 0

/-- The formatted partition plus one empty subdirectory "/a" at cluster 10. -/
def sDirA : FS :=
  { fat := fun i => if i = 10 then FAT_ENTRY_EOF else formatFat i,
    disk := fun i => if i = 9 then rootWithDirA else fs_format.disk i }

/-- The resolver's failing result for the missing path "/g" in `sF`. -/
def rGmiss : path_search_result_t :=
  { name := [103], found := false, parent_cluster := 9, entry_cluster := 0,
    entry_index := 0, entry_filename := [], entry_attributes := 0,
    entry_first_block := 0, entry_size := 0 }

/-- The synthesized resolver result for the root path "/". -/
def rRootRes : path_search_result_t :=
  { emptyResult with
    found := true,
    entry_cluster := ROOT_DIR_CLUSTER,
    entry_attributes := ATTR_DIRECTORY,
    entry_filename := [47] }

/-- A root directory cluster holding a single regular-file entry "f" with
first_block 0 and size 0 in slot 0. -/
def rootWithF0 : List Nat :=
  writeDirEntry (List.replicate 1024 0) 0 (nameField [102]) ATTR_ARCHIVE 0 0

/-- A full partition: every data cluster 10..4095 is allocated, and the root
holds the regular file "f" with first_block 0 and size 0. -/
def sFull : FS :=
  { fat := fun i => if 10 ≤ i ∧ i < 4096 then FAT_ENTRY_EOF else formatFat i,
    disk := fun i => if i = 9 then rootWithF0 else fs_format.disk i }

/-- The resolver's result for "/f" in `sFull`. -/
def rF0 : path_search_result_t :=
  { name := [102], found := true, parent_cluster := 9, entry_cluster := 0,
    entry_index := 0, entry_filename := [102],
    entry_attributes := ATTR_ARCHIVE, entry_first_block := 0,
    entry_size := 0 }

/-- A data cluster whose raw bytes look like a directory holding one entry
"x" (a regular file at cluster 11 of size 7) in slot 0. -/
def fileClusterAsDir : List Nat :=
  writeDirEntry (List.replicate 1024 0) 0 (nameField [120]) ATTR_ARCHIVE 11 7

/-- The one-file state whose file content bytes happen to form a plausible
directory record: exercises the resolver's missing is-directory check. -/
def sFileDir : FS :=
  { fat := fun i => if i = 10 then FAT_ENTRY_EOF else formatFat i,
    disk := fun i =>
      if i = 9 then rootWithF
      else if i = 10 then fileClusterAsDir
      else fs_format.disk i }

/-- An 18-byte name (bytes 65..82, "ABCDEFGHIJKLMNOPQR"), one byte over the
17-byte capacity of the filename field. -/
def nameLong : List Nat := List.range' 65 18

/-- The resolver's result for "/f/x" in `sFileDir`. -/
def rXin10 : path_search_result_t :=
  { name := [120], found := true, parent_cluster := 10, entry_cluster := 11,
    entry_index := 0, entry_filename := [120],
    entry_attributes := ATTR_ARCHIVE, entry_first_block := 11,
    entry_size := 7 }

/-- The FAT system-region invariant: the boot entry, the eight reserved FAT
entries, and the root directory entry hold their format-time sentinels. -/
def sysOk (fat : Nat → Nat) : Prop :=
  fat 0 = FAT_ENTRY_BOOT ∧
  (∀ i, 1 ≤ i → i ≤ 8 → fat i = FAT_ENTRY_RESERVED) ∧
  fat 9 = FAT_ENTRY_EOF

/-! ### Byte and splice algebra -/

theorem byteAt_replicate (n v i : Nat) :
    byteAt (List.replicate n v) i = if i < n then v else 0 := by
  simp only [byteAt, List.getElem?_replicate]
  by_cases h : i < n
  · simp [h]
  · simp [h]

theorem length_splice (l seg : List Nat) (o : Nat)
    (h : o + seg.length ≤ l.length) : (splice l o seg).length = l.length := by
  simp only [splice, List.length_append, List.length_take, List.length_drop]
  omega

theorem byteAt_splice (l seg : List Nat) (o i : Nat)
    (h : o + seg.length ≤ l.length) :
    byteAt (splice l o seg) i =
      if o ≤ i ∧ i < o + seg.length then byteAt seg (i - o) else byteAt l i := by
  have ht : (List.take o l).length = o := by
    rw [List.length_take]
    omega
  have hts : (List.take o l ++ seg).length = o + seg.length := by
    rw [List.length_append, ht]
  by_cases h1 : i < o
  · rw [if_neg (by omega)]
    simp only [splice, byteAt]
    rw [List.getElem?_append_left (by rw [hts]; omega),
      List.getElem?_append_left (by rw [ht]; omega), List.getElem?_take_of_lt h1]
  · by_cases h2 : i < o + seg.length
    · rw [if_pos (⟨by omega, h2⟩ : o ≤ i ∧ i < o + seg.length)]
      simp only [splice, byteAt]
      rw [List.getElem?_append_left (by rw [hts]; omega),
        List.getElem?_append_right (by rw [ht]; omega), ht]
    · rw [if_neg (by omega)]
      simp only [splice, byteAt]
      rw [List.getElem?_append_right (by rw [hts]; omega), hts, List.getElem?_drop]
      have hidx : o + seg.length + (i - (o + seg.length)) = i := by omega
      rw [hidx]

theorem byteAt_splice_out (l seg : List Nat) (o i : Nat)
    (h : o + seg.length ≤ l.length) (hi : i < o ∨ o + seg.length ≤ i) :
    byteAt (splice l o seg) i = byteAt l i := by
  rw [byteAt_splice l seg o i h, if_neg (by omega)]

theorem byteAt_splice_in (l seg : List Nat) (o i : Nat)
    (h : o + seg.length ≤ l.length) (hi : o ≤ i) (hi2 : i < o + seg.length) :
    byteAt (splice l o seg) i = byteAt seg (i - o) := by
  rw [byteAt_splice l seg o i h, if_pos ⟨hi, hi2⟩]

theorem length_encode16 (v : Nat) : (encode16 v).length = 2 := rfl

theorem length_encode32 (v : Nat) : (encode32 v).length = 4 := rfl

theorem length_nameField (name : List Nat) : (nameField name).length = 18 := by
  simp only [nameField, List.length_append, List.length_take,
    List.length_replicate, List.length_cons, List.length_nil]
  omega

theorem range_map_byteAt (l : List Nat) : (List.range l.length).map (byteAt l) = l := by
  induction l with
  | nil => simp
  | cons b t ih =>
    have hc : (byteAt (b :: t)) ∘ (fun i => i + 1) = byteAt t := by
      funext i
      simp [byteAt, Function.comp, List.getElem?_cons_succ]
    simp only [List.length_cons, List.range_succ_eq_map, List.map_cons, List.map_map]
    rw [hc, ih]
    simp [byteAt]

/-! ### Directory-entry surgery -/

theorem byteAt_writeDirEntry (c nf : List Nat) (i a fb sz m : Nat)
    (hc : c.length = 1024) (hi : i < 32) (hnf : nf.length = 18) :
    byteAt (writeDirEntry c i nf a fb sz) m =
      if 32 * i ≤ m ∧ m < 32 * i + 18 then byteAt nf (m - 32 * i)
      else if m = 32 * i + 18 then a
      else if 32 * i + 26 ≤ m ∧ m < 32 * i + 28 then
        byteAt (encode16 fb) (m - (32 * i + 26))
      else if 32 * i + 28 ≤ m ∧ m < 32 * i + 32 then
        byteAt (encode32 sz) (m - (32 * i + 28))
      else byteAt c m := by
  have l1 : (splice c (32 * i) nf).length = 1024 := by
    rw [length_splice _ _ _ (by omega), hc]
  have l2 : (splice (splice c (32 * i) nf) (32 * i + 18) [a]).length = 1024 := by
    rw [length_splice _ _ _ (by simp [l1]; omega), l1]
  have l3 : (splice (splice (splice c (32 * i) nf) (32 * i + 18) [a])
      (32 * i + 26) (encode16 fb)).length = 1024 := by
    rw [length_splice _ _ _ (by simp [l2, length_encode16]; omega), l2]
  simp only [writeDirEntry]
  by_cases hA : 32 * i ≤ m ∧ m < 32 * i + 18
  · rw [if_pos hA]
    rw [byteAt_splice_out _ _ _ _ (by simp [l3, length_encode32]; omega) (by omega)]
    rw [byteAt_splice_out _ _ _ _ (by simp [l2, length_encode16]; omega) (by omega)]
    rw [byteAt_splice_out _ _ _ _ (by simp [l1]; omega) (by omega)]
    rw [byteAt_splice_in _ _ _ _ (by simp [hc, hnf]; omega) (by omega) (by omega)]
  · rw [if_neg hA]
    by_cases hB : m = 32 * i + 18
    · rw [if_pos hB]
      rw [byteAt_splice_out _ _ _ _ (by simp [l3, length_encode32]; omega) (by omega)]
      rw [byteAt_splice_out _ _ _ _ (by simp [l2, length_encode16]; omega) (by omega)]
      rw [byteAt_splice_in _ _ _ _ (by simp [l1]; omega) (by omega) (by simp; omega)]
      subst hB
      simp [byteAt]
    · rw [if_neg hB]
      by_cases hC : 32 * i + 26 ≤ m ∧ m < 32 * i + 28
      · rw [if_pos hC]
        rw [byteAt_splice_out _ _ _ _ (by simp [l3, length_encode32]; omega) (by omega)]
        rw [byteAt_splice_in _ _ _ _ (by simp [l2, length_encode16]; omega)
          (by omega) (by simp [length_encode16]; omega)]
      · rw [if_neg hC]
        by_cases hD : 32 * i + 28 ≤ m ∧ m < 32 * i + 32
        · rw [if_pos hD]
          rw [byteAt_splice_in _ _ _ _ (by simp [l3, length_encode32]; omega)
            (by omega) (by simp [length_encode32]; omega)]
        · rw [if_neg hD]
          rw [byteAt_splice_out _ _ _ _ (by simp [l3, length_encode32]; omega)
            (by simp [length_encode32]; omega)]
          rw [byteAt_splice_out _ _ _ _ (by simp [l2, length_encode16]; omega)
            (by simp [length_encode16]; omega)]
          rw [byteAt_splice_out _ _ _ _ (by simp [l1]; omega) (by simp; omega)]
          rw [byteAt_splice_out _ _ _ _ (by simp [hc, hnf]; omega) (by simp [hnf]; omega)]

theorem length_writeDirEntry (c nf : List Nat) (i a fb sz : Nat)
    (hc : c.length = 1024) (hi : i < 32) (hnf : nf.length = 18) :
    (writeDirEntry c i nf a fb sz).length = 1024 := by
  have l1 : (splice c (32 * i) nf).length = 1024 := by
    rw [length_splice _ _ _ (by omega), hc]
  have l2 : (splice (splice c (32 * i) nf) (32 * i + 18) [a]).length = 1024 := by
    rw [length_splice _ _ _ (by simp [l1]; omega), l1]
  have l3 : (splice (splice (splice c (32 * i) nf) (32 * i + 18) [a])
      (32 * i + 26) (encode16 fb)).length = 1024 := by
    rw [length_splice _ _ _ (by simp [l2, length_encode16]; omega), l2]
  simp only [writeDirEntry]
  rw [length_splice _ _ _ (by simp [l3, length_encode32]; omega), l3]

theorem byteAt_setEntryFirstSize (c : List Nat) (i fb sz m : Nat)
    (hc : c.length = 1024) (hi : i < 32) :
    byteAt (setEntryFirstSize c i fb sz) m =
      if 32 * i + 26 ≤ m ∧ m < 32 * i + 28 then
        byteAt (encode16 fb) (m - (32 * i + 26))
      else if 32 * i + 28 ≤ m ∧ m < 32 * i + 32 then
        byteAt (encode32 sz) (m - (32 * i + 28))
      else byteAt c m := by
  have l1 : (splice c (32 * i + 26) (encode16 fb)).length = 1024 := by
    rw [length_splice _ _ _ (by simp [hc, length_encode16]; omega), hc]
  simp only [setEntryFirstSize]
  by_cases hC : 32 * i + 26 ≤ m ∧ m < 32 * i + 28
  · rw [if_pos hC]
    rw [byteAt_splice_out _ _ _ _ (by simp [l1, length_encode32]; omega) (by omega)]
    rw [byteAt_splice_in _ _ _ _ (by simp [hc, length_encode16]; omega)
      (by omega) (by simp [length_encode16]; omega)]
  · rw [if_neg hC]
    by_cases hD : 32 * i + 28 ≤ m ∧ m < 32 * i + 32
    · rw [if_pos hD]
      rw [byteAt_splice_in _ _ _ _ (by simp [l1, length_encode32]; omega)
        (by omega) (by simp [length_encode32]; omega)]
    · rw [if_neg hD]
      rw [byteAt_splice_out _ _ _ _ (by simp [l1, length_encode32]; omega)
        (by simp [length_encode32]; omega)]
      rw [byteAt_splice_out _ _ _ _ (by simp [hc, length_encode16]; omega)
        (by simp [length_encode16]; omega)]

theorem length_setEntryFirstSize (c : List Nat) (i fb sz : Nat)
    (hc : c.length = 1024) (hi : i < 32) :
    (setEntryFirstSize c i fb sz).length = 1024 := by
  have l1 : (splice c (32 * i + 26) (encode16 fb)).length = 1024 := by
    rw [length_splice _ _ _ (by simp [hc, length_encode16]; omega), hc]
  simp only [setEntryFirstSize]
  rw [length_splice _ _ _ (by simp [l1, length_encode32]; omega), l1]

theorem byteAt_setEntrySize (c : List Nat) (i sz m : Nat)
    (hc : c.length = 1024) (hi : i < 32) :
    byteAt (setEntrySize c i sz) m =
      if 32 * i + 28 ≤ m ∧ m < 32 * i + 32 then
        byteAt (encode32 sz) (m - (32 * i + 28))
      else byteAt c m := by
  simp only [setEntrySize]
  by_cases hD : 32 * i + 28 ≤ m ∧ m < 32 * i + 32
  · rw [if_pos hD]
    rw [byteAt_splice_in _ _ _ _ (by simp [hc, length_encode32]; omega)
      (by omega) (by simp [length_encode32]; omega)]
  · rw [if_neg hD]
    rw [byteAt_splice_out _ _ _ _ (by simp [hc, length_encode32]; omega)
      (by simp [length_encode32]; omega)]

theorem length_setEntrySize (c : List Nat) (i sz : Nat)
    (hc : c.length = 1024) (hi : i < 32) :
    (setEntrySize c i sz).length = 1024 := by
  simp only [setEntrySize]
  rw [length_splice _ _ _ (by simp [hc, length_encode32]; omega), hc]

theorem decode16_encode16 (v : Nat) :
    byteAt (encode16 v) 0 + 256 * byteAt (encode16 v) 1 = v % 65536 := by
  simp only [encode16, byteAt]
  simp only [List.getElem?_cons_zero, List.getElem?_cons_succ, Option.getD_some]
  omega

theorem decode32_encode32 (v : Nat) :
    byteAt (encode32 v) 0 + 256 * byteAt (encode32 v) 1 +
      65536 * byteAt (encode32 v) 2 + 16777216 * byteAt (encode32 v) 3 =
      v % 4294967296 := by
  simp only [encode32, byteAt]
  simp only [List.getElem?_cons_zero, List.getElem?_cons_succ, Option.getD_some]
  omega

/-- All bytes of slot `j ≠ i` are untouched by `writeDirEntry` at slot `i`. -/
theorem byteAt_writeDirEntry_other (c nf : List Nat) (i a fb sz j k : Nat)
    (hc : c.length = 1024) (hi : i < 32) (hnf : nf.length = 18)
    (hj : j < 32) (hne : j ≠ i) (hk : k < 32) :
    byteAt (writeDirEntry c i nf a fb sz) (32 * j + k) = byteAt c (32 * j + k) := by
  rw [byteAt_writeDirEntry c nf i a fb sz _ hc hi hnf]
  rw [if_neg (by omega), if_neg (by omega), if_neg (by omega), if_neg (by omega)]

theorem nameBytes_writeDirEntry_self (c nf : List Nat) (i a fb sz : Nat)
    (hc : c.length = 1024) (hi : i < 32) (hnf : nf.length = 18) :
    nameBytes (writeDirEntry c i nf a fb sz) i = nf := by
  have hmap : nameBytes (writeDirEntry c i nf a fb sz) i =
      (List.range 18).map (byteAt nf) := by
    apply List.map_congr_left
    intro k hk
    have hk18 : k < 18 := List.mem_range.mp hk
    rw [byteAt_writeDirEntry c nf i a fb sz _ hc hi hnf, if_pos (by omega)]
    congr 1
    omega
  rw [hmap, ← hnf, range_map_byteAt]

theorem attr_writeDirEntry_self (c nf : List Nat) (i a fb sz : Nat)
    (hc : c.length = 1024) (hi : i < 32) (hnf : nf.length = 18) :
    entryAttr (writeDirEntry c i nf a fb sz) i = a := by
  rw [entryAttr, byteAt_writeDirEntry c nf i a fb sz _ hc hi hnf]
  rw [if_neg (by omega), if_pos rfl]

theorem firstBlock_writeDirEntry_self (c nf : List Nat) (i a fb sz : Nat)
    (hc : c.length = 1024) (hi : i < 32) (hnf : nf.length = 18) :
    entryFirstBlock (writeDirEntry c i nf a fb sz) i = fb % 65536 := by
  rw [entryFirstBlock]
  rw [byteAt_writeDirEntry c nf i a fb sz _ hc hi hnf,
    if_neg (by omega), if_neg (by omega), if_pos (by omega)]
  rw [byteAt_writeDirEntry c nf i a fb sz _ hc hi hnf,
    if_neg (by omega), if_neg (by omega), if_pos (by omega)]
  have e0 : 32 * i + 26 - (32 * i + 26) = 0 := by omega
  have e1 : 32 * i + 27 - (32 * i + 26) = 1 := by omega
  rw [e0, e1, decode16_encode16]

theorem size_writeDirEntry_self (c nf : List Nat) (i a fb sz : Nat)
    (hc : c.length = 1024) (hi : i < 32) (hnf : nf.length = 18) :
    entrySize (writeDirEntry c i nf a fb sz) i = sz % 4294967296 := by
  rw [entrySize]
  rw [byteAt_writeDirEntry c nf i a fb sz _ hc hi hnf,
    if_neg (by omega), if_neg (by omega), if_neg (by omega), if_pos (by omega)]
  rw [byteAt_writeDirEntry c nf i a fb sz _ hc hi hnf,
    if_neg (by omega), if_neg (by omega), if_neg (by omega), if_pos (by omega)]
  rw [byteAt_writeDirEntry c nf i a fb sz _ hc hi hnf,
    if_neg (by omega), if_neg (by omega), if_neg (by omega), if_pos (by omega)]
  rw [byteAt_writeDirEntry c nf i a fb sz _ hc hi hnf,
    if_neg (by omega), if_neg (by omega), if_neg (by omega), if_pos (by omega)]
  have e0 : 32 * i + 28 - (32 * i + 28) = 0 := by omega
  have e1 : 32 * i + 29 - (32 * i + 28) = 1 := by omega
  have e2 : 32 * i + 30 - (32 * i + 28) = 2 := by omega
  have e3 : 32 * i + 31 - (32 * i + 28) = 3 := by omega
  rw [e0, e1, e2, e3, decode32_encode32]

/-- Bytes outside the first_block/size fields of slot `i` are untouched by
`setEntryFirstSize`. -/
theorem byteAt_setEntryFirstSize_out (c : List Nat) (i fb sz m : Nat)
    (hc : c.length = 1024) (hi : i < 32)
    (hm : m < 32 * i + 26 ∨ 32 * i + 32 ≤ m) :
    byteAt (setEntryFirstSize c i fb sz) m = byteAt c m := by
  rw [byteAt_setEntryFirstSize c i fb sz m hc hi,
    if_neg (by omega), if_neg (by omega)]

theorem firstBlock_setEntryFirstSize_self (c : List Nat) (i fb sz : Nat)
    (hc : c.length = 1024) (hi : i < 32) :
    entryFirstBlock (setEntryFirstSize c i fb sz) i = fb % 65536 := by
  rw [entryFirstBlock]
  rw [byteAt_setEntryFirstSize c i fb sz _ hc hi, if_pos (by omega)]
  rw [byteAt_setEntryFirstSize c i fb sz _ hc hi, if_pos (by omega)]
  have e0 : 32 * i + 26 - (32 * i + 26) = 0 := by omega
  have e1 : 32 * i + 27 - (32 * i + 26) = 1 := by omega
  rw [e0, e1, decode16_encode16]

theorem size_setEntryFirstSize_self (c : List Nat) (i fb sz : Nat)
    (hc : c.length = 1024) (hi : i < 32) :
    entrySize (setEntryFirstSize c i fb sz) i = sz % 4294967296 := by
  rw [entrySize]
  rw [byteAt_setEntryFirstSize c i fb sz _ hc hi, if_neg (by omega), if_pos (by omega)]
  rw [byteAt_setEntryFirstSize c i fb sz _ hc hi, if_neg (by omega), if_pos (by omega)]
  rw [byteAt_setEntryFirstSize c i fb sz _ hc hi, if_neg (by omega), if_pos (by omega)]
  rw [byteAt_setEntryFirstSize c i fb sz _ hc hi, if_neg (by omega), if_pos (by omega)]
  have e0 : 32 * i + 28 - (32 * i + 28) = 0 := by omega
  have e1 : 32 * i + 29 - (32 * i + 28) = 1 := by omega
  have e2 : 32 * i + 30 - (32 * i + 28) = 2 := by omega
  have e3 : 32 * i + 31 - (32 * i + 28) = 3 := by omega
  rw [e0, e1, e2, e3, decode32_encode32]

theorem byteAt_setEntrySize_out (c : List Nat) (i sz m : Nat)
    (hc : c.length = 1024) (hi : i < 32)
    (hm : m < 32 * i + 28 ∨ 32 * i + 32 ≤ m) :
    byteAt (setEntrySize c i sz) m = byteAt c m := by
  rw [byteAt_setEntrySize c i sz m hc hi, if_neg (by omega)]

theorem size_setEntrySize_self (c : List Nat) (i sz : Nat)
    (hc : c.length = 1024) (hi : i < 32) :
    entrySize (setEntrySize c i sz) i = sz % 4294967296 := by
  rw [entrySize]
  rw [byteAt_setEntrySize c i sz _ hc hi, if_pos (by omega)]
  rw [byteAt_setEntrySize c i sz _ hc hi, if_pos (by omega)]
  rw [byteAt_setEntrySize c i sz _ hc hi, if_pos (by omega)]
  rw [byteAt_setEntrySize c i sz _ hc hi, if_pos (by omega)]
  have e0 : 32 * i + 28 - (32 * i + 28) = 0 := by omega
  have e1 : 32 * i + 29 - (32 * i + 28) = 1 := by omega
  have e2 : 32 * i + 30 - (32 * i + 28) = 2 := by omega
  have e3 : 32 * i + 31 - (32 * i + 28) = 3 := by omega
  rw [e0, e1, e2, e3, decode32_encode32]

theorem firstBlock_setEntrySize (c : List Nat) (i sz j : Nat)
    (hc : c.length = 1024) (hi : i < 32) (hj : j < 32) :
    entryFirstBlock (setEntrySize c i sz) j = entryFirstBlock c j := by
  rw [entryFirstBlock, entryFirstBlock]
  rw [byteAt_setEntrySize c i sz _ hc hi, if_neg (by omega)]
  rw [byteAt_setEntrySize c i sz _ hc hi, if_neg (by omega)]

/-- Bytes of the name/attribute region of any slot are untouched by both
parent-slot updates, so the resolver's occupancy test, name match and
attribute read see the same values. -/
theorem nameBytes_congr (c c' : List Nat) (j : Nat)
    (h : ∀ k, k < 18 → byteAt c' (32 * j + k) = byteAt c (32 * j + k)) :
    nameBytes c' j = nameBytes c j := by
  apply List.map_congr_left
  intro k hk
  exact h k (List.mem_range.mp hk)

theorem filenameC_congr (c c' : List Nat) (j : Nat)
    (h : ∀ k, k < 18 → byteAt c' (32 * j + k) = byteAt c (32 * j + k)) :
    entryFilenameC c' j = entryFilenameC c j := by
  rw [entryFilenameC, entryFilenameC, nameBytes_congr c c' j h]

/-! ### FAT chain lemmas -/

/-- `free_cluster_chain` writes Free exactly at the entries it visits and
leaves every other entry unchanged (for any fuel, uniformly). -/
theorem freeChainAux_eq (fuel : Nat) : ∀ (fat : Nat → Nat) (current i : Nat),
    (i ∈ chainVisitedAux fuel fat current → freeChainAux fuel fat current i = 0) ∧
    (i ∉ chainVisitedAux fuel fat current → freeChainAux fuel fat current i = fat i) := by
  induction fuel with
  | zero =>
    intro fat current i
    constructor
    · intro h
      exact absurd h (List.not_mem_nil i)
    · intro _
      rfl
  | succ fuel ih =>
    intro fat current i
    by_cases hcur : current ≠ 0 ∧ current < FAT_ENTRY_EOF
    · simp only [freeChainAux, chainVisitedAux, if_pos hcur]
      constructor
      · intro hmem
        rcases List.mem_cons.mp hmem with heq | hmem2
        · subst heq
          by_cases h2 : i ∈ chainVisitedAux fuel
              (Function.update fat i FAT_ENTRY_FREE) (fat i)
          · exact (ih _ _ i).1 h2
          · rw [(ih _ _ i).2 h2, Function.update_same]
            rfl
        · exact (ih _ _ i).1 hmem2
      · intro hnmem
        have hni : i ≠ current := fun h => hnmem (h ▸ List.mem_cons_self _ _)
        have h2 : i ∉ chainVisitedAux fuel
            (Function.update fat current FAT_ENTRY_FREE) (fat current) :=
          fun h => hnmem (List.mem_cons_of_mem _ h)
        rw [(ih _ _ i).2 h2, Function.update_noteq hni]
    · constructor
      · intro h
        simp only [chainVisitedAux, if_neg hcur] at h
        exact absurd h (List.not_mem_nil i)
      · intro _
        simp only [freeChainAux, if_neg hcur]

theorem free_cluster_chain_eq (fat : Nat → Nat) (current i : Nat) :
    (i ∈ chainVisited fat current → free_cluster_chain fat current i = 0) ∧
    (i ∉ chainVisited fat current → free_cluster_chain fat current i = fat i) :=
  freeChainAux_eq 65536 fat current i

theorem chainVisitedAux_nil_iff (fuel : Nat) (fat : Nat → Nat) (current : Nat) :
    chainVisitedAux (fuel + 1) fat current = [] ↔
      (current = 0 ∨ FAT_ENTRY_EOF ≤ current) := by
  simp only [chainVisitedAux]
  by_cases hcur : current ≠ 0 ∧ current < FAT_ENTRY_EOF
  · rw [if_pos hcur]
    simp only [List.cons_ne_nil, false_iff]
    omega
  · rw [if_neg hcur]
    simp only [true_iff]
    omega

theorem chainVisited_nil_iff (fat : Nat → Nat) (current : Nat) :
    chainVisited fat current = [] ↔ (current = 0 ∨ FAT_ENTRY_EOF ≤ current) := by
  have h65536 : (65536 : Nat) = 65535 + 1 := rfl
  rw [chainVisited, h65536, chainVisitedAux_nil_iff]

theorem free_cluster_chain_stopped (fat : Nat → Nat) (current : Nat)
    (h : current = 0 ∨ FAT_ENTRY_EOF ≤ current) :
    free_cluster_chain fat current = fat := by
  funext i
  exact (free_cluster_chain_eq fat current i).2
    (by rw [(chainVisited_nil_iff fat current).mpr h]; exact List.not_mem_nil i)

/-- Updating the table at an index not in the list preserves the link
relation along the list. -/
theorem chain_update_of_not_mem (fat : Nat → Nat) (c v : Nat) :
    ∀ (l : List Nat), c ∉ l → List.Chain' (fun a b => fat a = b) l →
    List.Chain' (fun a b => Function.update fat c v a = b) l := by
  intro l
  induction l with
  | nil => intro _ _; exact List.chain'_nil
  | cons x xs ih =>
    intro hc hch
    rcases xs with _ | ⟨y, ys⟩
    · exact List.chain'_singleton _
    · rw [List.chain'_cons] at hch ⊢
      refine ⟨?_, ih (fun h => hc (List.mem_cons_of_mem _ h)) hch.2⟩
      rw [Function.update_noteq
        (fun h => hc (by rw [← h]; exact List.mem_cons_self _ _))]
      exact hch.1

/-- Over a well-formed chain (successive links, end-of-chain terminator,
no duplicates, all indices strictly between 0 and the sentinel) the visit
list of `free_cluster_chain` is exactly the chain. -/
theorem chainVisitedAux_chain : ∀ (tl : List Nat) (fuel : Nat) (fat : Nat → Nat)
    (c : Nat),
    List.Chain' (fun a b => fat a = b) (c :: tl) →
    fat ((c :: tl).getLast (List.cons_ne_nil c tl)) = FAT_ENTRY_EOF →
    (∀ x ∈ c :: tl, x ≠ 0 ∧ x < FAT_ENTRY_EOF) →
    (c :: tl).Nodup →
    tl.length + 1 < fuel →
    chainVisitedAux fuel fat c = c :: tl := by
  intro tl
  induction tl with
  | nil =>
    intro fuel fat c _ hlast hmem _ hfuel
    obtain ⟨f1, rfl⟩ : ∃ f1, fuel = f1 + 1 := ⟨fuel - 1, by omega⟩
    obtain ⟨f2, rfl⟩ : ∃ f2, f1 = f2 + 1 := ⟨f1 - 1, by omega⟩
    have hc := hmem c (List.mem_cons_self c [])
    have hlast1 : fat c = FAT_ENTRY_EOF := hlast
    simp only [chainVisitedAux,
      if_pos (⟨hc.1, hc.2⟩ : c ≠ 0 ∧ c < FAT_ENTRY_EOF), hlast1]
    rw [if_neg (by simp [FAT_ENTRY_EOF])]
  | cons c' tl' ih =>
    intro fuel fat c hchain hlast hmem hnd hfuel
    obtain ⟨f1, rfl⟩ : ∃ f1, fuel = f1 + 1 := ⟨fuel - 1, by omega⟩
    have hc := hmem c (List.mem_cons_self _ _)
    simp only [chainVisitedAux, if_pos (⟨hc.1, hc.2⟩ : c ≠ 0 ∧ c < FAT_ENTRY_EOF)]
    have hlink : fat c = c' := (List.chain'_cons.mp hchain).1
    have hchain' : List.Chain' (fun a b => fat a = b) (c' :: tl') :=
      (List.chain'_cons.mp hchain).2
    have hcnot : c ∉ c' :: tl' := (List.nodup_cons.mp hnd).1
    have hupd : List.Chain' (fun a b =>
        (Function.update fat c FAT_ENTRY_FREE) a = b) (c' :: tl') :=
      chain_update_of_not_mem fat c FAT_ENTRY_FREE _ hcnot hchain'
    have hlast' : (Function.update fat c FAT_ENTRY_FREE)
        ((c' :: tl').getLast (List.cons_ne_nil c' tl')) = FAT_ENTRY_EOF := by
      rw [Function.update_noteq
        (fun h => hcnot (by rw [← h]; exact List.getLast_mem (List.cons_ne_nil c' tl')))]
      rw [← List.getLast_cons (List.cons_ne_nil c' tl')]
      exact hlast
    have hmem' : ∀ x ∈ c' :: tl', x ≠ 0 ∧ x < FAT_ENTRY_EOF :=
      fun x hx => hmem x (List.mem_cons_of_mem _ hx)
    have hnd' : (c' :: tl').Nodup := (List.nodup_cons.mp hnd).2
    rw [hlink]
    rw [ih f1 (Function.update fat c FAT_ENTRY_FREE) c' hupd hlast' hmem' hnd'
      (by simp only [List.length_cons] at hfuel ⊢; omega)]

theorem chainVisited_chain (tl : List Nat) (fat : Nat → Nat) (c : Nat)
    (hchain : List.Chain' (fun a b => fat a = b) (c :: tl))
    (hlast : fat ((c :: tl).getLast (List.cons_ne_nil c tl)) = FAT_ENTRY_EOF)
    (hmem : ∀ x ∈ c :: tl, x ≠ 0 ∧ x < FAT_ENTRY_EOF)
    (hnd : (c :: tl).Nodup)
    (hlen : tl.length + 1 < 65536) :
    chainVisited fat c = c :: tl :=
  chainVisitedAux_chain tl 65536 fat c hchain hlast hmem hnd hlen

/-- The tail walk of `fs_append` lands on the last cluster of a well-formed
chain. -/
theorem walkTailAux_chain : ∀ (tl : List Nat) (fuel : Nat) (fat : Nat → Nat)
    (c : Nat),
    List.Chain' (fun a b => fat a = b) (c :: tl) →
    fat ((c :: tl).getLast (List.cons_ne_nil c tl)) = FAT_ENTRY_EOF →
    (∀ x ∈ c :: tl, x < FAT_ENTRY_EOF) →
    tl.length < fuel →
    walkTailAux fuel fat c = (c :: tl).getLast (List.cons_ne_nil c tl) := by
  intro tl
  induction tl with
  | nil =>
    intro fuel fat c _ hlast _ hfuel
    obtain ⟨f1, rfl⟩ : ∃ f1, fuel = f1 + 1 := ⟨fuel - 1, by omega⟩
    simp only [List.getLast_singleton] at hlast ⊢
    simp only [walkTailAux, hlast]
    rw [if_neg (by simp)]
  | cons c' tl' ih =>
    intro fuel fat c hchain hlast hmem hfuel
    obtain ⟨f1, rfl⟩ : ∃ f1, fuel = f1 + 1 := ⟨fuel - 1, by omega⟩
    have hlink : fat c = c' := (List.chain'_cons.mp hchain).1
    have hc' : c' < FAT_ENTRY_EOF := hmem c' (List.mem_cons_of_mem _ (List.mem_cons_self _ _))
    simp only [walkTailAux]
    rw [if_pos (by rw [hlink]; omega), hlink]
    rw [ih f1 fat c' (List.chain'_cons.mp hchain).2
      (by rw [← List.getLast_cons (List.cons_ne_nil c' tl')]; exact hlast)
      (fun x hx => hmem x (List.mem_cons_of_mem _ hx))
      (by simp only [List.length_cons] at hfuel; omega)]
    rw [← List.getLast_cons (List.cons_ne_nil c' tl')]

/-! ### Allocator lemmas -/

theorem find_free_cluster_spec (fat : Nat → Nat) :
    find_free_cluster fat = 0 ∨
      (10 ≤ find_free_cluster fat ∧ find_free_cluster fat < 4096 ∧
        fat (find_free_cluster fat) = FAT_ENTRY_FREE) := by
  cases hf : (List.range' 10 4086).find? (fun i => fat i = FAT_ENTRY_FREE) with
  | none =>
    left
    rw [find_free_cluster, hf]
  | some c =>
    right
    have hval : find_free_cluster fat = c := by rw [find_free_cluster, hf]
    have hmem := List.mem_range'_1.mp (List.mem_of_find?_eq_some hf)
    have hp := List.find?_some hf
    rw [hval]
    refine ⟨hmem.1, by omega, by simpa using hp⟩

theorem find_free_cluster_ne_zero (fat : Nat → Nat) (c : Nat)
    (h10 : 10 ≤ c) (h4096 : c < 4096) (hfree : fat c = FAT_ENTRY_FREE) :
    find_free_cluster fat ≠ 0 := by
  cases hf : (List.range' 10 4086).find? (fun i => fat i = FAT_ENTRY_FREE) with
  | none =>
    exfalso
    have hnone := List.find?_eq_none.mp hf c (List.mem_range'_1.mpr ⟨h10, by omega⟩)
    simp [hfree] at hnone
  | some x =>
    have hval : find_free_cluster fat = x := by rw [find_free_cluster, hf]
    have hmem := List.mem_range'_1.mp (List.mem_of_find?_eq_some hf)
    rw [hval]
    omega

/-! ### Resolver lemmas -/

/-- The parts of two directory clusters that the resolver's scan inspects
agree: occupancy byte, stored filename, and attribute of every slot. -/
def shapeEq (c c' : List Nat) : Prop :=
  ∀ j, j < 32 → byteAt c' (32 * j) = byteAt c (32 * j) ∧
    entryFilenameC c' j = entryFilenameC c j ∧ entryAttr c' j = entryAttr c j

theorem find?_congr {α : Type} (p q : α → Bool) :
    ∀ (l : List α), (∀ x ∈ l, p x = q x) → l.find? p = l.find? q := by
  intro l
  induction l with
  | nil => intro _; rfl
  | cons x xs ih =>
    intro h
    rw [List.find?_cons, List.find?_cons, h x (List.mem_cons_self _ _)]
    cases q x with
    | true => rfl
    | false => exact ih (fun y hy => h y (List.mem_cons_of_mem _ hy))

theorem findInCluster_congr (c c' t : List Nat) (h : shapeEq c c') :
    findInCluster c' t = findInCluster c t := by
  apply find?_congr
  intro j hj
  have hj32 := List.mem_range.mp hj
  have hsp := h j hj32
  rw [hsp.1, hsp.2.1]

theorem findInCluster_spec (c t : List Nat) (i : Nat)
    (h : findInCluster c t = some i) :
    i < 32 ∧ byteAt c (32 * i) ≠ 0 ∧ entryFilenameC c i = t := by
  have hmem := List.mem_range.mp (List.mem_of_find?_eq_some h)
  have hp := List.find?_some h
  simp only [Bool.and_eq_true, decide_eq_true_eq] at hp
  exact ⟨hmem, hp.1, hp.2⟩

theorem walkDirsRead_ne_nil (s : FS) (tokens : List (List Nat)) (cur : Nat)
    (h : tokens ≠ []) : walkDirsRead s tokens cur ≠ [] := by
  cases tokens with
  | nil => exact absurd rfl h
  | cons t rest => simp [walkDirsRead]

theorem getLast?_cons_ne {α : Type} (a : α) (l : List α) (h : l ≠ []) :
    (a :: l).getLast? = l.getLast? := by
  cases l with
  | nil => exact absurd rfl h
  | cons b t => simp [List.getLast?_cons_cons]

/-- Facts established by a successful walk: the parent cluster is readable,
the slot index comes from the scan of the parent cluster (so it is below 32
and occupied), the copied entry fields are the decodings of that slot, and
the parent is the last directory cluster the walk read. -/
theorem walkPath_success_spec : ∀ (tokens : List (List Nat)) (s : FS) (cur : Nat)
    (r res : path_search_result_t),
    tokens ≠ [] →
    walkPath s tokens cur r = some res →
    res.found = true →
    res.parent_cluster < 4096 ∧ res.entry_index < 32 ∧
    (walkDirsRead s tokens cur).getLast? = some res.parent_cluster ∧
    byteAt (s.disk res.parent_cluster) (32 * res.entry_index) ≠ 0 ∧
    res.entry_filename = entryFilenameC (s.disk res.parent_cluster) res.entry_index ∧
    res.entry_attributes = entryAttr (s.disk res.parent_cluster) res.entry_index ∧
    res.entry_first_block = entryFirstBlock (s.disk res.parent_cluster) res.entry_index ∧
    res.entry_cluster = res.entry_first_block ∧
    res.entry_size = entrySize (s.disk res.parent_cluster) res.entry_index := by
  intro tokens
  induction tokens with
  | nil => intro s cur r res h; exact absurd rfl h
  | cons t rest ih =>
    intro s cur r res _ hwalk hfound
    simp only [walkPath] at hwalk
    split at hwalk
    · exact absurd hwalk (by simp)
    · rename_i c hrd
      have hcur4096 : cur < 4096 := by
        by_contra hge
        rw [read_cluster, if_neg (by simpa [CLUSTER_COUNT] using hge)] at hrd
        exact Option.noConfusion hrd
      have hcdisk : c = s.disk cur := by
        rw [read_cluster, if_pos (by simpa [CLUSTER_COUNT] using hcur4096)] at hrd
        exact (Option.some.inj hrd).symm
      split at hwalk
      · rename_i hfind
        have hres : res.found = false := by
          have := Option.some.inj hwalk
          rw [← this]
        rw [hres] at hfound
        exact absurd hfound (by simp)
      · rename_i i hfind
        have hspec := findInCluster_spec c t i hfind
        cases rest with
        | nil =>
          simp only [walkPath, Option.some.injEq] at hwalk
          subst hwalk
          exact ⟨hcur4096, hspec.1, by simp [walkDirsRead, hrd, hfind],
            by rw [← hcdisk]; exact hspec.2.1, by rw [← hcdisk],
            by rw [← hcdisk], by rw [← hcdisk], rfl, by rw [← hcdisk]⟩
        | cons t2 rest2 =>
          have hres := ih s (entryFirstBlock c i) _ res (by simp) hwalk hfound
          refine ⟨hres.1, hres.2.1, ?_, hres.2.2.2⟩
          have hstep : walkDirsRead s (t :: t2 :: rest2) cur =
              cur :: walkDirsRead s (t2 :: rest2) (entryFirstBlock c i) := by
            simp only [walkDirsRead, hrd, hfind]
          rw [hstep, getLast?_cons_ne _ _
            (walkDirsRead_ne_nil s (t2 :: rest2) (entryFirstBlock c i) (by simp))]
          exact hres.2.2.1

/-- Re-running a successful resolution after a state change that leaves every
intermediate directory cluster byte-identical and changes the parent cluster
only outside the name/attribute regions: the walk matches the same slots and
returns the same result with the entry fields re-decoded from the new parent
cluster bytes. -/
theorem walk_congr (s s' : FS) : ∀ (tokens : List (List Nat)) (cur : Nat)
    (r res : path_search_result_t),
    tokens ≠ [] →
    walkPath s tokens cur r = some res →
    res.found = true →
    (∀ d ∈ (walkDirsRead s tokens cur).dropLast, s'.disk d = s.disk d) →
    shapeEq (s.disk res.parent_cluster) (s'.disk res.parent_cluster) →
    res.parent_cluster ∉ (walkDirsRead s tokens cur).dropLast →
    walkPath s' tokens cur r = some { res with
      entry_cluster := entryFirstBlock (s'.disk res.parent_cluster) res.entry_index,
      entry_first_block := entryFirstBlock (s'.disk res.parent_cluster) res.entry_index,
      entry_size := entrySize (s'.disk res.parent_cluster) res.entry_index } := by
  intro tokens
  induction tokens with
  | nil => intro cur r res h; exact absurd rfl h
  | cons t rest ih =>
    intro cur r res _ hwalk hfound hag hshape hponce
    simp only [walkPath] at hwalk
    split at hwalk
    · exact absurd hwalk (by simp)
    · rename_i c hrd
      have hcur4096 : cur < 4096 := by
        by_contra hge
        rw [read_cluster, if_neg (by simpa [CLUSTER_COUNT] using hge)] at hrd
        exact Option.noConfusion hrd
      have hcdisk : c = s.disk cur := by
        rw [read_cluster, if_pos (by simpa [CLUSTER_COUNT] using hcur4096)] at hrd
        exact (Option.some.inj hrd).symm
      split at hwalk
      · rename_i hfind
        have hres : res.found = false := by
          have hii := Option.some.inj hwalk
          rw [← hii]
        rw [hres] at hfound
        exact absurd hfound (by simp)
      · rename_i i hfind
        cases rest with
        | nil =>
          simp only [walkPath, Option.some.injEq] at hwalk
          have hparent : res.parent_cluster = cur := by rw [← hwalk]
          have hindex : res.entry_index = i := by rw [← hwalk]
          have hrd' : read_cluster s' cur = some (s'.disk cur) := by
            rw [read_cluster, if_pos (by simpa [CLUSTER_COUNT] using hcur4096)]
          rw [hparent] at hshape
          have hspec := findInCluster_spec c t i hfind
          have hshi := hshape i hspec.1
          have hfind' : findInCluster (s'.disk cur) t = some i := by
            rw [findInCluster_congr (s.disk cur) (s'.disk cur) t hshape, ← hcdisk, hfind]
          have h1 : entryFilenameC (s'.disk cur) i = entryFilenameC c i := by
            rw [hshi.2.1, hcdisk]
          have h2 : entryAttr (s'.disk cur) i = entryAttr c i := by
            rw [hshi.2.2, hcdisk]
          simp only [walkPath, hrd', hfind', Option.some.injEq]
          rw [← hwalk]
          simp [h1, h2, hparent, hindex]
        | cons t2 rest2 =>
          have hwdstep : walkDirsRead s (t :: t2 :: rest2) cur =
              cur :: walkDirsRead s (t2 :: rest2) (entryFirstBlock c i) := by
            simp only [walkDirsRead, hrd, hfind]
          have hwdne := walkDirsRead_ne_nil s (t2 :: rest2) (entryFirstBlock c i)
            (by simp)
          have hdrop : (walkDirsRead s (t :: t2 :: rest2) cur).dropLast =
              cur :: (walkDirsRead s (t2 :: rest2) (entryFirstBlock c i)).dropLast := by
            rw [hwdstep]
            exact List.dropLast_cons_of_ne_nil hwdne
          have hcur' : s'.disk cur = s.disk cur := by
            apply hag
            rw [hdrop]
            exact List.mem_cons_self _ _
          have hrd' : read_cluster s' cur = some (s'.disk cur) := by
            rw [read_cluster, if_pos (by simpa [CLUSTER_COUNT] using hcur4096)]
          have hfind' : findInCluster (s'.disk cur) t = some i := by
            rw [hcur', ← hcdisk, hfind]
          have hih := ih (entryFirstBlock c i) _ res (by simp) hwalk hfound
            (fun d hd => hag d (by rw [hdrop]; exact List.mem_cons_of_mem _ hd))
            hshape
            (fun hmem => hponce (by rw [hdrop]; exact List.mem_cons_of_mem _ hmem))
          simp only [walkPath, hrd', hcur', ← hcdisk, hfind]
          exact hih

/-- `find_entry_by_path` facts for a successful resolution of a regular
file: the path is not the root, the tokens are nonempty, and all the
`walkPath` facts hold. -/
theorem find_entry_success_spec (s : FS) (path : List Nat)
    (r : path_search_result_t)
    (hres : find_entry_by_path s path = some r)
    (hfound : r.found = true)
    (hattr : r.entry_attributes = ATTR_ARCHIVE) :
    splitPath (path.take 511) ≠ [] ∧
    walkPath s (splitPath (path.take 511)) ROOT_DIR_CLUSTER emptyResult = some r ∧
    r.parent_cluster < 4096 ∧ r.entry_index < 32 ∧
    (walkDirsRead s (splitPath (path.take 511)) ROOT_DIR_CLUSTER).getLast? =
      some r.parent_cluster ∧
    byteAt (s.disk r.parent_cluster) (32 * r.entry_index) ≠ 0 ∧
    r.entry_filename = entryFilenameC (s.disk r.parent_cluster) r.entry_index ∧
    r.entry_attributes = entryAttr (s.disk r.parent_cluster) r.entry_index ∧
    r.entry_first_block = entryFirstBlock (s.disk r.parent_cluster) r.entry_index ∧
    r.entry_size = entrySize (s.disk r.parent_cluster) r.entry_index := by
  simp only [find_entry_by_path] at hres
  by_cases hroot : path.take 511 = [47]
  · rw [if_pos hroot] at hres
    have hinj := Option.some.inj hres
    exfalso
    rw [← hinj] at hattr
    simp [ATTR_DIRECTORY, ATTR_ARCHIVE] at hattr
  · rw [if_neg hroot] at hres
    cases htok : splitPath (path.take 511) with
    | nil =>
      rw [htok] at hres
      have hinj := Option.some.inj hres
      exfalso
      rw [← hinj] at hfound
      simp [emptyResult] at hfound
    | cons t rest =>
      rw [htok] at hres
      have hspec := walkPath_success_spec (t :: rest) s ROOT_DIR_CLUSTER
        emptyResult r (by simp) hres hfound
      exact ⟨by simp, hres, hspec.1, hspec.2.1, hspec.2.2.1, hspec.2.2.2.1,
        hspec.2.2.2.2.1, hspec.2.2.2.2.2.1, hspec.2.2.2.2.2.2.1,
        hspec.2.2.2.2.2.2.2.2⟩

/-- Resolver stability at the top level: after a state change that keeps all
directory clusters on the walk byte-identical except for entry-field surgery
in the parent cluster, the path still resolves to the same slot, with
first_block and size re-decoded from the new parent bytes. -/
theorem find_entry_congr (s s' : FS) (path : List Nat)
    (r : path_search_result_t)
    (hres : find_entry_by_path s path = some r)
    (hfound : r.found = true)
    (hattr : r.entry_attributes = ATTR_ARCHIVE)
    (hag : ∀ d ∈ (walkDirsRead s (splitPath (path.take 511))
      ROOT_DIR_CLUSTER).dropLast, s'.disk d = s.disk d)
    (hshape : shapeEq (s.disk r.parent_cluster) (s'.disk r.parent_cluster))
    (hponce : r.parent_cluster ∉
      (walkDirsRead s (splitPath (path.take 511)) ROOT_DIR_CLUSTER).dropLast) :
    find_entry_by_path s' path = some { r with
      entry_cluster := entryFirstBlock (s'.disk r.parent_cluster) r.entry_index,
      entry_first_block := entryFirstBlock (s'.disk r.parent_cluster) r.entry_index,
      entry_size := entrySize (s'.disk r.parent_cluster) r.entry_index } := by
  have hspec := find_entry_success_spec s path r hres hfound hattr
  simp only [find_entry_by_path] at hres ⊢
  by_cases hroot : path.take 511 = [47]
  · rw [if_pos hroot] at hres
    have hinj := Option.some.inj hres
    exfalso
    rw [← hinj] at hattr
    simp [ATTR_DIRECTORY, ATTR_ARCHIVE] at hattr
  · rw [if_neg hroot] at hres ⊢
    cases htok : splitPath (path.take 511) with
    | nil =>
      rw [htok] at hres
      have hinj := Option.some.inj hres
      exfalso
      rw [← hinj] at hfound
      simp [emptyResult] at hfound
    | cons t rest =>
      rw [htok] at hres
      rw [htok] at hag hponce
      exact walk_congr s s' (t :: rest) ROOT_DIR_CLUSTER emptyResult r (by simp)
        hres hfound hag hshape hponce

/-! ### Chain helper lemmas for the write/append loops -/

theorem getLastD_cons_cons {α : Type} (x y d : α) (ys : List α) :
    (x :: y :: ys).getLastD d = (y :: ys).getLastD d := by
  rw [List.getLastD_eq_getLast?, List.getLastD_eq_getLast?,
    List.getLast?_cons_cons]

theorem getLastD_not_mem_dropLast (l : List Nat) (hnd : l.Nodup) (hne : l ≠ []) :
    l.getLastD 0 ∉ l.dropLast := by
  have hsplit := List.dropLast_append_getLast hne
  have hval : l.getLastD 0 = l.getLast hne := by
    rw [List.getLastD_eq_getLast?, List.getLast?_eq_getLast l hne]
    rfl
  rw [hval]
  rw [← hsplit] at hnd
  have hd := List.nodup_append.mp hnd
  intro hmem
  exact hd.2.2 hmem (List.mem_cons_self _ _)

theorem getLastD_concat (a : Nat) (l : List Nat) :
    (l ++ [a]).getLastD 0 = a := by
  rw [List.getLastD_eq_getLast?, List.getLast?_concat]
  rfl

theorem chain_members_fat_ne_zero (fat : Nat → Nat) :
    ∀ (l : List Nat), List.Chain' (fun a b => fat a = b) l →
    fat (l.getLastD 0) = FAT_ENTRY_EOF →
    (∀ c ∈ l, 10 ≤ c ∧ c < 4096) →
    ∀ c ∈ l, fat c ≠ 0 := by
  intro l
  induction l with
  | nil =>
    intro _ _ _ c hc
    exact absurd hc (List.not_mem_nil c)
  | cons x xs ih =>
    intro hch hlast hmem c hc
    cases xs with
    | nil =>
      have hcx : c = x := List.mem_singleton.mp hc
      subst hcx
      have hl : fat c = FAT_ENTRY_EOF := hlast
      rw [hl]
      simp [FAT_ENTRY_EOF]
    | cons y ys =>
      rcases List.mem_cons.mp hc with rfl | hc2
      · have hlink : fat c = y := (List.chain'_cons.mp hch).1
        have hy := hmem y (List.mem_cons_of_mem _ (List.mem_cons_self _ _))
        rw [hlink]
        omega
      · exact ih (List.chain'_cons.mp hch).2
          (by rw [← getLastD_cons_cons x y 0 ys]; exact hlast)
          (fun d hd => hmem d (List.mem_cons_of_mem _ hd)) c hc2

/-- Updating the table at an index that is not among the non-final chain
members preserves the link relation (only non-final members are read). -/
theorem chain_update_not_mem_dropLast (fat : Nat → Nat) (c v : Nat) :
    ∀ (l : List Nat), c ∉ l.dropLast →
    List.Chain' (fun a b => fat a = b) l →
    List.Chain' (fun a b => Function.update fat c v a = b) l := by
  intro l
  induction l with
  | nil =>
    intro _ _
    exact List.chain'_nil
  | cons x xs ih =>
    intro hc hch
    cases xs with
    | nil => exact List.chain'_singleton _
    | cons y ys =>
      rw [List.dropLast_cons_of_ne_nil (by simp)] at hc
      rw [List.chain'_cons] at hch ⊢
      refine ⟨?_, ih (fun h => hc (List.mem_cons_of_mem _ h)) hch.2⟩
      rw [Function.update_noteq
        (fun h => hc (by rw [← h]; exact List.mem_cons_self _ _))]
      exact hch.1

theorem nodup_data_length_le (l : List Nat) (hnd : l.Nodup)
    (hmem : ∀ c ∈ l, 10 ≤ c ∧ c < 4096) : l.length ≤ 4086 := by
  have hsub : l.toFinset ⊆ Finset.Ico 10 4096 := by
    intro x hx
    have hm := hmem x (List.mem_toFinset.mp hx)
    exact Finset.mem_Ico.mpr hm
  have hcard := Finset.card_le_card hsub
  rw [List.toFinset_card_of_nodup hnd, Nat.card_Ico] at hcard
  omega

theorem getLastD_eq_getLast (l : List Nat) (hne : l ≠ []) :
    l.getLastD 0 = l.getLast hne := by
  rw [List.getLastD_eq_getLast?, List.getLast?_eq_getLast l hne]
  rfl

theorem getLastD_mem (l : List Nat) (hne : l ≠ []) : l.getLastD 0 ∈ l := by
  rw [getLastD_eq_getLast l hne]
  exact List.getLast_mem hne

/-- Loop postcondition of the allocation loop of `fs_write`, for calls whose
`first`/`current` arguments describe an already-built nonempty cluster chain
(the situation from the second iteration on).  On success the loop has
extended the chain with fresh data-area clusters holding the zero-padded
slices; on allocator failure the rollback has freed the entire built chain
and every allocated cluster, leaving all other state intact. -/
theorem writeAllocLoop_spec : ∀ (chunks : List (List Nat)) (s : FS)
    (built : List Nat) (first cur : Nat),
    built ≠ [] →
    built.head? = some first →
    built.getLastD 0 = cur →
    built.Nodup →
    (∀ c ∈ built, 10 ≤ c ∧ c < 4096) →
    List.Chain' (fun a b => s.fat a = b) built →
    s.fat (built.getLastD 0) = FAT_ENTRY_EOF →
    (∀ f s', writeAllocLoop s chunks first cur = (Except.ok f, s') →
      f = first ∧ ∃ ext : List Nat,
        ext.length = chunks.length ∧
        (built ++ ext).Nodup ∧
        (∀ c ∈ ext, 10 ≤ c ∧ c < 4096 ∧ s.fat c = 0) ∧
        List.Chain' (fun a b => s'.fat a = b) (built ++ ext) ∧
        s'.fat ((built ++ ext).getLastD 0) = FAT_ENTRY_EOF ∧
        (∀ c, c ∉ built ++ ext → s'.fat c = s.fat c) ∧
        (∀ c, c ∉ ext → s'.disk c = s.disk c) ∧
        (∀ i, i < ext.length → s'.disk (ext.getD i 0) =
          chunks.getD i [] ++ List.replicate (1024 - (chunks.getD i []).length) 0)) ∧
    (∀ e s', writeAllocLoop s chunks first cur = (Except.error e, s') →
      e = Err.NoSpace ∧
      (∀ c ∈ built, s'.fat c = 0) ∧
      (∀ c, s.fat c ≠ 0 → c ∉ built → s'.fat c = s.fat c) ∧
      (∀ c, s.fat c ≠ 0 → s'.disk c = s.disk c) ∧
      (∀ c, s'.fat c = 0 ∨ s'.fat c = s.fat c)) := by
  intro chunks
  induction chunks with
  | nil =>
    intro s built first cur hne hhead hlastc hnd hmem hch hlast
    constructor
    · intro f s' heq
      simp only [writeAllocLoop, Prod.mk.injEq] at heq
      obtain ⟨hf, hs⟩ := heq
      have hf' : first = f := Except.ok.inj hf
      subst hf'
      subst hs
      refine ⟨rfl, [], rfl, by simpa using hnd, ?_, by simpa using hch,
        by simpa using hlast, fun c _ => rfl, fun c _ => rfl, ?_⟩
      · intro c hc
        exact absurd hc (List.not_mem_nil c)
      · intro i hi
        simp at hi
    · intro e s' heq
      simp only [writeAllocLoop, Prod.mk.injEq] at heq
      exact absurd heq.1.symm (by simp)
  | cons chunk rest ih =>
    intro s built first cur hne hhead hlastc hnd hmem hch hlast
    have hfirst_mem : first ∈ built := by
      cases built with
      | nil => exact absurd rfl hne
      | cons b bs =>
        have hb : b = first := by injection hhead
        rw [← hb]
        exact List.mem_cons_self _ _
    have hfirst_ne : first ≠ 0 := by
      have hm := hmem first hfirst_mem
      omega
    have hbuilt_ne0 : ∀ c ∈ built, s.fat c ≠ 0 :=
      chain_members_fat_ne_zero s.fat built hch hlast hmem
    have hcur_mem : cur ∈ built := by
      rw [← hlastc]
      exact getLastD_mem built hne
    by_cases hnxt : find_free_cluster s.fat = 0
    · constructor
      · intro f s' heq
        simp only [writeAllocLoop, if_pos hnxt, Prod.mk.injEq] at heq
        exact absurd heq.1.symm (by simp)
      · intro e s' heq
        simp only [writeAllocLoop, if_pos hnxt, Prod.mk.injEq] at heq
        obtain ⟨he, hs⟩ := heq
        have he' : e = Err.NoSpace := (Except.error.inj he).symm
        obtain ⟨btl, rfl⟩ : ∃ btl, built = first :: btl := by
          cases built with
          | nil => exact absurd rfl hne
          | cons b bs =>
            have hb : b = first := by injection hhead
            exact ⟨bs, by rw [hb]⟩
        have hvisited : chainVisited s.fat first = first :: btl := by
          apply chainVisited_chain btl s.fat first hch
          · rw [← getLastD_eq_getLast _ (List.cons_ne_nil first btl)]
            exact hlast
          · intro x hx
            have hm := hmem x hx
            constructor
            · omega
            · show x < FAT_ENTRY_EOF
              simp only [FAT_ENTRY_EOF]
              omega
          · exact hnd
          · have hle := nodup_data_length_le (first :: btl) hnd hmem
            simp only [List.length_cons] at hle ⊢
            omega
        subst hs
        refine ⟨he', ?_, ?_, fun c _ => rfl, ?_⟩
        · intro c hc
          exact (free_cluster_chain_eq s.fat first c).1 (by rw [hvisited]; exact hc)
        · intro c _ hc
          exact (free_cluster_chain_eq s.fat first c).2 (by rw [hvisited]; exact hc)
        · intro c
          by_cases hc : c ∈ first :: btl
          · exact Or.inl ((free_cluster_chain_eq s.fat first c).1 (by rw [hvisited]; exact hc))
          · exact Or.inr ((free_cluster_chain_eq s.fat first c).2 (by rw [hvisited]; exact hc))
    · rcases find_free_cluster_spec s.fat with h0 | hnxtspec
      · exact absurd h0 hnxt
      obtain ⟨hnxt10, hnxt4096, hnxtfree⟩ := hnxtspec
      set nxt := find_free_cluster s.fat with hnxtdef
      have hnxt_notin : nxt ∉ built := fun h => (hbuilt_ne0 nxt h) hnxtfree
      set fat2 := Function.update (Function.update s.fat cur nxt) nxt FAT_ENTRY_EOF
        with hfat2def
      set buffer := chunk ++ List.replicate (1024 - chunk.length) 0 with hbufdef
      set s1 : FS := { s with fat := fat2, disk := Function.update s.disk nxt buffer }
        with hs1def
      have hred : writeAllocLoop s (chunk :: rest) first cur =
          writeAllocLoop s1 rest first nxt := by
        simp only [writeAllocLoop, ← hnxtdef, if_neg hnxt, if_neg hfirst_ne]
        rw [write_cluster, if_pos (show nxt < CLUSTER_COUNT by
          simp only [CLUSTER_COUNT]; omega)]
      have hcurnxt : cur ≠ nxt := fun h => hnxt_notin (h ▸ hcur_mem)
      have hfat2cur : fat2 cur = nxt := by
        rw [hfat2def, Function.update_noteq hcurnxt, Function.update_same]
      have hfat2nxt : fat2 nxt = FAT_ENTRY_EOF := by
        rw [hfat2def, Function.update_same]
      have hfat2other : ∀ c, c ≠ cur → c ≠ nxt → fat2 c = s.fat c := by
        intro c hc1 hc2
        rw [hfat2def, Function.update_noteq hc2, Function.update_noteq hc1]
      have hbuilt' : (built ++ [nxt]) ≠ [] := by simp
      have hhead' : (built ++ [nxt]).head? = some first := by
        rw [List.head?_append_of_ne_nil built hne]
        exact hhead
      have hlast' : (built ++ [nxt]).getLastD 0 = nxt := getLastD_concat nxt built
      have hnd' : (built ++ [nxt]).Nodup := by
        rw [List.nodup_append]
        refine ⟨hnd, List.nodup_singleton nxt, ?_⟩
        intro a ha ha2
        have : a = nxt := List.mem_singleton.mp ha2
        exact hnxt_notin (this ▸ ha)
      have hmem' : ∀ c ∈ built ++ [nxt], 10 ≤ c ∧ c < 4096 := by
        intro c hc
        rcases List.mem_append.mp hc with h | h
        · exact hmem c h
        · have : c = nxt := List.mem_singleton.mp h
          subst this
          exact ⟨hnxt10, hnxt4096⟩
      have hch' : List.Chain' (fun a b => fat2 a = b) (built ++ [nxt]) := by
        rw [List.chain'_append]
        refine ⟨?_, List.chain'_singleton _, ?_⟩
        · rw [hfat2def]
          apply chain_update_not_mem_dropLast
          · intro hmem2
            exact hnxt_notin (List.dropLast_subset built hmem2)
          · apply chain_update_not_mem_dropLast
            · rw [← hlastc]
              exact getLastD_not_mem_dropLast built hnd hne
            · exact hch
        · intro x hx y hy
          have hxl : x = cur := by
            rw [List.getLast?_eq_getLast built hne] at hx
            have := Option.mem_some_iff.mp hx
            rw [← this, ← getLastD_eq_getLast built hne]
            exact hlastc.symm ▸ rfl
          have hyl : y = nxt := by
            simp only [List.head?_cons, Option.mem_some_iff] at hy
            exact hy.symm
          rw [hxl, hyl]
          exact hfat2cur
      have hlastE' : fat2 ((built ++ [nxt]).getLastD 0) = FAT_ENTRY_EOF := by
        rw [hlast']
        exact hfat2nxt
      have hIH := ih s1 (built ++ [nxt]) first nxt hbuilt' hhead' hlast' hnd'
        hmem' hch' hlastE'
      have hlt : nxt < CLUSTER_COUNT := by
        simp only [CLUSTER_COUNT]
        omega
      have hred : writeAllocLoop s (chunk :: rest) first cur =
          writeAllocLoop s1 rest first nxt := by
        rw [hs1def, hfat2def, hbufdef]
        simp only [writeAllocLoop, ← hnxtdef, if_neg hnxt, if_neg hfirst_ne,
          write_cluster]
        rw [if_pos hlt]
      have hs1fat : s1.fat = fat2 := rfl
      have hs1disk : s1.disk = Function.update s.disk nxt buffer := rfl
      constructor
      · intro f s' heq
        rw [hred] at heq
        obtain ⟨hf, ext', hlen', hnd'', hfresh', hch'', hlastE'', hfatfr',
          hdiskfr', hidx'⟩ := hIH.1 f s' heq
        have hass : (built ++ [nxt]) ++ ext' = built ++ nxt :: ext' := by simp
        have hnd2 := hnd''
        rw [hass] at hnd'' hch'' hlastE''
        refine ⟨hf, nxt :: ext', ?_, hnd'', ?_, hch'', hlastE'', ?_, ?_, ?_⟩
        · simp only [List.length_cons, hlen']
        · intro c hc
          rcases List.mem_cons.mp hc with rfl | hc2
          · exact ⟨hnxt10, hnxt4096, hnxtfree⟩
          · obtain ⟨h10, h4096, hfree⟩ := hfresh' c hc2
            rw [hs1fat] at hfree
            have hcnenxt : c ≠ nxt := by
              intro h
              rw [h, hfat2nxt] at hfree
              exact absurd hfree (by simp [FAT_ENTRY_EOF])
            have hcnecur : c ≠ cur := by
              intro h
              rw [h, hfat2cur] at hfree
              omega
            rw [← hfat2other c hcnecur hcnenxt]
            exact ⟨h10, h4096, hfree⟩
        · intro c hcnot
          have hnb : c ∉ built := fun h =>
            hcnot (List.mem_append.mpr (Or.inl h))
          have hnn : c ≠ nxt := fun h =>
            hcnot (List.mem_append.mpr (Or.inr (by rw [h]; exact List.mem_cons_self _ _)))
          have hne' : c ∉ ext' := fun h =>
            hcnot (List.mem_append.mpr (Or.inr (List.mem_cons_of_mem _ h)))
          have hcnec : c ≠ cur := fun h => hnb (by rw [h]; exact hcur_mem)
          have hcnot' : c ∉ (built ++ [nxt]) ++ ext' := by
            rw [hass]
            exact hcnot
          rw [hfatfr' c hcnot', hs1fat]
          exact hfat2other c hcnec hnn
        · intro c hcnot
          have hnn : c ≠ nxt := fun h => hcnot (by rw [h]; exact List.mem_cons_self _ _)
          have hne' : c ∉ ext' := fun h => hcnot (List.mem_cons_of_mem _ h)
          rw [hdiskfr' c hne', hs1disk]
          exact Function.update_noteq hnn _ _
        · intro i hi
          cases i with
          | zero =>
            have hnxt_notin_ext : nxt ∉ ext' :=
              fun h => (List.nodup_append.mp hnd2).2.2
                (List.mem_append.mpr (Or.inr (List.mem_singleton_self nxt))) h
            rw [show (nxt :: ext').getD 0 0 = nxt from rfl]
            rw [hdiskfr' nxt hnxt_notin_ext, hs1disk, Function.update_same]
            rfl
          | succ j =>
            rw [show (nxt :: ext').getD (j + 1) 0 = ext'.getD j 0 from rfl,
              show (chunk :: rest).getD (j + 1) [] = rest.getD j [] from rfl]
            exact hidx' j (by simp only [List.length_cons] at hi; omega)
      · intro e s' heq
        rw [hred] at heq
        obtain ⟨he, hzero', hfr', hdiskfr', hdisj'⟩ := hIH.2 e s' heq
        refine ⟨he, ?_, ?_, ?_, ?_⟩
        · intro c hc
          exact hzero' c (List.mem_append.mpr (Or.inl hc))
        · intro c hcne0 hcnotb
          have hcnenxt : c ≠ nxt := by
            intro h
            rw [h] at hcne0
            exact hcne0 hnxtfree
          have hcnecur : c ≠ cur := fun h => hcnotb (by rw [h]; exact hcur_mem)
          have hs1c : s1.fat c = s.fat c := by
            rw [hs1fat]
            exact hfat2other c hcnecur hcnenxt
          have hcnotb' : c ∉ built ++ [nxt] := by
            intro hmem2
            rcases List.mem_append.mp hmem2 with h | h
            · exact hcnotb h
            · exact hcnenxt (List.mem_singleton.mp h)
          rw [hfr' c (by rw [hs1c]; exact hcne0) hcnotb', hs1c]
        · intro c hcne0
          have hcnenxt : c ≠ nxt := by
            intro h
            rw [h] at hcne0
            exact hcne0 hnxtfree
          have hs1ne : s1.fat c ≠ 0 := by
            rw [hs1fat]
            by_cases hcc : c = cur
            · rw [hcc, hfat2cur]
              omega
            · rw [hfat2other c hcc hcnenxt]
              exact hcne0
          rw [hdiskfr' c hs1ne, hs1disk]
          exact Function.update_noteq hcnenxt _ _
        · intro c
          by_cases hcb : c ∈ built ++ [nxt]
          · exact Or.inl (hzero' c hcb)
          · rcases hdisj' c with h | h
            · exact Or.inl h
            · right
              rw [h, hs1fat]
              have hcnen : c ≠ nxt := by
                intro hh
                apply hcb
                rw [hh]
                exact List.mem_append.mpr (Or.inr (List.mem_singleton_self nxt))
              have hcnec : c ≠ cur := by
                intro hh
                apply hcb
                rw [hh]
                exact List.mem_append.mpr (Or.inl hcur_mem)
              exact hfat2other c hcnec hcnen

/-- Postcondition of the whole allocation loop of `fs_write` when entered
with `first = current = 0` (nonempty content) and succeeding: a fresh,
duplicate-free chain of data clusters holding the zero-padded slices, its
head returned as the file's new first cluster, and nothing else touched. -/
theorem writeAllocLoop_top_ok (chunks : List (List Nat)) (s : FS) (f : Nat)
    (s' : FS) (hne : chunks ≠ [])
    (heq : writeAllocLoop s chunks 0 0 = (Except.ok f, s')) :
    ∃ cs : List Nat,
      cs.length = chunks.length ∧
      cs.head? = some f ∧
      cs.Nodup ∧
      (∀ c ∈ cs, 10 ≤ c ∧ c < 4096 ∧ s.fat c = 0) ∧
      List.Chain' (fun a b => s'.fat a = b) cs ∧
      s'.fat (cs.getLastD 0) = FAT_ENTRY_EOF ∧
      (∀ c, c ∉ cs → s'.fat c = s.fat c) ∧
      (∀ c, c ∉ cs → s'.disk c = s.disk c) ∧
      (∀ i, i < cs.length → s'.disk (cs.getD i 0) =
        chunks.getD i [] ++ List.replicate (1024 - (chunks.getD i []).length) 0) := by
  cases chunks with
  | nil => exact absurd rfl hne
  | cons chunk rest =>
    by_cases hnxt : find_free_cluster s.fat = 0
    · simp only [writeAllocLoop, if_pos hnxt, Prod.mk.injEq] at heq
      exact absurd heq.1.symm (by simp)
    · rcases find_free_cluster_spec s.fat with h0 | hnxtspec
      · exact absurd h0 hnxt
      obtain ⟨hnxt10, hnxt4096, hnxtfree⟩ := hnxtspec
      set nxt := find_free_cluster s.fat with hnxtdef
      set fat2 := Function.update s.fat nxt FAT_ENTRY_EOF with hfat2def
      set buffer := chunk ++ List.replicate (1024 - chunk.length) 0 with hbufdef
      set s1 : FS := { s with fat := fat2, disk := Function.update s.disk nxt buffer }
        with hs1def
      have hlt : nxt < CLUSTER_COUNT := by
        simp only [CLUSTER_COUNT]
        omega
      have hred : writeAllocLoop s (chunk :: rest) 0 0 =
          writeAllocLoop s1 rest nxt nxt := by
        rw [hs1def, hfat2def, hbufdef]
        simp only [writeAllocLoop, ← hnxtdef, if_neg hnxt, if_pos rfl, if_true, write_cluster]
        rw [if_pos hlt]
      rw [hred] at heq
      have hfat2nxt : fat2 nxt = FAT_ENTRY_EOF := Function.update_same nxt _ _
      have hfat2other : ∀ c, c ≠ nxt → fat2 c = s.fat c :=
        fun c hc => Function.update_noteq hc _ _
      have hIH := writeAllocLoop_spec rest s1 [nxt] nxt nxt (by simp) rfl rfl
        (List.nodup_singleton nxt)
        (by intro c hc; rw [List.mem_singleton.mp hc]; exact ⟨hnxt10, hnxt4096⟩)
        (List.chain'_singleton nxt) (by exact hfat2nxt)
      obtain ⟨hf, ext', hlen', hnd'', hfresh', hch'', hlastE'', hfatfr',
        hdiskfr', hidx'⟩ := hIH.1 f s' heq
      have hnxt_notin_ext : nxt ∉ ext' :=
        fun h => (List.nodup_append.mp hnd'').2.2 (List.mem_singleton_self nxt) h
      refine ⟨nxt :: ext', ?_, by rw [hf]; rfl, hnd'', ?_, hch'', hlastE'', ?_, ?_, ?_⟩
      · simp only [List.length_cons, hlen']
      · intro c hc
        rcases List.mem_cons.mp hc with rfl | hc2
        · exact ⟨hnxt10, hnxt4096, hnxtfree⟩
        · obtain ⟨h10, h4096, hfree⟩ := hfresh' c hc2
          have hcnenxt : c ≠ nxt := by
            intro h
            rw [h] at hfree
            have : fat2 nxt = 0 := hfree
            rw [hfat2nxt] at this
            exact absurd this (by simp [FAT_ENTRY_EOF])
          have : fat2 c = 0 := hfree
          rw [hfat2other c hcnenxt] at this
          exact ⟨h10, h4096, this⟩
      · intro c hcnot
        have hnn : c ≠ nxt := fun h => hcnot (by rw [h]; exact List.mem_cons_self _ _)
        rw [hfatfr' c hcnot]
        exact hfat2other c hnn
      · intro c hcnot
        have hnn : c ≠ nxt := fun h => hcnot (by rw [h]; exact List.mem_cons_self _ _)
        have hne' : c ∉ ext' := fun h => hcnot (List.mem_cons_of_mem _ h)
        rw [hdiskfr' c hne']
        exact Function.update_noteq hnn _ _
      · intro i hi
        cases i with
        | zero =>
          rw [show (nxt :: ext').getD 0 0 = nxt from rfl]
          rw [hdiskfr' nxt hnxt_notin_ext]
          rw [show s1.disk nxt = buffer from Function.update_same nxt _ _]
          rfl
        | succ j =>
          rw [show (nxt :: ext').getD (j + 1) 0 = ext'.getD j 0 from rfl,
            show (chunk :: rest).getD (j + 1) [] = rest.getD j [] from rfl]
          exact hidx' j (by simp only [List.length_cons] at hi; omega)

/-- Failure postcondition of the whole allocation loop of `fs_write`: the
rollback has freed everything it allocated, no entry that was in use has
changed, no in-use cluster's data has changed, and no entry became newly
allocated. -/
theorem writeAllocLoop_top_err (chunks : List (List Nat)) (s : FS) (e : Err)
    (s' : FS) (heq : writeAllocLoop s chunks 0 0 = (Except.error e, s')) :
    e = Err.NoSpace ∧
    (∀ c, s.fat c ≠ 0 → s'.fat c = s.fat c ∧ s'.disk c = s.disk c) ∧
    (∀ c, s'.fat c = 0 ∨ s'.fat c = s.fat c) := by
  cases chunks with
  | nil =>
    simp only [writeAllocLoop, Prod.mk.injEq] at heq
    exact absurd heq.1.symm (by simp)
  | cons chunk rest =>
    by_cases hnxt : find_free_cluster s.fat = 0
    · simp only [writeAllocLoop, if_pos hnxt, Prod.mk.injEq] at heq
      obtain ⟨he, hs⟩ := heq
      have he' : e = Err.NoSpace := (Except.error.inj he).symm
      have hfat0 : free_cluster_chain s.fat 0 = s.fat :=
        free_cluster_chain_stopped s.fat 0 (Or.inl rfl)
      subst hs
      refine ⟨he', ?_, ?_⟩
      · intro c _
        constructor
        · show free_cluster_chain s.fat 0 c = s.fat c
          rw [hfat0]
        · rfl
      · intro c
        right
        show free_cluster_chain s.fat 0 c = s.fat c
        rw [hfat0]
    · rcases find_free_cluster_spec s.fat with h0 | hnxtspec
      · exact absurd h0 hnxt
      obtain ⟨hnxt10, hnxt4096, hnxtfree⟩ := hnxtspec
      set nxt := find_free_cluster s.fat with hnxtdef
      set fat2 := Function.update s.fat nxt FAT_ENTRY_EOF with hfat2def
      set buffer := chunk ++ List.replicate (1024 - chunk.length) 0 with hbufdef
      set s1 : FS := { s with fat := fat2, disk := Function.update s.disk nxt buffer }
        with hs1def
      have hlt : nxt < CLUSTER_COUNT := by
        simp only [CLUSTER_COUNT]
        omega
      have hred : writeAllocLoop s (chunk :: rest) 0 0 =
          writeAllocLoop s1 rest nxt nxt := by
        rw [hs1def, hfat2def, hbufdef]
        simp only [writeAllocLoop, ← hnxtdef, if_neg hnxt, if_pos rfl, if_true, write_cluster]
        rw [if_pos hlt]
      rw [hred] at heq
      have hfat2nxt : fat2 nxt = FAT_ENTRY_EOF := Function.update_same nxt _ _
      have hfat2other : ∀ c, c ≠ nxt → fat2 c = s.fat c :=
        fun c hc => Function.update_noteq hc _ _
      have hIH := writeAllocLoop_spec rest s1 [nxt] nxt nxt (by simp) rfl rfl
        (List.nodup_singleton nxt)
        (by intro c hc; rw [List.mem_singleton.mp hc]; exact ⟨hnxt10, hnxt4096⟩)
        (List.chain'_singleton nxt) (by exact hfat2nxt)
      obtain ⟨he, hzero', hfr', hdiskfr', hdisj'⟩ := hIH.2 e s' heq
      refine ⟨he, ?_, ?_⟩
      · intro c hcne0
        have hcnenxt : c ≠ nxt := by
          intro h
          rw [h] at hcne0
          exact hcne0 hnxtfree
        have hs1c : s1.fat c = s.fat c := hfat2other c hcnenxt
        constructor
        · rw [hfr' c (by rw [hs1c]; exact hcne0) (by simp [hcnenxt]), hs1c]
        · rw [hdiskfr' c (by rw [hs1c]; exact hcne0)]
          exact Function.update_noteq hcnenxt _ _
      · intro c
        by_cases hcb : c = nxt
        · exact Or.inl (hzero' c (by rw [hcb]; exact List.mem_singleton_self nxt))
        · rcases hdisj' c with h | h
          · exact Or.inl h
          · right
            rw [h]
            exact hfat2other c hcb

/-! ### Slice and read-back lemmas -/

theorem chunksAux_congr : ∀ (fuel1 fuel2 : Nat) (B : List Nat),
    B.length < fuel1 → B.length < fuel2 →
    chunksAux fuel1 B = chunksAux fuel2 B := by
  intro fuel1
  induction fuel1 with
  | zero =>
    intro fuel2 B h1 _
    omega
  | succ f ih =>
    intro fuel2 B h1 h2
    cases fuel2 with
    | zero => omega
    | succ g =>
      simp only [chunksAux]
      by_cases hB : B = []
      · rw [if_pos hB, if_pos hB]
      · have hpos : 0 < B.length := List.length_pos.mpr hB
        have hl : (B.drop 1024).length = B.length - 1024 := by
          rw [List.length_drop]
        rw [if_neg hB, if_neg hB]
        congr 1
        exact ih g (B.drop 1024) (by omega) (by omega)

theorem chunks1024_nil : chunks1024 [] = [] := rfl

theorem chunks1024_cons (B : List Nat) (hB : B ≠ []) :
    chunks1024 B = B.take 1024 :: chunks1024 (B.drop 1024) := by
  have hpos : 0 < B.length := List.length_pos.mpr hB
  have hl : (B.drop 1024).length = B.length - 1024 := by
    rw [List.length_drop]
  have h1 : chunksAux (B.length + 1) B =
      B.take 1024 :: chunksAux B.length (B.drop 1024) := by
    simp only [chunksAux, if_neg hB]
  rw [chunks1024, chunks1024, h1]
  congr 1
  exact chunksAux_congr B.length ((B.drop 1024).length + 1) (B.drop 1024)
    (by omega) (by omega)

theorem getD_mem_of_lt (l : List Nat) (i : Nat) (h : i < l.length) :
    l.getD i 0 ∈ l := by
  rw [List.getD_eq_getElem l 0 h]
  exact List.getElem_mem h

/-- Reading `B.length` bytes starting from the head of a cluster chain whose
clusters hold the successive zero-padded 1024-byte slices of `B` emits
exactly `B`.  An empty `B` needs no chain at all: the loop exits at once. -/
theorem readLoopAux_chain : ∀ (cs B : List Nat) (fuel : Nat) (s : FS)
    (current : Nat),
    cs.length = (chunks1024 B).length →
    (cs ≠ [] → cs.headD 0 = current) →
    (∀ c ∈ cs, c < 4096) →
    List.Chain' (fun a b => s.fat a = b) cs →
    (∀ i, i < cs.length → s.disk (cs.getD i 0) =
      (chunks1024 B).getD i [] ++
        List.replicate (1024 - ((chunks1024 B).getD i []).length) 0) →
    B.length < fuel →
    readLoopAux s fuel current B.length = Except.ok B := by
  intro cs
  induction cs with
  | nil =>
    intro B fuel s current hlen _ _ _ _ hfuel
    have hB : B = [] := by
      by_contra hBne
      rw [chunks1024_cons B hBne] at hlen
      simp at hlen
    subst hB
    cases fuel with
    | zero => simp at hfuel
    | succ f =>
      simp only [readLoopAux, List.length_nil]
      rw [if_neg (by simp)]
  | cons c cs' ih =>
    intro B fuel s current hlen hhead hmem hch hidx hfuel
    have hBne : B ≠ [] := by
      intro hB
      subst hB
      rw [chunks1024_nil] at hlen
      simp at hlen
    have hchunks := chunks1024_cons B hBne
    have hpos : 0 < B.length := List.length_pos.mpr hBne
    cases fuel with
    | zero => omega
    | succ f =>
      have hcur : current = c := (hhead (by simp)).symm
      rw [hcur]
      have hc4096 : c < 4096 := hmem c (List.mem_cons_self _ _)
      have hrd : read_cluster s c = some (s.disk c) := by
        rw [read_cluster, if_pos (by simpa [CLUSTER_COUNT] using hc4096)]
      have hdisk0 : s.disk c = B.take 1024 ++
          List.replicate (1024 - (B.take 1024).length) 0 := by
        have h0 := hidx 0 (by simp)
        rw [hchunks] at h0
        simpa using h0
      have hbtr2 : B.length - min B.length CLUSTER_SIZE = (B.drop 1024).length := by
        rw [List.length_drop]
        simp only [CLUSTER_SIZE]
        omega
      have hrec : readLoopAux s f (s.fat c) (B.length - min B.length CLUSTER_SIZE) =
          Except.ok (B.drop 1024) := by
        rw [hbtr2]
        apply ih (B.drop 1024) f s (s.fat c)
        · have hlen' := hlen
          rw [hchunks] at hlen'
          simpa using hlen'
        · intro hne
          cases cs' with
          | nil => exact absurd rfl hne
          | cons c2 t => exact ((List.chain'_cons.mp hch).1).symm
        · intro d hd
          exact hmem d (List.mem_cons_of_mem _ hd)
        · exact hch.tail
        · intro i hi
          have hstep := hidx (i + 1) (by simpa using Nat.succ_lt_succ hi)
          rw [hchunks] at hstep
          exact hstep
        · have hdl : (B.drop 1024).length = B.length - 1024 := by
            rw [List.length_drop]
          omega
      have htake : (s.disk c).take (min B.length CLUSTER_SIZE) = B.take 1024 := by
        rw [hdisk0]
        have hlt : (B.take 1024).length = min B.length CLUSTER_SIZE := by
          rw [List.length_take]
          simp only [CLUSTER_SIZE]
          omega
        rw [← hlt, List.take_left]
      simp only [readLoopAux, hrd]
      rw [if_pos ⟨hpos, by simp only [FAT_ENTRY_EOF]; omega⟩]
      simp only [hrec, htake, List.take_append_drop]

theorem readLoop_chain (cs B : List Nat) (s : FS) (current : Nat)
    (hlen : cs.length = (chunks1024 B).length)
    (hhead : cs ≠ [] → cs.headD 0 = current)
    (hmem : ∀ c ∈ cs, c < 4096)
    (hch : List.Chain' (fun a b => s.fat a = b) cs)
    (hidx : ∀ i, i < cs.length → s.disk (cs.getD i 0) =
      (chunks1024 B).getD i [] ++
        List.replicate (1024 - ((chunks1024 B).getD i []).length) 0) :
    readLoop s current B.length = Except.ok B :=
  readLoopAux_chain cs B (B.length + 1) s current hlen hhead hmem hch hidx
    (by omega)

/-- The `fs_write` parent-slot surgery only rewrites first_block/size bytes,
so every slot keeps its occupancy byte, name and attributes. -/
theorem shapeEq_setEntryFirstSize (c : List Nat) (i fb sz : Nat)
    (hc : c.length = 1024) (hi : i < 32) :
    shapeEq c (setEntryFirstSize c i fb sz) := by
  intro j hj
  refine ⟨?_, ?_, ?_⟩
  · exact byteAt_setEntryFirstSize_out c i fb sz _ hc hi (by omega)
  · apply filenameC_congr
    intro k hk
    exact byteAt_setEntryFirstSize_out c i fb sz _ hc hi (by omega)
  · exact byteAt_setEntryFirstSize_out c i fb sz _ hc hi (by omega)

/-- The `fs_append` parent-slot surgery likewise only rewrites size bytes. -/
theorem shapeEq_setEntrySize (c : List Nat) (i sz : Nat)
    (hc : c.length = 1024) (hi : i < 32) :
    shapeEq c (setEntrySize c i sz) := by
  intro j hj
  refine ⟨?_, ?_, ?_⟩
  · exact byteAt_setEntrySize_out c i sz _ hc hi (by omega)
  · apply filenameC_congr
    intro k hk
    exact byteAt_setEntrySize_out c i sz _ hc hi (by omega)
  · exact byteAt_setEntrySize_out c i sz _ hc hi (by omega)

/-- If some data-area cluster is free, the allocator scan finds one (so it
does not return the full-partition sentinel 0). -/
theorem find_free_cluster_of_free (fat : Nat → Nat) (i : Nat)
    (h10 : 10 ≤ i) (h4096 : i < 4096) (hfree : fat i = 0) :
    find_free_cluster fat ≠ 0 := by
  have hmem : i ∈ List.range' 10 4086 := by
    rw [List.mem_range'_1]
    omega
  have hsome : ((List.range' 10 4086).find?
      (fun j => decide (fat j = FAT_ENTRY_FREE))).isSome := by
    rw [List.find?_isSome]
    exact ⟨i, hmem, by simp [hfree, FAT_ENTRY_FREE]⟩
  rw [find_free_cluster]
  cases hf : (List.range' 10 4086).find? (fun j => decide (fat j = FAT_ENTRY_FREE)) with
  | none =>
    rw [hf] at hsome
    simp at hsome
  | some j =>
    have hjmem := List.mem_range'_1.mp (List.mem_of_find?_eq_some hf)
    simp only []
    omega

theorem getLastD_cons_any (a d : Nat) (l : List Nat) :
    (a :: l).getLastD d = l.getLastD a := by
  cases l with
  | nil => rfl
  | cons b t =>
    rw [getLastD_cons_cons a b d t, List.getLastD_eq_getLast?,
      List.getLastD_eq_getLast?]
    rw [List.getLast?_eq_getLast (b :: t) (by simp)]
    rfl

/-- On a failing walk the returned `parent_cluster` is the cluster in which
the last MATCHED component was found (the accumulator's value when the
failing component is reached) — not the cluster in which the failing search
itself ran. -/
theorem walkPath_fail_parent : ∀ (tokens : List (List Nat)) (s : FS)
    (cur : Nat) (r res : path_search_result_t),
    walkPath s tokens cur r = some res →
    res.found = false →
    res.parent_cluster =
      ((walkDirsRead s tokens cur).dropLast).getLastD r.parent_cluster := by
  intro tokens
  induction tokens with
  | nil =>
    intro s cur r res hwalk hfail
    simp only [walkPath, Option.some.injEq] at hwalk
    rw [← hwalk] at hfail
    simp at hfail
  | cons t rest ih =>
    intro s cur r res hwalk hfail
    simp only [walkPath] at hwalk
    split at hwalk
    · exact absurd hwalk (by simp)
    · rename_i c hrd
      split at hwalk
      · rename_i hfind
        have hres := Option.some.inj hwalk
        rw [← hres]
        simp only [walkDirsRead, hrd, hfind]
        simp
      · rename_i i hfind
        cases rest with
        | nil =>
          simp only [walkPath, Option.some.injEq] at hwalk
          rw [← hwalk] at hfail
          simp at hfail
        | cons t2 rest2 =>
          have hih := ih s (entryFirstBlock c i) _ res hwalk hfail
          have hstep : walkDirsRead s (t :: t2 :: rest2) cur =
              cur :: walkDirsRead s (t2 :: rest2) (entryFirstBlock c i) := by
            simp only [walkDirsRead, hrd, hfind]
          rw [hstep]
          have hwdne := walkDirsRead_ne_nil s (t2 :: rest2)
            (entryFirstBlock c i) (by simp)
          rw [List.dropLast_cons_of_ne_nil hwdne, getLastD_cons_any]
          simpa using hih

/-! ### System-region preservation helpers -/

theorem sysOk_update (fat : Nat → Nat) (c v : Nat) (h : sysOk fat)
    (hc : 10 ≤ c) : sysOk (Function.update fat c v) := by
  obtain ⟨h0, h18, h9⟩ := h
  refine ⟨?_, ?_, ?_⟩
  · rw [Function.update_noteq (by omega)]
    exact h0
  · intro i h1 h8
    rw [Function.update_noteq (by omega)]
    exact h18 i h1 h8
  · rw [Function.update_noteq (by omega)]
    exact h9

theorem sysOk_free_chain (fat : Nat → Nat) (head : Nat) (h : sysOk fat)
    (hvis : ∀ c ∈ chainVisited fat head, 10 ≤ c) :
    sysOk (free_cluster_chain fat head) := by
  obtain ⟨h0, h18, h9⟩ := h
  have hni : ∀ i : Nat, i ≤ 9 → free_cluster_chain fat head i = fat i := by
    intro i hi
    apply (free_cluster_chain_eq fat head i).2
    intro hmem
    have := hvis i hmem
    omega
  refine ⟨?_, ?_, ?_⟩
  · rw [hni 0 (by omega)]
    exact h0
  · intro i h1 h8
    rw [hni i (by omega)]
    exact h18 i h1 h8
  · rw [hni 9 (by omega)]
    exact h9

theorem fs_read_state (s : FS) (p : List Nat) : (fs_read s p).2 = s := by
  rw [fs_read]
  split
  · rfl
  · split
    · rfl
    · split
      · rfl
      · split
        · rfl
        · rfl

/-- `fs_mkdir` changes the FAT mirror only by marking the freshly allocated
data cluster (≥ 10) end-of-chain. -/
theorem fs_mkdir_sys (s : FS) (p : List Nat) (h : sysOk s.fat) :
    sysOk (fs_mkdir s p).2.fat := by
  rw [fs_mkdir]
  split
  · exact h
  · rename_i k hk
    dsimp only
    generalize (if k = 0 then [47] else List.take k (List.take 511 p)) = pp
    generalize List.drop (k + 1) (List.take 511 p) = nm
    split
    · exact h
    · split
      · exact h
      · split
        · exact h
        · split
          · exact h
          · exact h
          · split
            · exact h
            · rename_i hnc
              have h10 : 10 ≤ find_free_cluster s.fat := by
                rcases find_free_cluster_spec s.fat with hz | hz
                · exact absurd hz hnc
                · omega
              have hs1 : sysOk (Function.update s.fat
                  (find_free_cluster s.fat) FAT_ENTRY_EOF) :=
                sysOk_update _ _ _ h h10
              split
              · exact hs1
              · rename_i s2 hwr
                have hs2 : s2.fat = Function.update s.fat
                    (find_free_cluster s.fat) FAT_ENTRY_EOF := by
                  rw [write_cluster] at hwr
                  split at hwr
                  · rw [← Option.some.inj hwr]
                  · exact absurd hwr (by simp)
                split
                · rw [hs2]
                  exact hs1
                · rename_i s3 hwr3
                  have hs3 : s3.fat = s2.fat := by
                    rw [write_cluster] at hwr3
                    split at hwr3
                    · rw [← Option.some.inj hwr3]
                    · exact absurd hwr3 (by simp)
                  show sysOk s3.fat
                  rw [hs3, hs2]
                  exact hs1

/-- `fs_create` likewise. -/
theorem fs_create_sys (s : FS) (p : List Nat) (h : sysOk s.fat) :
    sysOk (fs_create s p).2.fat := by
  rw [fs_create]
  split
  · exact h
  · rename_i k hk
    dsimp only
    generalize (if k = 0 then [47] else List.take k (List.take 511 p)) = pp
    generalize List.drop (k + 1) (List.take 511 p) = nm
    split
    · exact h
    · split
      · exact h
      · split
        · exact h
        · exact h
        · split
          · exact h
          · rename_i hnc
            have h10 : 10 ≤ find_free_cluster s.fat := by
              rcases find_free_cluster_spec s.fat with hz | hz
              · exact absurd hz hnc
              · omega
            have hs1 : sysOk (Function.update s.fat
                (find_free_cluster s.fat) FAT_ENTRY_EOF) :=
              sysOk_update _ _ _ h h10
            split
            · exact hs1
            · rename_i s2 hwr
              have hs2 : s2.fat = Function.update s.fat
                  (find_free_cluster s.fat) FAT_ENTRY_EOF := by
                rw [write_cluster] at hwr
                split at hwr
                · rw [← Option.some.inj hwr]
                · exact absurd hwr (by simp)
              show sysOk s2.fat
              rw [hs2]
              exact hs1

/-- `fs_unlink` changes the FAT mirror only by freeing the unlinked entry's
chain. -/
theorem fs_unlink_sys (s : FS) (p : List Nat) (r : path_search_result_t)
    (hres : find_entry_by_path s p = some r)
    (hvis : ∀ c ∈ chainVisited s.fat r.entry_first_block, 10 ≤ c)
    (h : sysOk s.fat) : sysOk (fs_unlink s p).2.fat := by
  have hs1 : sysOk (free_cluster_chain s.fat r.entry_first_block) :=
    sysOk_free_chain s.fat r.entry_first_block h hvis
  simp only [fs_unlink, hres]
  split
  · exact h
  · split
    · split
      · exact h
      · exact h
      · split
        · exact hs1
        · split
          · exact hs1
          · rename_i s2 hwr
            have hs2 : s2.fat = free_cluster_chain s.fat r.entry_first_block := by
              rw [write_cluster] at hwr
              split at hwr
              · rw [← Option.some.inj hwr]
              · exact absurd hwr (by simp)
            show sysOk s2.fat
            rw [hs2]
            exact hs1
    · split
      · exact hs1
      · split
        · exact hs1
        · rename_i s2 hwr
          have hs2 : s2.fat = free_cluster_chain s.fat r.entry_first_block := by
            rw [write_cluster] at hwr
            split at hwr
            · rw [← Option.some.inj hwr]
            · exact absurd hwr (by simp)
          show sysOk s2.fat
          rw [hs2]
          exact hs1

/-- `fs_write` preserves the system region: the freed chain and the freshly
allocated chain live in the data area, and on a well-formed file the
empty-content branch finds a free cluster (the just-freed chain). -/
theorem fs_write_sys (s : FS) (p content : List Nat)
    (r : path_search_result_t)
    (hres : find_entry_by_path s p = some r)
    (hvis : ∀ c ∈ chainVisited s.fat r.entry_first_block, 10 ≤ c ∧ c < 4096)
    (hne : chainVisited s.fat r.entry_first_block ≠ [])
    (h : sysOk s.fat) : sysOk (fs_write s p content).2.fat := by
  have hs1 : sysOk (free_cluster_chain s.fat r.entry_first_block) :=
    sysOk_free_chain s.fat r.entry_first_block h (fun c hc => (hvis c hc).1)
  simp only [fs_write, hres]
  split
  · exact h
  · by_cases hcl : 0 < content.length
    · rw [if_pos hcl]
      rcases hloop : writeAllocLoop
          { s with fat := free_cluster_chain s.fat r.entry_first_block }
          (chunks1024 content) 0 0 with ⟨res, s2⟩
      cases res with
      | error e =>
        have hpost := (writeAllocLoop_top_err (chunks1024 content)
          { s with fat := free_cluster_chain s.fat r.entry_first_block }
          e s2 hloop).2.1
        have hs2 : sysOk s2.fat := by
          obtain ⟨h0, h18, h9⟩ := hs1
          refine ⟨?_, ?_, ?_⟩
          · rw [(hpost 0 (by
              show free_cluster_chain s.fat r.entry_first_block 0 ≠ 0
              rw [h0]
              simp [FAT_ENTRY_BOOT])).1]
            exact h0
          · intro i h1 h8
            rw [(hpost i (by
              show free_cluster_chain s.fat r.entry_first_block i ≠ 0
              rw [h18 i h1 h8]
              simp [FAT_ENTRY_RESERVED])).1]
            exact h18 i h1 h8
          · rw [(hpost 9 (by
              show free_cluster_chain s.fat r.entry_first_block 9 ≠ 0
              rw [h9]
              simp [FAT_ENTRY_EOF])).1]
            exact h9
        exact hs2
      | ok fc =>
        obtain ⟨cs, hlen, hhead, hnd, hfresh, hch, hlastE, hfatfr, hdiskfr,
          hidx⟩ := writeAllocLoop_top_ok (chunks1024 content)
          { s with fat := free_cluster_chain s.fat r.entry_first_block }
          fc s2 (by
            intro hnil
            rw [chunks1024_cons content (by
              intro hc0
              rw [hc0] at hcl
              simp at hcl)] at hnil
            simp at hnil) hloop
        have hs2 : sysOk s2.fat := by
          obtain ⟨h0, h18, h9⟩ := hs1
          have hlow : ∀ c : Nat, c ≤ 9 → s2.fat c =
              free_cluster_chain s.fat r.entry_first_block c := by
            intro c hc
            have hnot : c ∉ cs := by
              intro hmem
              have := (hfresh c hmem).1
              omega
            exact hfatfr c hnot
          refine ⟨?_, ?_, ?_⟩
          · rw [hlow 0 (by omega)]
            exact h0
          · intro i h1 h8
            rw [hlow i (by omega)]
            exact h18 i h1 h8
          · rw [hlow 9 (by omega)]
            exact h9
        dsimp only
        split
        · exact hs2
        · split
          · exact hs2
          · rename_i s3 hwr
            have hs3 : s3.fat = s2.fat := by
              rw [write_cluster] at hwr
              split at hwr
              · rw [← Option.some.inj hwr]
              · exact absurd hwr (by simp)
            show sysOk s3.fat
            rw [hs3]
            exact hs2
    · rw [if_neg hcl]
      have hfc : find_free_cluster
          (free_cluster_chain s.fat r.entry_first_block) ≠ 0 := by
        cases hcv : chainVisited s.fat r.entry_first_block with
        | nil => exact absurd hcv hne
        | cons c0 t =>
          have hc0mem : c0 ∈ chainVisited s.fat r.entry_first_block := by
            rw [hcv]
            exact List.mem_cons_self _ _
          have hc0z : free_cluster_chain s.fat r.entry_first_block c0 = 0 :=
            (free_cluster_chain_eq s.fat r.entry_first_block c0).1 hc0mem
          have := hvis c0 hc0mem
          exact find_free_cluster_of_free _ c0 this.1 this.2 hc0z
      have hfc10 : 10 ≤ find_free_cluster
          (free_cluster_chain s.fat r.entry_first_block) := by
        rcases find_free_cluster_spec
          (free_cluster_chain s.fat r.entry_first_block) with hz | hz
        · exact absurd hz hfc
        · omega
      have hsE : sysOk (Function.update
          (free_cluster_chain s.fat r.entry_first_block)
          (find_free_cluster (free_cluster_chain s.fat r.entry_first_block))
          FAT_ENTRY_EOF) := sysOk_update _ _ _ hs1 hfc10
      dsimp only
      split
      · exact hsE
      · split
        · exact hsE
        · rename_i s3 hwr
          have hs3 : s3.fat = Function.update
              (free_cluster_chain s.fat r.entry_first_block)
              (find_free_cluster
                (free_cluster_chain s.fat r.entry_first_block))
              FAT_ENTRY_EOF := by
            rw [write_cluster] at hwr
            split at hwr
            · rw [← Option.some.inj hwr]
            · exact absurd hwr (by simp)
          show sysOk s3.fat
          rw [hs3]
          exact hsE

/-- Each iteration of the append loop updates the FAT only at the running
cluster (≥ 10 throughout) and at a freshly allocated cluster (≥ 10). -/
theorem appendLoopAux_sys : ∀ (fuel : Nat) (s : FS) (cur : Nat)
    (buffer : List Nat) (offset : Nat) (rem : List Nat),
    sysOk s.fat → 10 ≤ cur →
    sysOk ((appendLoopAux fuel s cur buffer offset rem).2).fat := by
  intro fuel
  induction fuel with
  | zero =>
    intro s cur buffer offset rem hs hcur
    exact hs
  | succ f ih =>
    intro s cur buffer offset rem hs hcur
    simp only [appendLoopAux]
    split
    · exact hs
    · split
      · exact hs
      · rename_i s1 hwr
        have hs1 : s1.fat = s.fat := by
          rw [write_cluster] at hwr
          split at hwr
          · rw [← Option.some.inj hwr]
          · exact absurd hwr (by simp)
        have hsys1 : sysOk s1.fat := by
          rw [hs1]
          exact hs
        split
        · exact hsys1
        · split
          · exact hsys1
          · rename_i hnc
            have h10 : 10 ≤ find_free_cluster s1.fat := by
              rcases find_free_cluster_spec s1.fat with hz | hz
              · exact absurd hz hnc
              · omega
            exact ih _ _ _ _ _
              (sysOk_update _ _ _ (sysOk_update _ _ _ hsys1 hcur) h10) h10

/-- `fs_append` preserves the system region, provided the cluster the tail
walk lands on (the walked tail for a file of positive size, the entry's
first block otherwise) lies in the data area. -/
theorem fs_append_sys (s : FS) (p content : List Nat)
    (r : path_search_result_t)
    (hres : find_entry_by_path s p = some r)
    (hcur : 10 ≤ (if 0 < r.entry_size then
      walkTailAux 65536 s.fat r.entry_first_block else r.entry_first_block))
    (h : sysOk s.fat) : sysOk (fs_append s p content).2.fat := by
  simp only [fs_append, hres]
  split
  · exact h
  · split
    · exact h
    · generalize hcur0 : (if 0 < r.entry_size then
        walkTailAux 65536 s.fat r.entry_first_block
        else r.entry_first_block) = cur0
      rw [hcur0] at hcur
      by_cases hcond : r.entry_size % CLUSTER_SIZE = 0 ∧ 0 < r.entry_size
      · rw [if_pos hcond]
        by_cases hnc : find_free_cluster s.fat = 0
        · rw [if_pos hnc]
          exact h
        · rw [if_neg hnc]
          rw [hcond.1]
          have h10 : 10 ≤ find_free_cluster s.fat := by
            rcases find_free_cluster_spec s.fat with hz | hz
            · exact absurd hz hnc
            · omega
          generalize hfatX : Function.update
            (Function.update s.fat cur0 (find_free_cluster s.fat))
            (find_free_cluster s.fat) FAT_ENTRY_EOF = fatX
          have hsysX : sysOk fatX := by
            rw [← hfatX]
            exact sysOk_update _ _ _ (sysOk_update _ _ _ h hcur) h10
          dsimp only
          rcases happ : appendLoop { s with fat := fatX }
              (find_free_cluster s.fat) (List.replicate 1024 0) 0 content
            with ⟨ares, s2⟩
          have happ2 : appendLoopAux (content.length + 1)
              { s with fat := fatX } (find_free_cluster s.fat)
              (List.replicate 1024 0) 0 content = (ares, s2) := happ
          have hsys2 : sysOk s2.fat := by
            have hgen := appendLoopAux_sys (content.length + 1)
              { s with fat := fatX } (find_free_cluster s.fat)
              (List.replicate 1024 0) 0 content hsysX h10
            rw [happ2] at hgen
            exact hgen
          cases ares with
          | error e => exact hsys2
          | ok u =>
            dsimp only
            split
            · exact hsys2
            · split
              · exact hsys2
              · rename_i s3 hwr
                have hs3 : s3.fat = s2.fat := by
                  rw [write_cluster] at hwr
                  split at hwr
                  · rw [← Option.some.inj hwr]
                  · exact absurd hwr (by simp)
                show sysOk s3.fat
                rw [hs3]
                exact hsys2
      · rw [if_neg hcond]
        cases hrd : read_cluster s cur0 with
        | none => exact h
        | some buf =>
          dsimp only
          rcases happ : appendLoop s cur0 buf
              (r.entry_size % CLUSTER_SIZE) content with ⟨ares, s2⟩
          have happ2 : appendLoopAux (content.length + 1) s cur0 buf
              (r.entry_size % CLUSTER_SIZE) content = (ares, s2) := happ
          have hsys2 : sysOk s2.fat := by
            have hgen := appendLoopAux_sys (content.length + 1) s cur0 buf
              (r.entry_size % CLUSTER_SIZE) content h hcur
            rw [happ2] at hgen
            exact hgen
          cases ares with
          | error e => exact hsys2
          | ok u =>
            dsimp only
            split
            · exact hsys2
            · split
              · exact hsys2
              · rename_i s3 hwr
                have hs3 : s3.fat = s2.fat := by
                  rw [write_cluster] at hwr
                  split at hwr
                  · rw [← Option.some.inj hwr]
                  · exact absurd hwr (by simp)
                show sysOk s3.fat
                rw [hs3]
                exact hsys2

/-! ### Append-law helpers -/

theorem chunks_getD : ∀ (i : Nat) (X : List Nat),
    (chunks1024 X).getD i [] = (X.drop (1024 * i)).take 1024 := by
  intro i
  induction i with
  | zero =>
    intro X
    by_cases hX : X = []
    · subst hX
      rfl
    · rw [chunks1024_cons X hX]
      simp
  | succ j ih =>
    intro X
    by_cases hX : X = []
    · subst hX
      simp [chunks1024_nil]
    · rw [chunks1024_cons X hX]
      rw [show ((X.take 1024 :: chunks1024 (X.drop 1024)).getD (j + 1) []) =
        (chunks1024 (X.drop 1024)).getD j [] from rfl]
      rw [ih (X.drop 1024), List.drop_drop]
      congr 2
      omega

theorem chunks_length_aux : ∀ (n : Nat) (X : List Nat), X.length ≤ n →
    (chunks1024 X).length = (X.length + 1023) / 1024 := by
  intro n
  induction n with
  | zero =>
    intro X hX
    have : X = [] := List.eq_nil_of_length_eq_zero (by omega)
    subst this
    rfl
  | succ m ih =>
    intro X hX
    by_cases hXe : X = []
    · subst hXe
      rfl
    · have hpos : 0 < X.length := List.length_pos.mpr hXe
      rw [chunks1024_cons X hXe]
      rw [List.length_cons]
      rw [ih (X.drop 1024) (by rw [List.length_drop]; omega)]
      rw [List.length_drop]
      omega

theorem chunks_length (X : List Nat) :
    (chunks1024 X).length = (X.length + 1023) / 1024 :=
  chunks_length_aux X.length X (le_refl _)

/-- Links along a list only read the table at non-final members, so any
table agreeing there yields the same chain. -/
theorem chain_congr_dropLast (f g : Nat → Nat) : ∀ (l : List Nat),
    (∀ a ∈ l.dropLast, g a = f a) →
    List.Chain' (fun a b => f a = b) l →
    List.Chain' (fun a b => g a = b) l := by
  intro l
  induction l with
  | nil =>
    intro _ _
    exact List.chain'_nil
  | cons x xs ih =>
    intro hag hch
    cases xs with
    | nil => exact List.chain'_singleton _
    | cons y ys =>
      rw [List.dropLast_cons_of_ne_nil (by simp)] at hag
      rw [List.chain'_cons] at hch ⊢
      refine ⟨?_, ih (fun a ha => hag a (List.mem_cons_of_mem _ ha)) hch.2⟩
      rw [hag x (List.mem_cons_self _ _)]
      exact hch.1

theorem getLastD_default_irrel (l : List Nat) (hne : l ≠ []) (d d' : Nat) :
    l.getLastD d = l.getLastD d' := by
  rw [List.getLastD_eq_getLast?, List.getLastD_eq_getLast?,
    List.getLast?_eq_getLast l hne]
  rfl

theorem getLastD_append_ne_nil (l1 l2 : List Nat) (hne : l2 ≠ []) (d : Nat) :
    (l1 ++ l2).getLastD d = l2.getLastD d := by
  rw [List.getLastD_eq_getLast?, List.getLastD_eq_getLast?,
    List.getLast?_append_of_ne_nil l1 hne]

theorem getD_append_left (l1 l2 : List Nat) (i : Nat) (h : i < l1.length) :
    (l1 ++ l2).getD i 0 = l1.getD i 0 := by
  rw [List.getD_eq_getElem _ 0 (by rw [List.length_append]; omega),
    List.getD_eq_getElem _ 0 h]
  exact List.getElem_append_left h

theorem getD_append_right_len (l1 l2 : List Nat) (j : Nat) :
    (l1 ++ l2).getD (l1.length + j) 0 = l2.getD j 0 := by
  by_cases hj : j < l2.length
  · rw [List.getD_eq_getElem _ 0 (by rw [List.length_append]; omega),
      List.getD_eq_getElem _ 0 hj]
    rw [List.getElem_append_right (by omega)]
    congr 1
    omega
  · rw [List.getD_eq_default _ 0 (by rw [List.length_append]; omega),
      List.getD_eq_default _ 0 (by omega)]

theorem slice_append_left (C B : List Nat) (i : Nat)
    (h : 1024 * (i + 1) ≤ C.length) :
    ((C ++ B).drop (1024 * i)).take 1024 = (C.drop (1024 * i)).take 1024 := by
  rw [List.drop_append_eq_append_drop]
  rw [show 1024 * i - C.length = 0 from by omega, List.drop_zero]
  rw [List.take_append_eq_append_take]
  rw [show 1024 - (C.drop (1024 * i)).length = 0 from by
    rw [List.length_drop]; omega]
  simp

theorem slice_append_right (C B : List Nat) (n : Nat) (h : C.length ≤ n) :
    ((C ++ B).drop n).take 1024 = (B.drop (n - C.length)).take 1024 := by
  rw [List.drop_append_eq_append_drop]
  rw [List.drop_eq_nil_of_le h, List.nil_append]

/-- The boundary-cluster write of the append loop: splicing the head of `B`
at offset `off` into a cluster holding `u` (the stored tail of the old
content) followed by zero padding yields `u ++ B.take btc` zero-padded. -/
theorem splice_boundary (u B : List Nat) (off btc : Nat)
    (hu : u.length = off) (hoff : off ≤ 1024)
    (hbtc : btc = min B.length (1024 - off)) :
    splice (u ++ List.replicate (1024 - off) 0) off (B.take btc) =
      (u ++ B.take btc) ++
        List.replicate (1024 - (u ++ B.take btc).length) 0 := by
  have hlt : (B.take btc).length = btc := by
    rw [List.length_take]
    omega
  rw [splice, hlt]
  rw [List.take_append_eq_append_take]
  rw [show off - u.length = 0 from by omega, List.take_zero,
    List.append_nil, List.take_of_length_le (by omega)]
  rw [List.drop_append_eq_append_drop]
  rw [List.drop_eq_nil_of_le (by omega), List.nil_append]
  rw [List.drop_replicate]
  congr 1
  congr 1
  rw [List.length_append, hu, hlt]
  omega

/-- Postcondition of the append loop on success: starting from end-of-chain
cluster `cur`, it splices the head of `rem` into `cur`'s buffer at `offset`,
extends the chain with fresh data clusters holding the remaining 1024-byte
slices of `rem` (zero padded), and touches nothing else. -/
theorem appendLoopAux_spec : ∀ (fuel : Nat) (rem : List Nat) (s : FS)
    (cur : Nat) (buffer : List Nat) (offset : Nat),
    rem ≠ [] →
    rem.length < fuel →
    offset < 1024 →
    10 ≤ cur → cur < 4096 →
    s.fat cur = FAT_ENTRY_EOF →
    ∀ u s', appendLoopAux fuel s cur buffer offset rem = (Except.ok u, s') →
    ∃ ext : List Nat,
      (cur :: ext).Nodup ∧
      (∀ c ∈ ext, 10 ≤ c ∧ c < 4096 ∧ s.fat c = 0) ∧
      List.Chain' (fun a b => s'.fat a = b) (cur :: ext) ∧
      s'.fat ((cur :: ext).getLastD 0) = FAT_ENTRY_EOF ∧
      (∀ c, c ∉ cur :: ext → s'.fat c = s.fat c) ∧
      (∀ c, c ∉ cur :: ext → s'.disk c = s.disk c) ∧
      s'.disk cur = splice buffer offset
        (rem.take (min rem.length (1024 - offset))) ∧
      (∀ i, i < ext.length → s'.disk (ext.getD i 0) =
        (rem.drop (min rem.length (1024 - offset) + 1024 * i)).take 1024 ++
          List.replicate (1024 -
            ((rem.drop (min rem.length (1024 - offset) + 1024 * i)).take
              1024).length) 0) ∧
      ext.length = (rem.length - min rem.length (1024 - offset) + 1023) /
        1024 := by
  intro fuel
  induction fuel with
  | zero =>
    intro rem s cur buffer offset _ hfuel
    omega
  | succ f ih =>
    intro rem s cur buffer offset hrem hfuel hoff h10 h4096 hEOF u s' heq
    simp only [appendLoopAux, if_neg hrem] at heq
    have hwc : write_cluster s cur (splice buffer offset
        (rem.take (min rem.length (1024 - offset)))) =
        some { s with disk := Function.update s.disk cur (splice buffer
          offset (rem.take (min rem.length (1024 - offset)))) } := by
      rw [write_cluster, if_pos (by simp only [CLUSTER_COUNT]; omega)]
    rw [hwc] at heq
    simp only [] at heq
    by_cases hrem2 : rem.drop (min rem.length (1024 - offset)) = []
    · rw [if_pos hrem2] at heq
      simp only [Prod.mk.injEq] at heq
      obtain ⟨-, hs'⟩ := heq
      have hle : rem.length ≤ min rem.length (1024 - offset) := by
        have hlen := congrArg List.length hrem2
        rw [List.length_drop] at hlen
        simp only [List.length_nil] at hlen
        omega
      refine ⟨[], by simp, by simp, List.chain'_singleton _, ?_, ?_, ?_, ?_,
        by simp, by simp only [List.length_nil]; omega⟩
      · show s'.fat cur = FAT_ENTRY_EOF
        rw [← hs']
        exact hEOF
      · intro c _
        rw [← hs']
      · intro c hc
        have hcne : c ≠ cur := by
          intro hh
          exact hc (by rw [hh]; exact List.mem_singleton_self _)
        rw [← hs']
        exact Function.update_noteq hcne _ _
      · rw [← hs']
        exact Function.update_same _ _ _
    · rw [if_neg hrem2] at heq
      by_cases hnc : find_free_cluster s.fat = 0
      · rw [if_pos hnc] at heq
        simp at heq
      · rw [if_neg hnc] at heq
        rcases find_free_cluster_spec s.fat with hz | hncspec
        · exact absurd hz hnc
        obtain ⟨hnc10, hnc4096, hncfree⟩ := hncspec
        have hcurne : cur ≠ find_free_cluster s.fat := by
          intro hh
          rw [← hh] at hncfree
          rw [hEOF] at hncfree
          simp [FAT_ENTRY_EOF, FAT_ENTRY_FREE] at hncfree
        have hbtcpos : 1 ≤ min rem.length (1024 - offset) := by
          have : 0 < rem.length := List.length_pos.mpr hrem
          omega
        have hrem2len : 0 < (rem.drop (min rem.length (1024 - offset))).length :=
          List.length_pos.mpr hrem2
        rw [List.length_drop] at hrem2len
        obtain ⟨ext', hnd', hfresh', hch', hlast', hfatfr', hdiskfr', hdcur',
          hidx', hlen'⟩ := ih (rem.drop (min rem.length (1024 - offset)))
          { s with
            disk := Function.update s.disk cur (splice buffer offset
              (rem.take (min rem.length (1024 - offset)))),
            fat := Function.update
              (Function.update s.fat cur (find_free_cluster s.fat))
              (find_free_cluster s.fat) FAT_ENTRY_EOF }
          (find_free_cluster s.fat) (List.replicate 1024 0) 0
          hrem2 (by rw [List.length_drop]; omega) (by omega) hnc10 hnc4096
          (Function.update_same _ _ _) u s' heq
        have hs2cur : Function.update
            (Function.update s.fat cur (find_free_cluster s.fat))
            (find_free_cluster s.fat) FAT_ENTRY_EOF cur =
            find_free_cluster s.fat := by
          rw [Function.update_noteq hcurne, Function.update_same]
        have hs2nc : Function.update
            (Function.update s.fat cur (find_free_cluster s.fat))
            (find_free_cluster s.fat) FAT_ENTRY_EOF
            (find_free_cluster s.fat) = FAT_ENTRY_EOF :=
          Function.update_same _ _ _
        have hs2other : ∀ c, c ≠ cur → c ≠ find_free_cluster s.fat →
            Function.update
              (Function.update s.fat cur (find_free_cluster s.fat))
              (find_free_cluster s.fat) FAT_ENTRY_EOF c = s.fat c := by
          intro c hc1 hc2
          rw [Function.update_noteq hc2, Function.update_noteq hc1]
        have hcur_notin : cur ∉ find_free_cluster s.fat :: ext' := by
          intro hmem
          rcases List.mem_cons.mp hmem with hh | hh
          · exact hcurne hh
          · have h0 : Function.update
                (Function.update s.fat cur (find_free_cluster s.fat))
                (find_free_cluster s.fat) FAT_ENTRY_EOF cur = 0 :=
              (hfresh' cur hh).2.2
            rw [hs2cur] at h0
            omega
        refine ⟨find_free_cluster s.fat :: ext', ?_, ?_, ?_, ?_, ?_, ?_,
          ?_, ?_, ?_⟩
        · exact List.nodup_cons.mpr ⟨hcur_notin, hnd'⟩
        · intro c hc
          rcases List.mem_cons.mp hc with hh | hh
          · rw [hh]
            exact ⟨hnc10, hnc4096, hncfree⟩
          · obtain ⟨hc10, hc4096, hcz⟩ := hfresh' c hh
            have hcz' : Function.update
                (Function.update s.fat cur (find_free_cluster s.fat))
                (find_free_cluster s.fat) FAT_ENTRY_EOF c = 0 := hcz
            have hcnc : c ≠ find_free_cluster s.fat := by
              intro hh2
              rw [hh2, hs2nc] at hcz'
              simp [FAT_ENTRY_EOF] at hcz'
            have hccur : c ≠ cur := by
              intro hh2
              rw [hh2, hs2cur] at hcz'
              omega
            rw [hs2other c hccur hcnc] at hcz'
            exact ⟨hc10, hc4096, hcz'⟩
        · refine List.chain'_cons.mpr ⟨?_, hch'⟩
          have hfr : s'.fat cur = Function.update
              (Function.update s.fat cur (find_free_cluster s.fat))
              (find_free_cluster s.fat) FAT_ENTRY_EOF cur :=
            hfatfr' cur hcur_notin
          rw [hfr, hs2cur]
        · rw [getLastD_cons_cons]
          exact hlast'
        · intro c hc
          have hc1 : c ∉ find_free_cluster s.fat :: ext' := by
            intro hh
            exact hc (List.mem_cons_of_mem _ hh)
          have hccur : c ≠ cur := by
            intro hh
            exact hc (by rw [hh]; exact List.mem_cons_self _ _)
          have hcnc : c ≠ find_free_cluster s.fat := by
            intro hh
            apply hc
            rw [hh]
            exact List.mem_cons_of_mem _ (List.mem_cons_self _ _)
          have hfr : s'.fat c = Function.update
              (Function.update s.fat cur (find_free_cluster s.fat))
              (find_free_cluster s.fat) FAT_ENTRY_EOF c := hfatfr' c hc1
          rw [hfr, hs2other c hccur hcnc]
        · intro c hc
          have hc1 : c ∉ find_free_cluster s.fat :: ext' := by
            intro hh
            exact hc (List.mem_cons_of_mem _ hh)
          have hccur : c ≠ cur := by
            intro hh
            exact hc (by rw [hh]; exact List.mem_cons_self _ _)
          have hfr : s'.disk c = Function.update s.disk cur (splice buffer
              offset (rem.take (min rem.length (1024 - offset)))) c :=
            hdiskfr' c hc1
          rw [hfr, Function.update_noteq hccur]
        · have hfr : s'.disk cur = Function.update s.disk cur (splice buffer
              offset (rem.take (min rem.length (1024 - offset)))) cur :=
            hdiskfr' cur hcur_notin
          rw [hfr, Function.update_same]
        · intro i hi
          cases i with
          | zero =>
            have hd0 : s'.disk (find_free_cluster s.fat) =
                splice (List.replicate 1024 0) 0
                  ((rem.drop (min rem.length (1024 - offset))).take
                    (min (rem.drop (min rem.length (1024 - offset))).length
                      (1024 - 0))) := hdcur'
            simp only [Nat.sub_zero] at hd0
            rw [show ((rem.drop (min rem.length (1024 - offset))).take
                (min (rem.drop (min rem.length (1024 - offset))).length
                  1024)) =
                ((rem.drop (min rem.length (1024 - offset))).take 1024)
              from by rw [List.take_eq_take]; omega] at hd0
            rw [splice, List.take_zero, List.nil_append,
              List.drop_replicate] at hd0
            rw [show ((find_free_cluster s.fat :: ext').getD 0 0) =
              find_free_cluster s.fat from rfl]
            rw [hd0]
            rw [show min rem.length (1024 - offset) + 1024 * 0 =
              min rem.length (1024 - offset) from by omega]
            congr 1
            congr 1
            omega
          | succ j =>
            have hjlt : j < ext'.length := by
              simp only [List.length_cons] at hi
              omega
            have hj' := hidx' j hjlt
            simp only [Nat.sub_zero] at hj'
            have hbtc2 : min
                (rem.drop (min rem.length (1024 - offset))).length 1024 =
                1024 := by
              have hl := hlen'
              rw [List.length_drop] at hl
              simp only [Nat.sub_zero] at hl
              rw [List.length_drop]
              omega
            rw [hbtc2, List.drop_drop] at hj'
            rw [show ((find_free_cluster s.fat :: ext').getD (j + 1) 0) =
              ext'.getD j 0 from rfl]
            rw [show min rem.length (1024 - offset) + 1024 * (j + 1) =
              min rem.length (1024 - offset) + (1024 + 1024 * j)
              from by ring]
            exact hj'
        · have hl := hlen'
          rw [List.length_drop] at hl
          simp only [Nat.sub_zero] at hl
          simp only [List.length_cons, hl]
          omega
/-! ### Long-name truncation helpers -/

theorem lastIndexOfSlash_no_slash : ∀ (l : List Nat),
    (∀ b ∈ l, b ≠ 47) → lastIndexOfSlash l = none := by
  intro l
  induction l with
  | nil =>
    intro _
    rfl
  | cons b rest ih =>
    intro h
    simp only [lastIndexOfSlash,
      ih (fun x hx => h x (List.mem_cons_of_mem _ hx))]
    rw [if_neg (h b (List.mem_cons_self _ _))]

theorem lastIndexOfSlash_cons_slash (name : List Nat)
    (h : ∀ b ∈ name, b ≠ 47) : lastIndexOfSlash (47 :: name) = some 0 := by
  simp only [lastIndexOfSlash, lastIndexOfSlash_no_slash name h]
  simp only [if_true]

theorem splitPathAux_no_slash : ∀ (l acc : List Nat), (∀ b ∈ l, b ≠ 47) →
    splitPathAux l acc =
      if acc.reverse ++ l = [] then [] else [acc.reverse ++ l] := by
  intro l
  induction l with
  | nil =>
    intro acc _
    simp only [splitPathAux, List.append_nil]
    by_cases ha : acc = []
    · rw [if_pos ha, if_pos (by rw [ha]; rfl)]
    · rw [if_neg ha, if_neg (by simpa using ha)]
  | cons b rest ih =>
    intro acc h
    simp only [splitPathAux, if_neg (h b (List.mem_cons_self _ _))]
    rw [ih (b :: acc) (fun x hx => h x (List.mem_cons_of_mem _ hx))]
    have he : (b :: acc).reverse ++ rest = acc.reverse ++ (b :: rest) := by
      simp
    rw [he]

theorem splitPath_single (name : List Nat) (hne : name ≠ [])
    (h : ∀ b ∈ name, b ≠ 47) : splitPath (47 :: name) = [name] := by
  rw [splitPath]
  simp only [splitPathAux]
  simp only [if_true]
  rw [splitPathAux_no_slash name [] h]
  simp [hne]

theorem takeWhile_ne_zero_append (l m : List Nat) (h : ∀ b ∈ l, b ≠ 0) :
    (l ++ 0 :: m).takeWhile (fun b => b ≠ 0) = l := by
  induction l with
  | nil => simp [List.takeWhile_cons]
  | cons a t ih =>
    rw [List.cons_append,
      List.takeWhile_cons_of_pos (by simp [h a (List.mem_cons_self _ _)])]
    rw [ih (fun x hx => h x (List.mem_cons_of_mem _ hx))]

theorem nameField_long (name : List Nat) (h : 17 ≤ name.length) :
    nameField name = name.take 17 ++ [0] := by
  rw [nameField, Nat.sub_eq_zero_of_le h]
  simp

/-- The slot a create/mkdir with an over-long final component stores into a
previously empty directory cluster: the C-string view of the stored name is
the 17-byte truncation, byte 17 is the forced NUL, and a scan of the cluster
for the untruncated name finds nothing. -/
theorem truncated_slot (name : List Nat) (attr fb sz : Nat)
    (hlong : 17 < name.length) (hb0 : ∀ b ∈ name, b ≠ 0) :
    entryFilenameC (writeDirEntry (List.replicate 1024 0) 0
      (nameField name) attr fb sz) 0 = name.take 17 ∧
    byteAt (writeDirEntry (List.replicate 1024 0) 0
      (nameField name) attr fb sz) 17 = 0 ∧
    findInCluster (writeDirEntry (List.replicate 1024 0) 0
      (nameField name) attr fb sz) name = none := by
  have hc : (List.replicate 1024 (0 : Nat)).length = 1024 :=
    List.length_replicate 1024 0
  have hnf : (nameField name).length = 18 := length_nameField name
  have hnb : nameBytes (writeDirEntry (List.replicate 1024 0) 0
      (nameField name) attr fb sz) 0 = nameField name :=
    nameBytes_writeDirEntry_self _ _ _ _ _ _ hc (by omega) hnf
  have htk : ∀ b ∈ name.take 17, b ≠ 0 :=
    fun b hb => hb0 b (List.take_subset 17 name hb)
  have hlt : (name.take 17).length = 17 := by
    rw [List.length_take]
    omega
  have hfc : entryFilenameC (writeDirEntry (List.replicate 1024 0) 0
      (nameField name) attr fb sz) 0 = name.take 17 := by
    rw [entryFilenameC, hnb, nameField_long name (le_of_lt hlong)]
    exact takeWhile_ne_zero_append _ [] htk
  refine ⟨hfc, ?_, ?_⟩
  · rw [show (17 : Nat) = 32 * 0 + 17 by omega,
      byteAt_writeDirEntry _ _ _ _ _ _ _ hc (by omega) hnf]
    rw [if_pos (by omega)]
    rw [nameField_long name (le_of_lt hlong)]
    rw [byteAt, List.getElem?_append_right (by omega)]
    rw [hlt]
    rfl
  · rw [findInCluster]
    rw [List.find?_eq_none]
    intro j hj
    by_cases hj0 : j = 0
    · subst hj0
      simp only [Bool.and_eq_true, decide_eq_true_eq, not_and]
      intro _
      rw [hfc]
      intro heq
      have hlen := congrArg List.length heq
      rw [hlt] at hlen
      omega
    · have hjlt : j < 32 := List.mem_range.mp hj
      have hocc : byteAt (writeDirEntry (List.replicate 1024 0) 0
          (nameField name) attr fb sz) (32 * j) = 0 := by
        have hother := byteAt_writeDirEntry_other (List.replicate 1024 0)
          (nameField name) 0 attr fb sz j 0 hc (by omega) hnf hjlt hj0
          (by omega)
        rw [show 32 * j + 0 = 32 * j by omega] at hother
        rw [hother, byteAt_replicate]
        split
        · rfl
        · rfl
      simp only [Bool.and_eq_true, decide_eq_true_eq, not_and]
      intro hcon
      exact absurd hocc hcon

set_option maxRecDepth 1000000 in
/-- Step equation: creating an over-long name under "/" on the formatted
state succeeds and stores the truncated-name slot in the root cluster. -/
theorem fs_create_format_long (name : List Nat) (hlong : 17 < name.length)
    (hshort : name.length ≤ 500) (hb47 : ∀ b ∈ name, b ≠ 47) :
    fs_create fs_format (47 :: name) = (Except.ok (), persistFat
      (FS.mk (Function.update fs_format.fat 10 FAT_ENTRY_EOF)
        (Function.update fs_format.disk 9
          (writeDirEntry (fs_format.disk 9) 0 (nameField name)
            ATTR_ARCHIVE 10 0)))) := by
  have htake : (47 :: name).take 511 = 47 :: name :=
    List.take_of_length_le (by simp; omega)
  have hlis : lastIndexOfSlash (47 :: name) = some 0 :=
    lastIndexOfSlash_cons_slash name hb47
  have hroot : find_entry_by_path fs_format [47] = some rRootRes := by decide
  have hfde : find_free_dir_entry fs_format 9 = some (some 0) := by decide
  have hffc : find_free_cluster fs_format.fat = 10 := by decide
  simp only [fs_create, htake, hlis, List.drop_succ_cons, List.drop_zero,
    reduceIte, rRootRes, emptyResult, hroot, hfde, hffc, write_cluster]
  simp [ROOT_DIR_CLUSTER, CLUSTER_COUNT, ATTR_DIRECTORY, ATTR_ARCHIVE, hfde]

set_option maxRecDepth 1000000 in
/-- Step equation: the mkdir analogue (directory attribute, plus the zeroed
data cluster written for the new directory). -/
theorem fs_mkdir_format_long (name : List Nat) (hlong : 17 < name.length)
    (hshort : name.length ≤ 500) (hb47 : ∀ b ∈ name, b ≠ 47) :
    fs_mkdir fs_format (47 :: name) = (Except.ok (), persistFat
      (FS.mk (Function.update fs_format.fat 10 FAT_ENTRY_EOF)
        (Function.update
          (Function.update fs_format.disk 9
            (writeDirEntry (fs_format.disk 9) 0 (nameField name)
              ATTR_DIRECTORY 10 0))
          10 (List.replicate 1024 0)))) := by
  have htake : (47 :: name).take 511 = 47 :: name :=
    List.take_of_length_le (by simp; omega)
  have hlis : lastIndexOfSlash (47 :: name) = some 0 :=
    lastIndexOfSlash_cons_slash name hb47
  have hroot : find_entry_by_path fs_format [47] = some rRootRes := by decide
  have hfde : find_free_dir_entry fs_format 9 = some (some 0) := by decide
  have hffc : find_free_cluster fs_format.fat = 10 := by decide
  simp only [fs_mkdir, htake, hlis, List.drop_succ_cons, List.drop_zero,
    reduceIte, rRootRes, emptyResult, hroot, hfde, hffc, write_cluster]
  simp [ROOT_DIR_CLUSTER, CLUSTER_COUNT, ATTR_DIRECTORY, ATTR_ARCHIVE, hfde]

/-! ### Claim theorems -/

/-- C1.  For every path that resolves to a regular file and every byte
sequence `B` of length at most 4086×1024, a successful `write(p, B)`
followed immediately by `read(p)` emits exactly the bytes of `B` followed
only by the presentation trailing newline.  The well-formedness hypotheses
state that the resolved parent cluster and every intermediate directory
cluster of the walk lie outside the FAT region, are allocated in the FAT,
and are not part of the file's current cluster chain, and that the parent
cluster holds a full 1024-byte record. -/
theorem write_read_round_trip (s s' : FS) (p B : List Nat)
    (r : path_search_result_t)
    (hres : find_entry_by_path s p = some r)
    (hfound : r.found = true)
    (hattr : r.entry_attributes = ATTR_ARCHIVE)
    (hBlen : B.length ≤ 4086 * 1024)
    (hplen : (s.disk r.parent_cluster).length = 1024)
    (hp9 : 9 ≤ r.parent_cluster)
    (hpfat : s.fat r.parent_cluster ≠ 0)
    (hpchain : r.parent_cluster ∉ chainVisited s.fat r.entry_first_block)
    (hdirs : ∀ d ∈ (walkDirsRead s (splitPath (p.take 511))
        ROOT_DIR_CLUSTER).dropLast,
      9 ≤ d ∧ s.fat d ≠ 0 ∧ d ∉ chainVisited s.fat r.entry_first_block)
    (hponce : r.parent_cluster ∉ (walkDirsRead s (splitPath (p.take 511))
        ROOT_DIR_CLUSTER).dropLast)
    (hok : fs_write s p B = (Except.ok (), s')) :
    (fs_read s' p).1 = Except.ok (B ++ [10]) := by
  obtain ⟨htokne, hwalk, hp4096, hidx32, htrace, hocc, hfn, hat, hfb, hsz⟩ :=
    find_entry_success_spec s p r hres hfound hattr
  have hfat1p : free_cluster_chain s.fat r.entry_first_block r.parent_cluster =
      s.fat r.parent_cluster :=
    (free_cluster_chain_eq s.fat r.entry_first_block r.parent_cluster).2 hpchain
  simp only [fs_write, hres] at hok
  rw [if_neg (by simp [hfound, hattr])] at hok
  by_cases hBpos : 0 < B.length
  · rw [if_pos hBpos] at hok
    have hBne : B ≠ [] := by
      intro h
      rw [h] at hBpos
      simp at hBpos
    rcases hloop : writeAllocLoop
        { s with fat := free_cluster_chain s.fat r.entry_first_block }
        (chunks1024 B) 0 0 with ⟨res, s2⟩
    rw [hloop] at hok
    cases res with
    | error e => simp at hok
    | ok fc =>
      simp only [] at hok
      obtain ⟨cs, hlen, hhead, hnd, hfresh, hch, hlastE, hfatfr, hdiskfr, hidx⟩ :=
        writeAllocLoop_top_ok (chunks1024 B)
          { s with fat := free_cluster_chain s.fat r.entry_first_block }
          fc s2 (by rw [chunks1024_cons B hBne]; simp) hloop
      have hp_notin : r.parent_cluster ∉ cs := by
        intro hmem
        have hz : free_cluster_chain s.fat r.entry_first_block
            r.parent_cluster = 0 := (hfresh r.parent_cluster hmem).2.2
        rw [hfat1p] at hz
        exact hpfat hz
      have hs2p : s2.disk r.parent_cluster = s.disk r.parent_cluster :=
        hdiskfr r.parent_cluster hp_notin
      have hrdp : read_cluster s2 r.parent_cluster =
          some (s2.disk r.parent_cluster) := by
        rw [read_cluster, if_pos (by simp only [CLUSTER_COUNT]; omega)]
      rw [hrdp] at hok
      simp only [] at hok
      set pc2 := setEntryFirstSize (s2.disk r.parent_cluster) r.entry_index fc
        B.length with hpc2def
      set s3 : FS :=
        { s2 with disk := Function.update s2.disk r.parent_cluster pc2 }
        with hs3def
      have hwrp : write_cluster s2 r.parent_cluster pc2 = some s3 := by
        rw [write_cluster, if_pos (by simp only [CLUSTER_COUNT]; omega)]
      rw [hwrp] at hok
      simp only [Prod.mk.injEq] at hok
      have hs' : s' = persistFat s3 := hok.2.symm
      have hfat' : s'.fat = s2.fat := by
        rw [hs']
        rfl
      have hdisk'p : s'.disk r.parent_cluster =
          setEntryFirstSize (s.disk r.parent_cluster) r.entry_index fc
            B.length := by
        rw [hs', persistFat]
        simp only []
        rw [if_neg (by omega)]
        rw [Function.update_same, hpc2def, hs2p]
      have hdisk'other : ∀ d, 9 ≤ d → d ≠ r.parent_cluster →
          s'.disk d = s2.disk d := by
        intro d hd9 hdp
        rw [hs', persistFat]
        simp only []
        rw [if_neg (by omega)]
        rw [Function.update_noteq hdp]
      have hfc_mem : fc ∈ cs := by
        cases cs with
        | nil => simp at hhead
        | cons c0 t =>
          have : c0 = fc := by
            simpa using hhead
          rw [← this]
          exact List.mem_cons_self _ _
      have hfc4096 : fc < 4096 := (hfresh fc hfc_mem).2.1
      have hfb' : entryFirstBlock (s'.disk r.parent_cluster) r.entry_index
          = fc := by
        rw [hdisk'p, firstBlock_setEntryFirstSize_self _ _ _ _ hplen hidx32]
        exact Nat.mod_eq_of_lt (by omega)
      have hsz' : entrySize (s'.disk r.parent_cluster) r.entry_index
          = B.length := by
        rw [hdisk'p, size_setEntryFirstSize_self _ _ _ _ hplen hidx32]
        exact Nat.mod_eq_of_lt (by omega)
      have hcongr := find_entry_congr s s' p r hres hfound hattr
        (by
          intro d hd
          obtain ⟨hd9, hdfat, hdchain⟩ := hdirs d hd
          have hdp : d ≠ r.parent_cluster := by
            intro h
            rw [h] at hd
            exact hponce hd
          have hd_notin : d ∉ cs := by
            intro hmem
            have hz : free_cluster_chain s.fat r.entry_first_block d = 0 :=
              (hfresh d hmem).2.2
            rw [(free_cluster_chain_eq s.fat r.entry_first_block d).2
              hdchain] at hz
            exact hdfat hz
          rw [hdisk'other d hd9 hdp, hdiskfr d hd_notin])
        (by
          rw [hdisk'p]
          exact shapeEq_setEntryFirstSize _ _ _ _ hplen hidx32)
        hponce
      simp only [fs_read, hcongr]
      rw [if_neg (by simp [hfound])]
      rw [if_neg (by simp [hattr])]
      simp only [hfb', hsz']
      have hread : readLoop s' fc B.length = Except.ok B := by
        apply readLoop_chain cs B s' fc hlen
        · intro hne
          cases cs with
          | nil => exact absurd rfl hne
          | cons c0 t => simpa using hhead
        · intro c hc
          exact (hfresh c hc).2.1
        · rw [hfat']
          exact hch
        · intro i hi
          have hc_mem : cs.getD i 0 ∈ cs := getD_mem_of_lt cs i hi
          have hc10 : 10 ≤ cs.getD i 0 := (hfresh _ hc_mem).1
          have hcp : cs.getD i 0 ≠ r.parent_cluster := by
            intro h
            rw [h] at hc_mem
            exact hp_notin hc_mem
          rw [hdisk'other _ (by omega) hcp]
          exact hidx i hi
      rw [hread]
  · have hB : B = [] := by
      cases B with
      | nil => rfl
      | cons b t => simp at hBpos
    subst hB
    rw [if_neg hBpos] at hok
    simp only [List.length_nil] at hok
    set fat1 := free_cluster_chain s.fat r.entry_first_block with hfat1def
    set fc := find_free_cluster fat1 with hfcdef
    set s2 : FS := { s with fat := Function.update fat1 fc FAT_ENTRY_EOF }
      with hs2def
    have hrdp : read_cluster s2 r.parent_cluster =
        some (s.disk r.parent_cluster) := by
      rw [read_cluster, if_pos (by simp only [CLUSTER_COUNT]; omega)]
    rw [hrdp] at hok
    simp only [] at hok
    set pc2 := setEntryFirstSize (s.disk r.parent_cluster) r.entry_index fc 0
      with hpc2def
    set s3 : FS :=
      { s2 with disk := Function.update s2.disk r.parent_cluster pc2 }
      with hs3def
    have hwrp : write_cluster s2 r.parent_cluster pc2 = some s3 := by
      rw [write_cluster, if_pos (by simp only [CLUSTER_COUNT]; omega)]
    rw [hwrp] at hok
    simp only [Prod.mk.injEq] at hok
    have hs' : s' = persistFat s3 := hok.2.symm
    have hdisk'p : s'.disk r.parent_cluster =
        setEntryFirstSize (s.disk r.parent_cluster) r.entry_index fc 0 := by
      rw [hs', persistFat]
      simp only []
      rw [if_neg (by omega)]
      rw [Function.update_same, hpc2def]
    have hdisk'other : ∀ d, 9 ≤ d → d ≠ r.parent_cluster →
        s'.disk d = s.disk d := by
      intro d hd9 hdp
      rw [hs', persistFat]
      simp only []
      rw [if_neg (by omega)]
      rw [Function.update_noteq hdp]
    have hfc65536 : fc < 65536 := by
      rcases find_free_cluster_spec fat1 with h | h
      · omega
      · omega
    have hfb' : entryFirstBlock (s'.disk r.parent_cluster) r.entry_index
        = fc := by
      rw [hdisk'p, firstBlock_setEntryFirstSize_self _ _ _ _ hplen hidx32]
      exact Nat.mod_eq_of_lt hfc65536
    have hsz' : entrySize (s'.disk r.parent_cluster) r.entry_index = 0 := by
      rw [hdisk'p, size_setEntryFirstSize_self _ _ _ _ hplen hidx32]
    have hcongr := find_entry_congr s s' p r hres hfound hattr
      (by
        intro d hd
        have hd9 := (hdirs d hd).1
        have hdp : d ≠ r.parent_cluster := by
          intro h
          rw [h] at hd
          exact hponce hd
        exact hdisk'other d hd9 hdp)
      (by
        rw [hdisk'p]
        exact shapeEq_setEntryFirstSize _ _ _ _ hplen hidx32)
      hponce
    simp only [fs_read, hcongr]
    rw [if_neg (by simp [hfound])]
    rw [if_neg (by simp [hattr])]
    simp only [hfb', hsz']
    have hread : readLoop s' fc 0 = Except.ok [] := by
      rw [readLoop]
      simp only [readLoopAux]
      rw [if_neg (by simp)]
    rw [hread]

set_option maxRecDepth 1000000 in
/-- C1 witness: writing the single byte 103 to "/f" in the one-file state
succeeds, and the round-trip theorem instantiates there: the immediately
following read emits exactly that byte plus the newline. -/
theorem write_read_round_trip_witness :
    fs_write sF [47, 102] [103] =
      (Except.ok (), (fs_write sF [47, 102] [103]).2) ∧
    (fs_read (fs_write sF [47, 102] [103]).2 [47, 102]).1 =
      Except.ok ([103] ++ [10]) :=
  have hok : fs_write sF [47, 102] [103] =
      (Except.ok (), (fs_write sF [47, 102] [103]).2) :=
    Prod.ext (by decide) rfl
  ⟨hok,
    write_read_round_trip sF (fs_write sF [47, 102] [103]).2 [47, 102] [103]
      rF (by decide) (by decide) (by decide) (by decide) (by decide)
      (by decide) (by decide) (by decide) (by decide) (by decide) hok⟩

/-- C5 (corrected).  `free_cluster_chain(head)` zeroes exactly the FAT
entries its walk visits and leaves every other entry unchanged, and the walk
stops exactly when the running cluster value is 0 or ≥ 0xFFFF: contrary to
the spec's "≥ 0xFFFD" rule, the sentinels 0xFFFD and 0xFFFE do not stop it —
such a value is followed as an index into the table (out of range in C). -/
theorem free_chain_frees_visited (fat : Nat → Nat) (head : Nat) :
    (∀ i ∈ chainVisited fat head, free_cluster_chain fat head i = 0) ∧
    (∀ i, i ∉ chainVisited fat head → free_cluster_chain fat head i = fat i) ∧
    (∀ fuel cur, (chainVisitedAux (fuel + 1) fat cur = [] ↔
      cur = 0 ∨ FAT_ENTRY_EOF ≤ cur)) ∧
    (∀ fuel cur, cur ≠ 0 → cur < FAT_ENTRY_EOF →
      chainVisitedAux (fuel + 1) fat cur =
        cur :: chainVisitedAux fuel (Function.update fat cur FAT_ENTRY_FREE)
          (fat cur)) :=
  ⟨fun i hi => (free_cluster_chain_eq fat head i).1 hi,
   fun i hi => (free_cluster_chain_eq fat head i).2 hi,
   fun fuel cur => chainVisitedAux_nil_iff fuel fat cur,
   fun fuel cur h1 h2 => by
     simp only [chainVisitedAux]
     rw [if_pos ⟨h1, h2⟩]⟩

set_option maxRecDepth 1000000 in
/-- C5 witness: on `fatC5` the head cluster 10 is visited and its entry is
freed by the walk. -/
theorem free_chain_frees_visited_witness :
    (10 ∈ chainVisited fatC5 10) ∧ free_cluster_chain fatC5 10 10 = 0 :=
  ⟨by decide, (free_chain_frees_visited fatC5 10).1 10 (by decide)⟩

set_option maxRecDepth 1000000 in
/-- C5 counterexample to the spec's stopping rule: from head 10 the code's
walk reads the value 0xFFFD and keeps going, zeroing entries 0xFFFD = 65533
(an out-of-range table index in C) and 20, while the walk modelled on the
spec's words stops at the 0xFFFD value and leaves both entries untouched. -/
theorem free_chain_stop_counterexample :
    free_cluster_chain fatC5 10 20 = 0 ∧
    free_cluster_chain fatC5 10 65533 = 0 ∧
    freeChainSpec fatC5 10 20 = FAT_ENTRY_EOF ∧
    freeChainSpec fatC5 10 65533 = 20 :=
  ⟨by decide, by decide, by decide, by decide⟩

/-- C6 (corrected).  On a failing resolution the returned `parent_cluster`
is the directory cluster in which the LAST MATCHED component was found (the
root preset when the very first component fails) — it is NOT updated to the
directory cluster in which the search for the failing component itself took
place. -/
theorem resolver_parent_last_matched (s : FS) (path : List Nat)
    (res : path_search_result_t)
    (htok : splitPath (path.take 511) ≠ [])
    (hres : find_entry_by_path s path = some res)
    (hfail : res.found = false) :
    res.parent_cluster =
      ((walkDirsRead s (splitPath (path.take 511))
        ROOT_DIR_CLUSTER).dropLast).getLastD ROOT_DIR_CLUSTER := by
  simp only [find_entry_by_path] at hres
  by_cases hroot : path.take 511 = [47]
  · rw [if_pos hroot] at hres
    have h := Option.some.inj hres
    rw [← h] at hfail
    simp at hfail
  · rw [if_neg hroot] at hres
    cases htokE : splitPath (path.take 511) with
    | nil => exact absurd htokE htok
    | cons t rest =>
      rw [htokE] at hres
      have hmain := walkPath_fail_parent (t :: rest) s ROOT_DIR_CLUSTER
        emptyResult res hres hfail
      simpa [emptyResult] using hmain

set_option maxRecDepth 1000000 in
/-- C6 witness: resolving the absent "/g" in the one-file state fails with
`parent_cluster` 9, the root preset (no component ever matched). -/
theorem resolver_parent_last_matched_witness :
    find_entry_by_path sF [47, 103] = some rGmiss ∧
    rGmiss.parent_cluster =
      ((walkDirsRead sF (splitPath ([47, 103].take 511))
        ROOT_DIR_CLUSTER).dropLast).getLastD ROOT_DIR_CLUSTER :=
  have hres : find_entry_by_path sF [47, 103] = some rGmiss := by decide
  ⟨hres, resolver_parent_last_matched sF [47, 103] rGmiss (by decide) hres
    (by decide)⟩

set_option maxRecDepth 1000000 in
/-- C6 counterexample to the spec's wording: resolving "/a/b" (with "/a" an
empty directory at cluster 10) fails inside cluster 10 — the last directory
cluster the walk read is 10 — yet the returned `parent_cluster` is 9. -/
theorem resolver_parent_counterexample :
    (find_entry_by_path sDirA [47, 97, 47, 98]).map
      (fun res => (res.found, res.parent_cluster)) = some (false, 9) ∧
    (walkDirsRead sDirA (splitPath ([47, 97, 47, 98].take 511))
      ROOT_DIR_CLUSTER).getLast? = some 10 :=
  ⟨by decide, by decide⟩

set_option maxRecDepth 1000000 in
/-- C7 (corrected).  `fs_mkdir` called on exactly "/" does NOT fail with an
invalid-argument error: on the freshly formatted state it succeeds, taking
free cluster 10 (previously Free, now marked end-of-chain in the FAT) and
storing a directory slot whose name is empty (leading byte 0) in the root. -/
theorem mkdir_root_succeeds_allocates :
    (fs_mkdir fs_format [47]).1 = Except.ok () ∧
    fs_format.fat 10 = FAT_ENTRY_FREE ∧
    (fs_mkdir fs_format [47]).2.fat 10 = FAT_ENTRY_EOF ∧
    byteAt ((fs_mkdir fs_format [47]).2.disk 9) 0 = 0 ∧
    entryAttr ((fs_mkdir fs_format [47]).2.disk 9) 0 = ATTR_DIRECTORY :=
  ⟨by decide, by decide, by decide, by decide, by decide⟩

set_option maxRecDepth 1000000 in
/-- C7 counterexample to the spec's wording: the call neither returns the
invalid-path error nor leaves the FAT unmodified. -/
theorem mkdir_root_counterexample :
    (fs_mkdir fs_format [47]).1 ≠ Except.error Err.InvalidPath ∧
    (fs_mkdir fs_format [47]).2.fat 10 ≠ fs_format.fat 10 :=
  ⟨by decide, by decide⟩

set_option maxRecDepth 1000000 in
/-- C8 (corrected).  `fs_unlink` on the root path "/" is NOT rejected when
the root is empty: on the formatted state it returns success (the
synthesized root result carries first_block 0, whose chain free is a no-op,
and slot 0 of the already-empty root is zeroed again), leaving the FAT
mirror and the root cluster's bytes unchanged.  Only a NON-empty root makes
it fail, with the directory-not-empty error and the state returned as is. -/
theorem unlink_root_behavior :
    (fs_unlink fs_format [47]).1 = Except.ok () ∧
    (fs_unlink fs_format [47]).2.fat = fs_format.fat ∧
    (fs_unlink fs_format [47]).2.disk 9 = fs_format.disk 9 ∧
    (fs_unlink sDirA [47]).1 = Except.error Err.DirNotEmpty ∧
    (fs_unlink sDirA [47]).2 = sDirA :=
  ⟨by decide, rfl, by decide, by decide, rfl⟩

set_option maxRecDepth 1000000 in
/-- C8 counterexample to the spec's wording that an unlink of "/" returns
failure: on the formatted (empty-root) state it returns success. -/
theorem unlink_root_counterexample :
    (fs_unlink fs_format [47]).1 = Except.ok () := by decide

/-- C3.  A write that fails with no-space inside the cluster-allocation
loop rolls the partially built chain back before returning: the parent
directory cluster (hence the target file's stored first_cluster and size)
is byte-identical to before the call, every cluster that was allocated
after the old chain was freed is allocated with the same FAT value and the
same data as before, and no new cluster remains allocated (no orphans). -/
theorem write_no_space_rollback (s s' : FS) (p B : List Nat)
    (r : path_search_result_t)
    (hres : find_entry_by_path s p = some r)
    (hpfat : s.fat r.parent_cluster ≠ 0)
    (hpchain : r.parent_cluster ∉ chainVisited s.fat r.entry_first_block)
    (hBpos : 0 < B.length)
    (herr : fs_write s p B = (Except.error Err.NoSpace, s')) :
    s'.disk r.parent_cluster = s.disk r.parent_cluster ∧
    entryFirstBlock (s'.disk r.parent_cluster) r.entry_index =
      entryFirstBlock (s.disk r.parent_cluster) r.entry_index ∧
    entrySize (s'.disk r.parent_cluster) r.entry_index =
      entrySize (s.disk r.parent_cluster) r.entry_index ∧
    (∀ c, s'.fat c = 0 ∨
      s'.fat c = free_cluster_chain s.fat r.entry_first_block c) ∧
    (∀ c, free_cluster_chain s.fat r.entry_first_block c ≠ 0 →
      s'.fat c = free_cluster_chain s.fat r.entry_first_block c ∧
      s'.disk c = s.disk c) := by
  simp only [fs_write, hres] at herr
  by_cases hgate : r.found = false ∨ r.entry_attributes ≠ ATTR_ARCHIVE
  · rw [if_pos hgate] at herr
    simp at herr
  · rw [if_neg hgate, if_pos hBpos] at herr
    rcases hloop : writeAllocLoop
        { s with fat := free_cluster_chain s.fat r.entry_first_block }
        (chunks1024 B) 0 0 with ⟨res, s2⟩
    rw [hloop] at herr
    cases res with
    | ok fc =>
      simp only [] at herr
      cases hrd : read_cluster s2 r.parent_cluster with
      | none =>
        rw [hrd] at herr
        simp at herr
      | some pdc =>
        rw [hrd] at herr
        simp only [] at herr
        cases hwr : write_cluster s2 r.parent_cluster
            (setEntryFirstSize pdc r.entry_index fc B.length) with
        | none =>
          rw [hwr] at herr
          simp at herr
        | some s3 =>
          rw [hwr] at herr
          simp at herr
    | error e =>
      simp only [Prod.mk.injEq] at herr
      have hs2 : s2 = s' := herr.2
      obtain ⟨he, hfr, hdisj⟩ := writeAllocLoop_top_err (chunks1024 B)
        { s with fat := free_cluster_chain s.fat r.entry_first_block }
        e s2 hloop
      have hfatp : free_cluster_chain s.fat r.entry_first_block
          r.parent_cluster = s.fat r.parent_cluster :=
        (free_cluster_chain_eq s.fat r.entry_first_block r.parent_cluster).2
          hpchain
      have hppos : free_cluster_chain s.fat r.entry_first_block
          r.parent_cluster ≠ 0 := by
        rw [hfatp]
        exact hpfat
      have hparent : s'.disk r.parent_cluster = s.disk r.parent_cluster := by
        rw [← hs2]
        exact (hfr r.parent_cluster hppos).2
      refine ⟨hparent, by rw [hparent], by rw [hparent], ?_, ?_⟩
      · intro c
        rw [← hs2]
        exact hdisj c
      · intro c hc
        rw [← hs2]
        exact hfr c hc

set_option maxRecDepth 10000000 in
set_option maxHeartbeats 4000000 in
/-- C3 witness: on the full partition, writing one byte to "/f" fails with
no-space, and the rollback theorem instantiates there: the root directory
cluster is unchanged. -/
theorem write_no_space_rollback_witness :
    fs_write sFull [47, 102] [103] =
      (Except.error Err.NoSpace, (fs_write sFull [47, 102] [103]).2) ∧
    (fs_write sFull [47, 102] [103]).2.disk rF0.parent_cluster =
      sFull.disk rF0.parent_cluster :=
  have herr : fs_write sFull [47, 102] [103] =
      (Except.error Err.NoSpace, (fs_write sFull [47, 102] [103]).2) :=
    Prod.ext (by decide) rfl
  ⟨herr,
    (write_no_space_rollback sFull (fs_write sFull [47, 102] [103]).2
      [47, 102] [103] rF0 (by decide) (by decide) (by decide) (by decide)
      herr).1⟩

set_option maxRecDepth 1000000 in
/-- Concrete end-to-end instance of the resolver's missing directory check:
in `sFileDir` the path "/f" resolves to a REGULAR FILE (attribute archive),
yet "/f/x" also resolves successfully — the resolver reads f's first data
cluster (cluster 10) and scans its raw bytes as 32 directory entries,
returning the record decoded from them with parent_cluster 10. -/
theorem resolver_through_file_entry :
    (find_entry_by_path sFileDir [47, 102]).map
      (fun r => (r.found, r.entry_attributes)) =
      some (true, ATTR_ARCHIVE) ∧
    find_entry_by_path sFileDir [47, 102, 47, 120] = some rXin10 :=
  ⟨by decide, by decide⟩

/-- C9.  `find_entry_by_path` never checks that an intermediate path
component resolves to a directory: whenever the current component matches
an occupied slot `i` of the directory cluster just read — even when that
slot's attribute byte is the regular-file attribute — and further
components remain, the walk continues by recursing into the entry's
`first_block` cluster, whose raw bytes the next iteration reads and scans
as 32 directory entries, instead of failing with a parent-not-a-directory
error.  The attribute hypothesis is never used by the proof: the code
inspects no attribute at all. -/
theorem resolver_steps_through_file (s : FS) (token : List Nat)
    (rest : List (List Nat)) (cur : Nat) (r : path_search_result_t)
    (c : List Nat) (i : Nat)
    (hrd : read_cluster s cur = some c)
    (hfind : findInCluster c token = some i)
    (hattr : entryAttr c i = ATTR_ARCHIVE) :
    walkPath s (token :: rest) cur r =
      walkPath s rest (entryFirstBlock c i)
        { r with
          name := token.take 17,
          parent_cluster := cur,
          entry_cluster := entryFirstBlock c i,
          entry_index := i,
          entry_filename := entryFilenameC c i,
          entry_attributes := entryAttr c i,
          entry_first_block := entryFirstBlock c i,
          entry_size := entrySize c i } := by
  simp only [walkPath, hrd, hfind]

set_option maxRecDepth 1000000 in
/-- C9 witness: in `sFileDir` the component "f" of the path "/f/x" matches
the regular-file slot 0 of the root cluster, and the step theorem
instantiates there: the walk continues into f's first data cluster 10
rather than failing. -/
theorem resolver_steps_through_file_witness :
    walkPath sFileDir [[102], [120]] 9 emptyResult =
      walkPath sFileDir [[120]] (entryFirstBlock rootWithF 0)
        { emptyResult with
          name := [102].take 17,
          parent_cluster := 9,
          entry_cluster := entryFirstBlock rootWithF 0,
          entry_index := 0,
          entry_filename := entryFilenameC rootWithF 0,
          entry_attributes := entryAttr rootWithF 0,
          entry_first_block := entryFirstBlock rootWithF 0,
          entry_size := entrySize rootWithF 0 } :=
  resolver_steps_through_file sFileDir [102] [[120]] 9 emptyResult rootWithF 0
    (by decide) (by decide) (by decide)

/-- C2 (corrected).  The FAT system region — entry 0 = 0xFFFD (boot),
entries 1..8 = 0xFFFE (reserved FAT region), entry 9 = 0xFFFF (root) —
holds after format and is preserved unconditionally by mkdir, create and
read, and by unlink, write and append whenever the resolved entry's cluster
chain (and, for append, the cluster the tail walk lands on) lies inside the
data area.  It is NOT preserved by every operation in every sequence: the
empty-content write path assigns FAT[find_free_cluster()] = 0xFFFF without
checking the allocator's 0 no-space sentinel, so on a full partition an
empty write to a file whose entry stores first_block 0 overwrites the boot
sentinel FAT[0] (the counterexample below). -/
theorem fat_system_region_preserved :
    sysOk fs_format.fat ∧
    (∀ s p, sysOk s.fat → sysOk (fs_mkdir s p).2.fat) ∧
    (∀ s p, sysOk s.fat → sysOk (fs_create s p).2.fat) ∧
    (∀ s p, sysOk s.fat → sysOk (fs_read s p).2.fat) ∧
    (∀ s p r, find_entry_by_path s p = some r →
      (∀ c ∈ chainVisited s.fat r.entry_first_block, 10 ≤ c) →
      sysOk s.fat → sysOk (fs_unlink s p).2.fat) ∧
    (∀ s p content r, find_entry_by_path s p = some r →
      (∀ c ∈ chainVisited s.fat r.entry_first_block, 10 ≤ c ∧ c < 4096) →
      chainVisited s.fat r.entry_first_block ≠ [] →
      sysOk s.fat → sysOk (fs_write s p content).2.fat) ∧
    (∀ s p content r, find_entry_by_path s p = some r →
      10 ≤ (if 0 < r.entry_size then
        walkTailAux 65536 s.fat r.entry_first_block
        else r.entry_first_block) →
      sysOk s.fat → sysOk (fs_append s p content).2.fat) := by
  refine ⟨?_, ?_, ?_, ?_, ?_, ?_, ?_⟩
  · refine ⟨rfl, ?_, rfl⟩
    intro i h1 h8
    show formatFat i = FAT_ENTRY_RESERVED
    rw [formatFat, if_neg (by omega), if_pos ⟨h1, h8⟩]
  · exact fun s p h => fs_mkdir_sys s p h
  · exact fun s p h => fs_create_sys s p h
  · intro s p h
    rw [fs_read_state]
    exact h
  · exact fun s p r hres hvis h => fs_unlink_sys s p r hres hvis h
  · exact fun s p content r hres hvis hne h =>
      fs_write_sys s p content r hres hvis hne h
  · exact fun s p content r hres hcur h =>
      fs_append_sys s p content r hres hcur h

/-- C2 witness: the invariant holds on the formatted state and, by the
preservation theorem applied there, still holds after a mkdir. -/
theorem fat_system_region_preserved_witness :
    sysOk fs_format.fat ∧ sysOk (fs_mkdir fs_format [47, 120]).2.fat :=
  have hsys : sysOk fs_format.fat :=
    ⟨rfl, fun i h1 h8 => by
      show formatFat i = FAT_ENTRY_RESERVED
      rw [formatFat, if_neg (by omega), if_pos ⟨h1, h8⟩], rfl⟩
  ⟨hsys, fat_system_region_preserved.2.1 fs_format [47, 120] hsys⟩

set_option maxRecDepth 10000000 in
set_option maxHeartbeats 4000000 in
/-- C2 counterexample to the spec's universality: on the full partition the
empty-content write to "/f" — whose directory entry stores first_block 0,
as a create on a full disk leaves it — succeeds, yet it overwrites FAT[0],
the boot sentinel 0xFFFD, with 0xFFFF: the empty-write branch assigns
FAT[find_free_cluster()] = end-of-chain without checking the allocator's 0
no-space sentinel. -/
theorem fat_boot_clobbered_counterexample :
    sFull.fat 0 = FAT_ENTRY_BOOT ∧
    (fs_write sFull [47, 102] []).1 = Except.ok () ∧
    (fs_write sFull [47, 102] []).2.fat 0 = FAT_ENTRY_EOF :=
  ⟨by decide, by decide, by decide⟩

/-- C10.  A create or mkdir whose final component is longer than 17 bytes
succeeds, but stores the component truncated to its first 17 bytes plus a
NUL terminator; a subsequent resolution of the original untruncated path
returns found = false, because the byte-exact name comparison matches the
full component against the stored truncated C string. -/
theorem long_name_truncation_lookup_fails (name : List Nat)
    (hlong : 17 < name.length) (hshort : name.length ≤ 500)
    (hb0 : ∀ b ∈ name, b ≠ 0) (hb47 : ∀ b ∈ name, b ≠ 47) :
    (fs_create fs_format (47 :: name)).1 = Except.ok () ∧
    entryFilenameC ((fs_create fs_format (47 :: name)).2.disk 9) 0 =
      name.take 17 ∧
    byteAt ((fs_create fs_format (47 :: name)).2.disk 9) 17 = 0 ∧
    (find_entry_by_path (fs_create fs_format (47 :: name)).2
      (47 :: name)).map (fun res => res.found) = some false ∧
    (fs_mkdir fs_format (47 :: name)).1 = Except.ok () ∧
    entryFilenameC ((fs_mkdir fs_format (47 :: name)).2.disk 9) 0 =
      name.take 17 ∧
    byteAt ((fs_mkdir fs_format (47 :: name)).2.disk 9) 17 = 0 ∧
    (find_entry_by_path (fs_mkdir fs_format (47 :: name)).2
      (47 :: name)).map (fun res => res.found) = some false := by
  have hne : name ≠ [] := by
    intro h
    rw [h] at hlong
    simp at hlong
  have htake : (47 :: name).take 511 = 47 :: name :=
    List.take_of_length_le (by simp; omega)
  have hne47 : (47 :: name).take 511 ≠ [47] := by
    rw [htake]
    intro h
    exact hne (by injection h)
  have hstepC := fs_create_format_long name hlong hshort hb47
  have hstepM := fs_mkdir_format_long name hlong hshort hb47
  have hd9 : fs_format.disk 9 = List.replicate 1024 0 := rfl
  obtain ⟨hfcC, hb17C, hfindC⟩ :=
    truncated_slot name ATTR_ARCHIVE 10 0 hlong hb0
  obtain ⟨hfcM, hb17M, hfindM⟩ :=
    truncated_slot name ATTR_DIRECTORY 10 0 hlong hb0
  have hdC : (fs_create fs_format (47 :: name)).2.disk 9 =
      writeDirEntry (List.replicate 1024 0) 0 (nameField name)
        ATTR_ARCHIVE 10 0 := by
    rw [hstepC]
    dsimp only [persistFat]
    rw [if_neg (by omega), Function.update_same, hd9]
  have hdM : (fs_mkdir fs_format (47 :: name)).2.disk 9 =
      writeDirEntry (List.replicate 1024 0) 0 (nameField name)
        ATTR_DIRECTORY 10 0 := by
    rw [hstepM]
    dsimp only [persistFat]
    rw [if_neg (by omega), Function.update_noteq (by omega),
      Function.update_same, hd9]
  have hlookC : (find_entry_by_path (fs_create fs_format (47 :: name)).2
      (47 :: name)).map (fun res => res.found) = some false := by
    rw [find_entry_by_path]
    simp only [htake]
    rw [if_neg (by rw [← htake]; exact hne47)]
    rw [splitPath_single name hne hb47]
    simp only [walkPath]
    rw [read_cluster]
    rw [if_pos (by decide)]
    simp only [ROOT_DIR_CLUSTER, hdC, hfindC]
    rfl
  have hlookM : (find_entry_by_path (fs_mkdir fs_format (47 :: name)).2
      (47 :: name)).map (fun res => res.found) = some false := by
    rw [find_entry_by_path]
    simp only [htake]
    rw [if_neg (by rw [← htake]; exact hne47)]
    rw [splitPath_single name hne hb47]
    simp only [walkPath]
    rw [read_cluster]
    rw [if_pos (by decide)]
    simp only [ROOT_DIR_CLUSTER, hdM, hfindM]
    rfl
  refine ⟨by rw [hstepC], by rw [hdC]; exact hfcC, by rw [hdC]; exact hb17C,
    hlookC, by rw [hstepM], by rw [hdM]; exact hfcM,
    by rw [hdM]; exact hb17M, hlookM⟩

set_option maxRecDepth 1000000 in
/-- C10 witness: the 18-byte name `nameLong` exceeds the field, and the
theorem instantiates: the create succeeds yet resolving the original path
afterwards fails. -/
theorem long_name_truncation_lookup_fails_witness :
    17 < nameLong.length ∧
    (fs_create fs_format (47 :: nameLong)).1 = Except.ok () ∧
    (find_entry_by_path (fs_create fs_format (47 :: nameLong)).2
      (47 :: nameLong)).map (fun res => res.found) = some false :=
  have hmain := long_name_truncation_lookup_fails nameLong (by decide)
    (by decide) (by decide) (by decide)
  ⟨by decide, hmain.1, hmain.2.2.2.1⟩

theorem getD_length_sub_one (l : List Nat) (hne : l ≠ []) :
    l.getD (l.length - 1) 0 = l.getLastD 0 := by
  have hlt : l.length - 1 < l.length := by
    cases l with
    | nil => exact absurd rfl hne
    | cons a t => simp
  rw [List.getD_eq_getElem l 0 hlt, getLastD_eq_getLast l hne,
    List.getLast_eq_getElem l hne]

theorem getD_ne_getD_of_nodup (l : List Nat) (hnd : l.Nodup) (i j : Nat)
    (hi : i < l.length) (hj : j < l.length) (hij : i ≠ j) :
    l.getD i 0 ≠ l.getD j 0 := by
  rw [List.getD_eq_getElem l 0 hi, List.getD_eq_getElem l 0 hj]
  intro h
  exact hij (hnd.getElem_inj_iff.mp h)

/-- Shared final phase of a successful `fs_append`: once the loop has left a
state `sMid` whose chain `cs` holds the zero-padded 1024-byte slices of
`C ++ B`, the parent-slot size surgery and the FAT persist yield a state in
which reading the path emits `C ++ B` plus the trailing newline. -/
theorem append_finish (s sMid s' : FS) (p B C cs : List Nat)
    (r : path_search_result_t)
    (hres : find_entry_by_path s p = some r)
    (hfound : r.found = true)
    (hattr : r.entry_attributes = ATTR_ARCHIVE)
    (hplen : (s.disk r.parent_cluster).length = 1024)
    (hp9 : 9 ≤ r.parent_cluster)
    (hbound : C.length + B.length < 4294967296)
    (hpnotin : r.parent_cluster ∉ cs)
    (hdirs2 : ∀ d ∈ (walkDirsRead s (splitPath (p.take 511))
        ROOT_DIR_CLUSTER).dropLast, 9 ≤ d ∧ sMid.disk d = s.disk d)
    (hponce : r.parent_cluster ∉ (walkDirsRead s (splitPath (p.take 511))
        ROOT_DIR_CLUSTER).dropLast)
    (hsMidp : sMid.disk r.parent_cluster = s.disk r.parent_cluster)
    (hlen : cs.length = (chunks1024 (C ++ B)).length)
    (hheadcs : cs ≠ [] → cs.headD 0 = r.entry_first_block)
    (hmemcs : ∀ c ∈ cs, 10 ≤ c ∧ c < 4096)
    (hchcs : List.Chain' (fun a b => sMid.fat a = b) cs)
    (hdisks : ∀ i, i < cs.length → sMid.disk (cs.getD i 0) =
      (chunks1024 (C ++ B)).getD i [] ++
        List.replicate (1024 - ((chunks1024 (C ++ B)).getD i []).length) 0)
    (hs'eq : s' = persistFat (FS.mk sMid.fat
      (Function.update sMid.disk r.parent_cluster
        (setEntrySize (sMid.disk r.parent_cluster) r.entry_index
          (C.length + B.length))))) :
    (fs_read s' p).1 = Except.ok ((C ++ B) ++ [10]) := by
  obtain ⟨htokne, hwalk, hp4096, hidx32, htrace, hocc, hfn, hat, hfbE, hszE⟩ :=
    find_entry_success_spec s p r hres hfound hattr
  have hfat' : s'.fat = sMid.fat := by
    rw [hs'eq]
    rfl
  have hdisk'p : s'.disk r.parent_cluster =
      setEntrySize (s.disk r.parent_cluster) r.entry_index
        (C.length + B.length) := by
    rw [hs'eq, persistFat]
    simp only []
    rw [if_neg (by omega)]
    rw [Function.update_same, hsMidp]
  have hdisk'other : ∀ d, 9 ≤ d → d ≠ r.parent_cluster →
      s'.disk d = sMid.disk d := by
    intro d hd9 hdp
    rw [hs'eq, persistFat]
    simp only []
    rw [if_neg (by omega)]
    rw [Function.update_noteq hdp]
  have hfb' : entryFirstBlock (s'.disk r.parent_cluster) r.entry_index =
      r.entry_first_block := by
    rw [hdisk'p, firstBlock_setEntrySize _ _ _ _ hplen hidx32 hidx32]
    exact hfbE.symm
  have hsz' : entrySize (s'.disk r.parent_cluster) r.entry_index =
      C.length + B.length := by
    rw [hdisk'p, size_setEntrySize_self _ _ _ hplen hidx32]
    exact Nat.mod_eq_of_lt (by omega)
  have hcongr := find_entry_congr s s' p r hres hfound hattr
    (by
      intro d hd
      obtain ⟨hd9, hds⟩ := hdirs2 d hd
      have hdp : d ≠ r.parent_cluster := by
        intro h
        rw [h] at hd
        exact hponce hd
      rw [hdisk'other d hd9 hdp, hds])
    (by
      rw [hdisk'p]
      exact shapeEq_setEntrySize _ _ _ hplen hidx32)
    hponce
  simp only [fs_read, hcongr]
  rw [if_neg (by simp [hfound])]
  rw [if_neg (by simp [hattr])]
  simp only [hfb', hsz']
  have hread : readLoop s' r.entry_first_block (C ++ B).length =
      Except.ok (C ++ B) := by
    apply readLoop_chain cs (C ++ B) s' r.entry_first_block hlen hheadcs
    · intro c hc
      exact (hmemcs c hc).2
    · rw [hfat']
      exact hchcs
    · intro i hi
      have hc_mem : cs.getD i 0 ∈ cs := getD_mem_of_lt cs i hi
      have hc10 : 10 ≤ cs.getD i 0 := (hmemcs _ hc_mem).1
      have hcp : cs.getD i 0 ≠ r.parent_cluster := by
        intro h
        rw [h] at hc_mem
        exact hpnotin hc_mem
      rw [hdisk'other (cs.getD i 0) (by omega) hcp]
      exact hdisks i hi
  rw [show C.length + B.length = (C ++ B).length from
    (List.length_append C B).symm, hread]

set_option maxHeartbeats 1000000 in
/-- C4.  The append law: for every path that resolves to a regular file
whose stored content bytes are `C`, laid out along a well-formed cluster
chain `cs0` (Nodup data-area clusters linked by the FAT mirror, ending in
end-of-chain, holding the successive zero-padded 1024-byte slices of `C`,
with the slot's recorded size equal to `C.length`), and every content `B`,
if `fs_append` succeeds then `fs_read` emitted exactly `C` plus the trailing
newline before the call and emits exactly `C ++ B` plus the trailing newline
afterwards.  The well-formedness hypotheses also place the parent cluster
and every intermediate directory cluster of the walk outside the FAT region,
allocated, and off the file's chain. -/
theorem append_law (s s' : FS) (p B C cs0 : List Nat)
    (r : path_search_result_t)
    (hres : find_entry_by_path s p = some r)
    (hfound : r.found = true)
    (hattr : r.entry_attributes = ATTR_ARCHIVE)
    (hszC : r.entry_size = C.length)
    (hbound : C.length + B.length < 4294967296)
    (hhead0 : cs0.head? = some r.entry_first_block)
    (hcs0len : cs0.length = max 1 ((C.length + 1023) / 1024))
    (hnd0 : cs0.Nodup)
    (hmem0 : ∀ c ∈ cs0, 10 ≤ c ∧ c < 4096)
    (hch0 : List.Chain' (fun a b => s.fat a = b) cs0)
    (hlast0 : s.fat (cs0.getLastD 0) = FAT_ENTRY_EOF)
    (hdisk0 : ∀ i, i < cs0.length → s.disk (cs0.getD i 0) =
      (C.drop (1024 * i)).take 1024 ++
        List.replicate (1024 - ((C.drop (1024 * i)).take 1024).length) 0)
    (hplen : (s.disk r.parent_cluster).length = 1024)
    (hp9 : 9 ≤ r.parent_cluster)
    (hpfat : s.fat r.parent_cluster ≠ 0)
    (hpcs : r.parent_cluster ∉ cs0)
    (hdirs : ∀ d ∈ (walkDirsRead s (splitPath (p.take 511))
        ROOT_DIR_CLUSTER).dropLast, 9 ≤ d ∧ s.fat d ≠ 0 ∧ d ∉ cs0)
    (hponce : r.parent_cluster ∉ (walkDirsRead s (splitPath (p.take 511))
        ROOT_DIR_CLUSTER).dropLast)
    (hok : fs_append s p B = (Except.ok (), s')) :
    (fs_read s p).1 = Except.ok (C ++ [10]) ∧
    (fs_read s' p).1 = Except.ok ((C ++ B) ++ [10]) := by
  have hcs0ne : cs0 ≠ [] := by
    intro h
    rw [h] at hhead0
    simp at hhead0
  have hdisk0c : ∀ i, i < cs0.length → s.disk (cs0.getD i 0) =
      (chunks1024 C).getD i [] ++
        List.replicate (1024 - ((chunks1024 C).getD i []).length) 0 := by
    intro i hi
    rw [chunks_getD]
    exact hdisk0 i hi
  have hreadC : readLoop s r.entry_first_block C.length = Except.ok C := by
    by_cases hC : C = []
    · subst hC
      rw [readLoop]
      simp only [List.length_nil, readLoopAux]
      rw [if_neg (by simp)]
    · apply readLoop_chain cs0 C s r.entry_first_block
      · rw [chunks_length, hcs0len]
        have hCpos : 0 < C.length := List.length_pos.mpr hC
        omega
      · intro _
        cases cs0 with
        | nil => exact absurd rfl hcs0ne
        | cons c0 t => simpa using hhead0
      · intro c hc
        exact (hmem0 c hc).2
      · exact hch0
      · exact hdisk0c
  have hread1 : (fs_read s p).1 = Except.ok (C ++ [10]) := by
    simp only [fs_read, hres]
    rw [if_neg (by simp [hfound]), if_neg (by simp [hattr])]
    rw [hszC, hreadC]
  refine ⟨hread1, ?_⟩
  simp only [fs_append, hres] at hok
  rw [if_neg (by simp [hfound, hattr])] at hok
  by_cases hB0 : B.length = 0
  · rw [if_pos hB0] at hok
    simp only [Prod.mk.injEq] at hok
    have hBnil : B = [] := List.eq_nil_of_length_eq_zero hB0
    subst hBnil
    rw [← hok.2]
    simpa using hread1
  · rw [if_neg hB0] at hok
    simp only [hszC, CLUSTER_SIZE] at hok
    have hwtl : (if 0 < C.length then
        walkTailAux 65536 s.fat r.entry_first_block
        else r.entry_first_block) = cs0.getLastD 0 := by
      by_cases hC : 0 < C.length
      · rw [if_pos hC]
        cases cs0 with
        | nil => exact absurd rfl hcs0ne
        | cons c0 t =>
          have hc0 : c0 = r.entry_first_block := by simpa using hhead0
          have hgl : (c0 :: t).getLastD 0 =
              (c0 :: t).getLast (List.cons_ne_nil c0 t) :=
            getLastD_eq_getLast _ (by simp)
          rw [hgl, ← hc0]
          refine walkTailAux_chain t 65536 s.fat c0 hch0 ?_ ?_ ?_
          · rw [← hgl]
            exact hlast0
          · intro x hx
            have hx2 := hmem0 x hx
            simp only [FAT_ENTRY_EOF]
            omega
          · have hle := nodup_data_length_le (c0 :: t) hnd0 hmem0
            simp only [List.length_cons] at hle
            omega
      · rw [if_neg hC]
        have hC0 : C = [] := by
          cases C with
          | nil => rfl
          | cons a t => exact absurd (by simp) hC
        subst hC0
        simp only [List.length_nil] at hcs0len
        cases cs0 with
        | nil => exact absurd rfl hcs0ne
        | cons c0 t =>
          have hc0 : c0 = r.entry_first_block := by simpa using hhead0
          have ht : t = [] := by
            simp only [List.length_cons] at hcs0len
            have hh : t.length = 0 := by omega
            exact List.eq_nil_of_length_eq_zero hh
          subst ht
          rw [← hc0]
          rfl
    rw [hwtl] at hok
    have hlmem : cs0.getLastD 0 ∈ cs0 := getLastD_mem cs0 hcs0ne
    have hl10 : 10 ≤ cs0.getLastD 0 := (hmem0 _ hlmem).1
    have hl4096 : cs0.getLastD 0 < 4096 := (hmem0 _ hlmem).2
    have hBne : B ≠ [] := fun h => hB0 (by rw [h]; rfl)
    have hallfat : ∀ a ∈ cs0, s.fat a ≠ 0 :=
      chain_members_fat_ne_zero s.fat cs0 hch0 hlast0 hmem0
    by_cases hcond : C.length % 1024 = 0 ∧ 0 < C.length
    · -- the tail cluster is exactly full: pre-allocate a fresh cluster
      rw [if_pos hcond] at hok
      by_cases hnc0 : find_free_cluster s.fat = 0
      · rw [if_pos hnc0] at hok
        simp at hok
      · rw [if_neg hnc0] at hok
        simp only [] at hok
        rw [hcond.1] at hok
        set nc := find_free_cluster s.fat with hncdef
        set s1 : FS := FS.mk
          (Function.update (Function.update s.fat (cs0.getLastD 0) nc) nc
            FAT_ENTRY_EOF) s.disk with hs1def
        rcases happ : appendLoop s1 nc (List.replicate 1024 0) 0 B
          with ⟨ares, s2⟩
        rw [happ] at hok
        cases ares with
        | error e => simp at hok
        | ok u =>
          simp only [] at hok
          have hncspec := find_free_cluster_spec s.fat
          rw [← hncdef] at hncspec
          have hnc10 : 10 ≤ nc := by
            rcases hncspec with h | h
            · exact absurd h hnc0
            · exact h.1
          have hnc4096 : nc < 4096 := by
            rcases hncspec with h | h
            · exact absurd h hnc0
            · exact h.2.1
          have hncfree : s.fat nc = 0 := by
            rcases hncspec with h | h
            · exact absurd h hnc0
            · simpa [FAT_ENTRY_FREE] using h.2.2
          have hcurnc : cs0.getLastD 0 ≠ nc := by
            intro h
            have h2 := hlast0
            rw [h, hncfree] at h2
            simp [FAT_ENTRY_EOF] at h2
          have hs1fat : s1.fat = Function.update (Function.update s.fat
              (cs0.getLastD 0) nc) nc FAT_ENTRY_EOF := by
            rw [hs1def]
          have hs1nc : s1.fat nc = FAT_ENTRY_EOF := by
            rw [hs1fat, Function.update_same]
          have hs1cur : s1.fat (cs0.getLastD 0) = nc := by
            rw [hs1fat, Function.update_noteq hcurnc, Function.update_same]
          have hs1other : ∀ a, a ≠ cs0.getLastD 0 → a ≠ nc →
              s1.fat a = s.fat a := by
            intro a h1 h2
            rw [hs1fat, Function.update_noteq h2, Function.update_noteq h1]
          have hs1disk : s1.disk = s.disk := by
            rw [hs1def]
          obtain ⟨ext, hnd2, hfresh2, hch2, hlast2, hfatfr2, hdiskfr2, hdcur2,
              hidx2, hextlen⟩ :=
            appendLoopAux_spec (B.length + 1) B s1 nc (List.replicate 1024 0)
              0 hBne (by omega) (by omega) hnc10 hnc4096 hs1nc u s2 happ
          simp only [Nat.sub_zero] at hdcur2 hidx2 hextlen
          have hext_ne_nc : ∀ c ∈ ext, c ≠ nc := by
            intro c hc h
            have h2 := (hfresh2 c hc).2.2
            rw [h, hs1nc] at h2
            simp [FAT_ENTRY_EOF] at h2
          have hext_ne_cur : ∀ c ∈ ext, c ≠ cs0.getLastD 0 := by
            intro c hc h
            have h2 := (hfresh2 c hc).2.2
            rw [h, hs1cur] at h2
            exact hnc0 h2
          have hnewfree : ∀ c ∈ nc :: ext, 10 ≤ c ∧ c < 4096 ∧
              s.fat c = 0 := by
            intro c hc
            rcases List.mem_cons.mp hc with h | h
            · subst h
              exact ⟨hnc10, hnc4096, hncfree⟩
            · refine ⟨(hfresh2 c h).1, (hfresh2 c h).2.1, ?_⟩
              rw [← hs1other c (hext_ne_cur c h) (hext_ne_nc c h)]
              exact (hfresh2 c h).2.2
          have hpext : r.parent_cluster ∉ nc :: ext := by
            intro hmem
            exact hpfat (hnewfree _ hmem).2.2
          have hs2p : s2.disk r.parent_cluster = s.disk r.parent_cluster := by
            rw [hdiskfr2 _ hpext, hs1disk]
          have hcs0notin : ∀ a ∈ cs0, a ∉ nc :: ext := by
            intro a ha hmem
            exact hallfat a ha (hnewfree _ hmem).2.2
          have hs2cs0disk : ∀ a ∈ cs0, s2.disk a = s.disk a := by
            intro a ha
            rw [hdiskfr2 _ (hcs0notin a ha), hs1disk]
          have hs2cs0fat : ∀ a ∈ cs0.dropLast, s2.fat a = s.fat a := by
            intro a ha
            have hamem : a ∈ cs0 := List.dropLast_subset cs0 ha
            have hane : a ≠ cs0.getLastD 0 := by
              intro h
              rw [h] at ha
              exact getLastD_not_mem_dropLast cs0 hnd0 hcs0ne ha
            rw [hfatfr2 _ (hcs0notin a hamem)]
            refine hs1other a hane ?_
            intro h
            exact hallfat a hamem (by rw [h]; exact hncfree)
          have hrdp : read_cluster s2 r.parent_cluster =
              some (s2.disk r.parent_cluster) := by
            rw [read_cluster, if_pos (by
              simp only [CLUSTER_COUNT]
              have hp4096 := (find_entry_success_spec s p r hres hfound
                hattr).2.2.1
              omega)]
          rw [hrdp] at hok
          simp only [] at hok
          set pc2 := setEntrySize (s2.disk r.parent_cluster) r.entry_index
            (C.length + B.length) with hpc2def
          set s3 : FS :=
            FS.mk s2.fat (Function.update s2.disk r.parent_cluster pc2)
            with hs3def
          have hwrp : write_cluster s2 r.parent_cluster pc2 = some s3 := by
            rw [write_cluster, if_pos (by
              simp only [CLUSTER_COUNT]
              have hp4096 := (find_entry_success_spec s p r hres hfound
                hattr).2.2.1
              omega)]
          rw [hwrp] at hok
          simp only [Prod.mk.injEq] at hok
          have hs'eq : s' = persistFat s3 := hok.2.symm
          have hClen : C.length = 1024 * cs0.length := by omega
          refine append_finish s s2 s' p B C (cs0 ++ nc :: ext) r hres hfound
            hattr hplen hp9 hbound ?_ ?_ hponce hs2p ?_ ?_ ?_ ?_ ?_ ?_
          · intro hmem
            rcases List.mem_append.mp hmem with h | h
            · exact hpcs h
            · exact hpext h
          · intro d hd
            obtain ⟨hd9, hdfat, hdcs0⟩ := hdirs d hd
            have hdnot : d ∉ nc :: ext := fun hmem =>
              hdfat (hnewfree _ hmem).2.2
            refine ⟨hd9, ?_⟩
            rw [hdiskfr2 d hdnot, hs1disk]
          · rw [List.length_append, List.length_cons, chunks_length,
              List.length_append, hcs0len, hextlen]
            omega
          · intro _
            cases cs0 with
            | nil => exact absurd rfl hcs0ne
            | cons c0 t =>
              rw [List.cons_append, List.headD_cons]
              simpa using hhead0
          · intro c hc
            rcases List.mem_append.mp hc with h | h
            · exact hmem0 c h
            · exact ⟨(hnewfree c h).1, (hnewfree c h).2.1⟩
          · apply List.chain'_append.mpr
            refine ⟨chain_congr_dropLast s.fat s2.fat cs0 hs2cs0fat hch0,
              hch2, ?_⟩
            intro x hx y hy
            have hxval : x = cs0.getLastD 0 := by
              rw [List.getLast?_eq_getLast cs0 hcs0ne] at hx
              rw [getLastD_eq_getLast cs0 hcs0ne]
              exact (Option.mem_some_iff.mp hx).symm
            have hy0 : nc = y := by simpa using hy
            have hcurnot : cs0.getLastD 0 ∉ nc :: ext := by
              intro hmem
              rcases List.mem_cons.mp hmem with h | h
              · exact hcurnc h
              · exact (hext_ne_cur _ h) rfl
            rw [hxval, ← hy0, hfatfr2 _ hcurnot]
            exact hs1cur
          · intro i hi
            rw [chunks_getD]
            rw [List.length_append, List.length_cons] at hi
            by_cases hi2 : i < cs0.length
            · rw [getD_append_left cs0 _ i hi2]
              rw [hs2cs0disk _ (getD_mem_of_lt cs0 i hi2), hdisk0 i hi2,
                slice_append_left C B i (by omega)]
            · obtain ⟨j, rfl⟩ : ∃ j, i = cs0.length + j :=
                ⟨i - cs0.length, by omega⟩
              rw [getD_append_right_len cs0 (nc :: ext) j]
              cases j with
              | zero =>
                rw [show (nc :: ext).getD 0 0 = nc from rfl]
                rw [hdcur2]
                rw [slice_append_right C B (1024 * (cs0.length + 0))
                  (by omega)]
                rw [show 1024 * (cs0.length + 0) - C.length = 0 from by omega,
                  List.drop_zero]
                have hsp := splice_boundary [] B 0
                  (min B.length (1024 - 0)) rfl (by omega) rfl
                simp only [List.nil_append, Nat.sub_zero] at hsp
                rw [hsp]
                have htk : B.take (min B.length 1024) = B.take 1024 :=
                  List.take_eq_take.mpr (by omega)
                rw [htk]
              | succ j2 =>
                rw [List.getD_cons_succ]
                rw [hidx2 j2 (by omega)]
                rw [slice_append_right C B (1024 * (cs0.length + (j2 + 1)))
                  (by omega)]
                rw [show 1024 * (cs0.length + (j2 + 1)) - C.length =
                  min B.length 1024 + 1024 * j2 from by
                    have hj2 : j2 < ext.length := by omega
                    omega]
          · rw [hs'eq, hs3def, hpc2def]
    · -- the tail cluster has room: read it and append in place
      rw [if_neg hcond] at hok
      have hrdl : read_cluster s (cs0.getLastD 0) =
          some (s.disk (cs0.getLastD 0)) := by
        rw [read_cluster, if_pos (by simp only [CLUSTER_COUNT]; omega)]
      rw [hrdl] at hok
      simp only [] at hok
      rcases happ : appendLoop s (cs0.getLastD 0) (s.disk (cs0.getLastD 0))
          (C.length % 1024) B with ⟨ares, s2⟩
      rw [happ] at hok
      cases ares with
      | error e => simp at hok
      | ok u =>
        simp only [] at hok
        obtain ⟨ext, hnd2, hfresh2, hch2, hlast2, hfatfr2, hdiskfr2, hdcur2,
            hidx2, hextlen⟩ :=
          appendLoopAux_spec (B.length + 1) B s (cs0.getLastD 0)
            (s.disk (cs0.getLastD 0)) (C.length % 1024) hBne (by omega)
            (by omega) hl10 hl4096 hlast0 u s2 happ
        have harith : C.length = 1024 * (cs0.length - 1) +
            C.length % 1024 := by
          omega
        have hl : ((C.drop (1024 * (cs0.length - 1))).take 1024).length =
            C.length % 1024 := by
          rw [List.length_take, List.length_drop]
          omega
        have hbuf : s.disk (cs0.getLastD 0) =
            (C.drop (1024 * (cs0.length - 1))).take 1024 ++
              List.replicate (1024 - C.length % 1024) 0 := by
          have h := hdisk0 (cs0.length - 1) (by omega)
          rw [getD_length_sub_one cs0 hcs0ne] at h
          rw [h, hl]
        have hbound2 : s2.disk (cs0.getLastD 0) =
            ((C.drop (1024 * (cs0.length - 1))).take 1024 ++
                B.take (min B.length (1024 - C.length % 1024))) ++
              List.replicate (1024 -
                ((C.drop (1024 * (cs0.length - 1))).take 1024 ++
                  B.take (min B.length (1024 - C.length % 1024))).length)
                0 := by
          rw [hdcur2, hbuf]
          exact splice_boundary _ B (C.length % 1024) _ hl (by omega) rfl
        have hpext : r.parent_cluster ∉ cs0.getLastD 0 :: ext := by
          intro hmem
          rcases List.mem_cons.mp hmem with h | h
          · exact hpcs (by rw [h]; exact hlmem)
          · exact hpfat (hfresh2 _ h).2.2
        have hs2p : s2.disk r.parent_cluster = s.disk r.parent_cluster :=
          hdiskfr2 _ hpext
        have hrdp : read_cluster s2 r.parent_cluster =
            some (s2.disk r.parent_cluster) := by
          rw [read_cluster, if_pos (by
            simp only [CLUSTER_COUNT]
            have hp4096 := (find_entry_success_spec s p r hres hfound
              hattr).2.2.1
            omega)]
        rw [hrdp] at hok
        simp only [] at hok
        set pc2 := setEntrySize (s2.disk r.parent_cluster) r.entry_index
          (C.length + B.length) with hpc2def
        set s3 : FS :=
          FS.mk s2.fat (Function.update s2.disk r.parent_cluster pc2)
          with hs3def
        have hwrp : write_cluster s2 r.parent_cluster pc2 = some s3 := by
          rw [write_cluster, if_pos (by
            simp only [CLUSTER_COUNT]
            have hp4096 := (find_entry_success_spec s p r hres hfound
              hattr).2.2.1
            omega)]
        rw [hwrp] at hok
        simp only [Prod.mk.injEq] at hok
        have hs'eq : s' = persistFat s3 := hok.2.symm
        refine append_finish s s2 s' p B C (cs0 ++ ext) r hres hfound
          hattr hplen hp9 hbound ?_ ?_ hponce hs2p ?_ ?_ ?_ ?_ ?_ ?_
        · intro hmem
          rcases List.mem_append.mp hmem with h | h
          · exact hpcs h
          · exact hpext (List.mem_cons_of_mem _ h)
        · intro d hd
          obtain ⟨hd9, hdfat, hdcs0⟩ := hdirs d hd
          refine ⟨hd9, ?_⟩
          apply hdiskfr2
          intro hmem
          rcases List.mem_cons.mp hmem with h | h
          · exact hdcs0 (by rw [h]; exact hlmem)
          · exact hdfat (hfresh2 _ h).2.2
        · rw [List.length_append, chunks_length, List.length_append,
            hcs0len, hextlen]
          omega
        · intro _
          cases cs0 with
          | nil => exact absurd rfl hcs0ne
          | cons c0 t =>
            rw [List.cons_append, List.headD_cons]
            simpa using hhead0
        · intro c hc
          rcases List.mem_append.mp hc with h | h
          · exact hmem0 c h
          · exact ⟨(hfresh2 c h).1, (hfresh2 c h).2.1⟩
        · apply List.chain'_append.mpr
          refine ⟨?_, hch2.tail, ?_⟩
          · refine chain_congr_dropLast s.fat s2.fat cs0 ?_ hch0
            intro a ha
            have hamem : a ∈ cs0 := List.dropLast_subset cs0 ha
            have hane : a ≠ cs0.getLastD 0 := by
              intro h
              rw [h] at ha
              exact getLastD_not_mem_dropLast cs0 hnd0 hcs0ne ha
            apply hfatfr2
            intro hmem
            rcases List.mem_cons.mp hmem with h | h
            · exact hane h
            · exact hallfat a hamem (hfresh2 _ h).2.2
          · intro x hx y hy
            have hxval : x = cs0.getLastD 0 := by
              rw [List.getLast?_eq_getLast cs0 hcs0ne] at hx
              rw [getLastD_eq_getLast cs0 hcs0ne]
              exact (Option.mem_some_iff.mp hx).symm
            cases ext with
            | nil => simp at hy
            | cons e0 t2 =>
              have hy0 : e0 = y := by simpa using hy
              rw [hxval, ← hy0]
              exact (List.chain'_cons.mp hch2).1
        · intro i hi
          rw [chunks_getD]
          rw [List.length_append] at hi
          by_cases hi1 : i < cs0.length - 1
          · have hia : i < cs0.length := by omega
            rw [getD_append_left cs0 ext i hia]
            have ha_mem : cs0.getD i 0 ∈ cs0 := getD_mem_of_lt cs0 i hia
            have hane : cs0.getD i 0 ≠ cs0.getLastD 0 := by
              rw [← getD_length_sub_one cs0 hcs0ne]
              exact getD_ne_getD_of_nodup cs0 hnd0 i (cs0.length - 1) hia
                (by omega) (by omega)
            have hnotin : cs0.getD i 0 ∉ cs0.getLastD 0 :: ext := by
              intro hmem
              rcases List.mem_cons.mp hmem with h | h
              · exact hane h
              · exact hallfat _ ha_mem (hfresh2 _ h).2.2
            rw [hdiskfr2 _ hnotin, hdisk0 i hia,
              slice_append_left C B i (by omega)]
          · by_cases hi2 : i < cs0.length
            · have hieq : i = cs0.length - 1 := by omega
              subst hieq
              rw [getD_append_left cs0 ext _ hi2,
                getD_length_sub_one cs0 hcs0ne, hbound2]
              have hslice : ((C ++ B).drop
                    (1024 * (cs0.length - 1))).take 1024 =
                  (C.drop (1024 * (cs0.length - 1))).take 1024 ++
                    B.take (min B.length (1024 - C.length % 1024)) := by
                rw [List.drop_append_eq_append_drop,
                  show 1024 * (cs0.length - 1) - C.length = 0 from by omega,
                  List.drop_zero, List.take_append_eq_append_take]
                congr 1
                apply List.take_eq_take.mpr
                rw [List.length_drop]
                omega
              rw [hslice]
            · obtain ⟨j, rfl⟩ : ∃ j, i = cs0.length + j :=
                ⟨i - cs0.length, by omega⟩
              have hj : j < ext.length := by omega
              rw [getD_append_right_len cs0 ext j, hidx2 j hj]
              rw [slice_append_right C B (1024 * (cs0.length + j))
                (by omega)]
              rw [show 1024 * (cs0.length + j) - C.length =
                min B.length (1024 - C.length % 1024) + 1024 * j from
                  by omega]
        · rw [hs'eq, hs3def, hpc2def]

set_option maxRecDepth 1000000 in
set_option maxHeartbeats 4000000 in
/-- C4 witness: appending the byte 104 to "/f" in the one-file state
succeeds, and the append law instantiates there: the read before emits the
stored byte plus the newline, and the read after emits the stored byte, the
appended byte, and the newline. -/
theorem append_law_witness :
    (fs_read sF [47, 102]).1 = Except.ok ([102] ++ [10]) ∧
    (fs_read (fs_append sF [47, 102] [104]).2 [47, 102]).1 =
      Except.ok (([102] ++ [104]) ++ [10]) :=
  append_law sF (fs_append sF [47, 102] [104]).2 [47, 102] [104] [102] [10]
    rF (by decide) (by decide) (by decide) (by decide) (by decide)
    (by decide) (by decide) (by decide) (by decide) (by simp) (by decide)
    (by
      intro i hi
      simp only [List.length_cons, List.length_nil] at hi
      have h0 : i = 0 := by omega
      subst h0
      decide)
    (by decide) (by decide) (by decide) (by decide) (by decide) (by decide)
    (Prod.ext (by decide) rfl)
